import Mathlib

/-!
Portfolio tracker: persistence and session layer.

A shallow embedding of `src/utils/storage.js` (the three `localStorage`
collections and their accessors), of the session logic of
`src/context/AuthContext.jsx` (`AuthProvider`: start-up effect, `login`,
`register`, `logout`), of the form logic of `src/components/ProjectModal.jsx`
and `src/pages/Auth.jsx`, of `loadProjects` and `filterProjects` of
`src/pages/Dashboard.jsx`, of the validators of `src/utils/validation.js`, of
`calculateProgress` of `src/components/ProjectCard.jsx` and of the captcha
generator of `src/components/Captcha.jsx`.

Modelling conventions.

* `localStorage` is a record with one optional slot per key of `STORAGE_KEYS`;
  `none` is a key that was never written (`getItem` returns `null`).  A slot
  holds the decoded value: `JSON.parse (JSON.stringify v)` is taken to be `v`
  on the records stored here.  The section on the stored text keeps the text
  itself for the projects key, with the two host functions as parameters.
* A function that mutates the store returns the new store next to its result.
  A function that throws returns the error together with the state at the
  moment of the throw.
* Clock readings (`new Date().toISOString()`, `Date.now()`) and the random
  suffix of `generateId` are inputs of the functions that read them.
* The host function `String.prototype.toLowerCase` is a parameter
  (`StringHost`), fixed only on ASCII text; every function that lower-cases
  takes it as its first argument.
* The artificial `setTimeout` delay of `login`/`register` is dropped: the code
  after the `await` runs to completion without another suspension point.
-/

set_option autoImplicit false

namespace PortfolioTracker

/-! ## Data model -/

/-- A user object. `password` is `none` when the object has no `password`
key, as in the value obtained by `const { password: _, ...rest } = user`. -/
structure User where
  id : String
  name : String
  email : String
  password : Option String
  role : String
  createdAt : String
deriving DecidableEq, Repr

/-- A milestone of a project: `{ id, title, completed }`. -/
structure Milestone where
  id : String
  title : String
  completed : Bool
deriving DecidableEq, Repr

/-- A project object as written by the create branch of `handleSubmit`. -/
structure Project where
  id : String
  title : String
  description : String
  status : String
  startDate : String
  endDate : String
  technologies : List String
  projectUrl : String
  milestones : List Milestone
  feedback : String
  userId : String
  createdAt : String
  updatedAt : String
deriving DecidableEq, Repr

/-- The `updatedData` argument of `updateProject`: an object that may carry
any of the keys of a project; `none` is a key that is not present. -/
structure ProjectPatch where
  id : Option String
  title : Option String
  description : Option String
  status : Option String
  startDate : Option String
  endDate : Option String
  technologies : Option (List String)
  projectUrl : Option String
  milestones : Option (List Milestone)
  feedback : Option String
  userId : Option String
  createdAt : Option String
  updatedAt : Option String
deriving DecidableEq, Repr

/-- The browser `localStorage`, restricted to the keys of `STORAGE_KEYS`:
`USER` (`portfolioHub_user`), `PROJECTS` (`portfolioHub_projects`) and
`USERS` (`portfolioHub_users`). -/
structure LocalStorage where
  user : Option User
  projects : Option (List Project)
  users : Option (List User)
deriving DecidableEq, Repr

/-- A `localStorage` in which none of the three keys was ever written. -/
def emptyStorage : LocalStorage :=
  { user := none, projects := none, users := none }

/-! ## `storage.js` -/

/-- Lower-casing of the ASCII letters `A`–`Z`; every other character is kept. -/
def asciiLowerCase (s : String) : String :=
  ⟨s.data.map Char.toLower⟩

/-- Every character of the string is an ASCII character (below `U+0080`). -/
def isAscii (s : String) : Bool :=
  s.data.all (fun c => decide (c.toNat < 128))

/-- Host `String.prototype.toLowerCase`. The function itself is a parameter:
it folds every cased letter of Unicode, and nothing is fixed here about its
value on text outside ASCII. `ascii` is the part of its definition that is
used: on a string of ASCII characters it lower-cases the letters `A`–`Z` and
keeps every other character. -/
structure StringHost where
  toLowerCase : String → String
  ascii : ∀ s : String, isAscii s = true → toLowerCase s = asciiLowerCase s

/-- `saveUser`: `localStorage.setItem(USER, JSON.stringify(user))`. -/
def saveUser (ls : LocalStorage) (user : User) : LocalStorage :=
  { ls with user := some user }

/-- `getUser`: `user ? JSON.parse(user) : null`. -/
def getUser (ls : LocalStorage) : Option User :=
  match ls.user with
  | some user => some user
  | none => none

/-- `removeUser`: `localStorage.removeItem(USER)`. -/
def removeUser (ls : LocalStorage) : LocalStorage :=
  { ls with user := none }

/-- `getAllUsers`: `users ? JSON.parse(users) : []`. -/
def getAllUsers (ls : LocalStorage) : List User :=
  match ls.users with
  | some users => users
  | none => []

/-- `saveAllUsers`: `localStorage.setItem(USERS, JSON.stringify(users))`. -/
def saveAllUsers (ls : LocalStorage) (users : List User) : LocalStorage :=
  { ls with users := some users }

/-- `addUser`: read the directory, `push` the user, write it back. -/
def addUser (ls : LocalStorage) (user : User) : LocalStorage :=
  let users := getAllUsers ls
  saveAllUsers ls (users ++ [user])

/-- `findUserByEmail`:
`users.find(u => u.email.toLowerCase() === email.toLowerCase())`;
`none` is `undefined`. -/
def findUserByEmail (str : StringHost) (ls : LocalStorage) (email : String) : Option User :=
  let users := getAllUsers ls
  users.find? (fun u => decide (str.toLowerCase u.email = str.toLowerCase email))

/-- `getAllProjects`: `projects ? JSON.parse(projects) : []`. -/
def getAllProjects (ls : LocalStorage) : List Project :=
  match ls.projects with
  | some projects => projects
  | none => []

/-- `saveAllProjects`: `localStorage.setItem(PROJECTS, JSON.stringify(projects))`. -/
def saveAllProjects (ls : LocalStorage) (projects : List Project) : LocalStorage :=
  { ls with projects := some projects }

/-- `addProject`: read, `push`, write back, return the project. -/
def addProject (ls : LocalStorage) (project : Project) : Project × LocalStorage :=
  let projects := getAllProjects ls
  (project, saveAllProjects ls (projects ++ [project]))

/-- The object spread `{ ...p, ...updatedData, updatedAt: now }`: every key
present in `updatedData` takes its value, every other key keeps the value of
`p`, and `updatedAt` is overwritten last. -/
def mergeProject (p : Project) (updatedData : ProjectPatch) (now : String) : Project :=
  { id := updatedData.id.getD p.id
    title := updatedData.title.getD p.title
    description := updatedData.description.getD p.description
    status := updatedData.status.getD p.status
    startDate := updatedData.startDate.getD p.startDate
    endDate := updatedData.endDate.getD p.endDate
    technologies := updatedData.technologies.getD p.technologies
    projectUrl := updatedData.projectUrl.getD p.projectUrl
    milestones := updatedData.milestones.getD p.milestones
    feedback := updatedData.feedback.getD p.feedback
    userId := updatedData.userId.getD p.userId
    createdAt := updatedData.createdAt.getD p.createdAt
    updatedAt := now }

/-- `updateProject`: `findIndex` by id (the length of the list stands for
`-1`); when found, replace the record at that index by the merge, save and
return it; otherwise return `null` (`none`) without writing. `now` is
`new Date().toISOString()`. -/
def updateProject (ls : LocalStorage) (projectId : String) (updatedData : ProjectPatch)
    (now : String) : Option Project × LocalStorage :=
  let projects := getAllProjects ls
  let index := projects.findIdx (fun p => decide (p.id = projectId))
  if h : index < projects.length then
    let merged := mergeProject projects[index] updatedData now
    (some merged, saveAllProjects ls (projects.set index merged))
  else
    (none, ls)

/-- `deleteProject`: keep the projects whose id differs, write them back. -/
def deleteProject (ls : LocalStorage) (projectId : String) : LocalStorage :=
  let projects := getAllProjects ls
  let filtered := projects.filter (fun p => decide (p.id ≠ projectId))
  saveAllProjects ls filtered

/-- `getProjectById`: `projects.find(p => p.id === projectId)`. -/
def getProjectById (ls : LocalStorage) (projectId : String) : Option Project :=
  let projects := getAllProjects ls
  projects.find? (fun p => decide (p.id = projectId))

/-- `getProjectsByUserId`: `projects.filter(p => p.userId === userId)`. -/
def getProjectsByUserId (ls : LocalStorage) (userId : String) : List Project :=
  let projects := getAllProjects ls
  projects.filter (fun p => decide (p.userId = userId))

/-- The `defaultAdmin` object of `initializeDefaultUsers`. -/
def defaultAdmin (createdAt : String) : User :=
  { id := "admin-001"
    email := "admin@portfoliohub.com"
    password := some "Admin@123"
    name := "Admin User"
    role := "admin"
    createdAt := createdAt }

/-- The `defaultStudent` object of `initializeDefaultUsers`. -/
def defaultStudent (createdAt : String) : User :=
  { id := "student-001"
    email := "student@example.com"
    password := some "Student@123"
    name := "Demo Student"
    role := "student"
    createdAt := createdAt }

/-- `initializeDefaultUsers`: when `users.length === 0`, write the two default
users. `nowAdmin` and `nowStudent` are the two clock readings. -/
def initializeDefaultUsers (ls : LocalStorage) (nowAdmin nowStudent : String) : LocalStorage :=
  let users := getAllUsers ls
  if users.length = 0 then
    saveAllUsers ls [defaultAdmin nowAdmin, defaultStudent nowStudent]
  else
    ls

/-- `generateId`: the prefix (default `'id'`), `Date.now()` and the random
suffix `Math.random().toString(36).substr(2, 9)`, joined by `-`. -/
def generateId (pfx : Option String) (dateNow : Nat) (rnd : String) : String :=
  pfx.getD "id" ++ "-" ++ toString dateNow ++ "-" ++ rnd

/-! ## `AuthContext.jsx` -/

/-- The errors thrown by `login` and `register`. -/
inductive AuthError where
  | UserNotFound
  | InvalidCredentials
  | DuplicateEmail
deriving DecidableEq, Repr

/-- The message of the thrown `Error`. -/
def AuthError.message : AuthError → String
  | .UserNotFound => "User not found. Please check your email or register."
  | .InvalidCredentials => "Incorrect password. Please try again."
  | .DuplicateEmail => "An account with this email already exists. Please login instead."

/-- The state of `AuthProvider` (`user`, `loading`) together with the
`localStorage` it reads and writes. -/
structure AuthState where
  user : Option User
  loading : Bool
  storage : LocalStorage
deriving DecidableEq, Repr

/-- The component state at mount: `useState(null)` and `useState(true)`. -/
def AuthProvider (ls : LocalStorage) : AuthState :=
  { user := none, loading := true, storage := ls }

/-- The body of the `useEffect` of `AuthProvider`. -/
def mountEffect (st : AuthState) (nowAdmin nowStudent : String) : AuthState :=
  let storage := initializeDefaultUsers st.storage nowAdmin nowStudent
  let currentUser := getUser storage
  match currentUser with
  | some u => { user := some u, loading := false, storage := storage }
  | none => { user := st.user, loading := false, storage := storage }

/-- A process start: the component is mounted on the stored data and its
effect runs once. -/
def startup (ls : LocalStorage) (nowAdmin nowStudent : String) : AuthState :=
  mountEffect (AuthProvider ls) nowAdmin nowStudent

/-- The destructuring `const { password: _, ...userWithoutPassword } = u`. -/
def withoutPassword (u : User) : User :=
  { u with password := none }

/-- `login`. -/
def login (str : StringHost) (st : AuthState) (email password : String) :
    Except AuthError User × AuthState :=
  let foundUser := findUserByEmail str st.storage email
  match foundUser with
  | none => (.error .UserNotFound, st)
  | some foundUser =>
    if foundUser.password ≠ some password then
      (.error .InvalidCredentials, st)
    else
      let userWithoutPassword := withoutPassword foundUser
      (.ok userWithoutPassword,
        { st with user := some userWithoutPassword
                  storage := saveUser st.storage userWithoutPassword })

/-- `register`. `role = none` is an omitted argument, which takes the default
`'student'`; `dateNow` and `rnd` feed `generateId('user')` and `now` is
`new Date().toISOString()`. -/
def register (str : StringHost) (st : AuthState) (name email password : String)
    (role : Option String) (dateNow : Nat) (rnd now : String) :
    Except AuthError User × AuthState :=
  let role := role.getD "student"
  let existingUser := findUserByEmail str st.storage email
  match existingUser with
  | some _ => (.error .DuplicateEmail, st)
  | none =>
    let newUser : User :=
      { id := generateId (some "user") dateNow rnd
        name := name
        email := email
        password := some password
        role := role
        createdAt := now }
    let storage := addUser st.storage newUser
    let userWithoutPassword := withoutPassword newUser
    (.ok userWithoutPassword,
      { st with user := some userWithoutPassword
                storage := saveUser storage userWithoutPassword })

/-- `logout`: `setUser(null); removeUser()`. -/
def logout (st : AuthState) : AuthState :=
  { st with user := none, storage := removeUser st.storage }

/-- `isAuthenticated: !!user`. -/
def isAuthenticated (st : AuthState) : Bool :=
  st.user.isSome

/-- `isAdmin: user?.role === 'admin'`. -/
def isAdmin (st : AuthState) : Bool :=
  match st.user with
  | some u => decide (u.role = "admin")
  | none => false

/-- `isStudent: user?.role === 'student'`. -/
def isStudent (st : AuthState) : Bool :=
  match st.user with
  | some u => decide (u.role = "student")
  | none => false

/-! ## Runs of the application -/

/-- A call made on the running application. `startup` is a process start
(a reload): the component is mounted afresh on the stored data. -/
inductive AuthOp where
  | initializeDefaultUsers (nowAdmin nowStudent : String)
  | startup (nowAdmin nowStudent : String)
  | register (name email password : String) (role : Option String) (dateNow : Nat)
      (rnd now : String)
  | login (email password : String)
  | logout
deriving DecidableEq, Repr

/-- The state after one call; a call that throws leaves the state it threw in. -/
def AuthOp.apply (str : StringHost) (st : AuthState) : AuthOp → AuthState
  | .initializeDefaultUsers nowAdmin nowStudent =>
    { st with storage :=
        PortfolioTracker.initializeDefaultUsers st.storage nowAdmin nowStudent }
  | .startup nowAdmin nowStudent =>
    PortfolioTracker.startup st.storage nowAdmin nowStudent
  | .register name email password role dateNow rnd now =>
    (PortfolioTracker.register str st name email password role dateNow rnd now).2
  | .login email password => (PortfolioTracker.login str st email password).2
  | .logout => PortfolioTracker.logout st

/-- The state after a sequence of calls, in order. -/
def runOps (str : StringHost) (st : AuthState) (ops : List AuthOp) : AuthState :=
  ops.foldl (AuthOp.apply str) st

/-- The application mounted on an empty store. -/
def initialState : AuthState :=
  AuthProvider emptyStorage

/-! ## `ProjectModal.jsx` and `Dashboard.jsx` -/

/-- The `formData` state of `ProjectModal`: the nine fields of the form. -/
structure FormData where
  title : String
  description : String
  status : String
  startDate : String
  endDate : String
  technologies : List String
  projectUrl : String
  milestones : List Milestone
  feedback : String
deriving DecidableEq, Repr

/-- The `formData` object read as the `updatedData` of `updateProject`: the
nine form keys are present, no other key is. -/
def FormData.toPatch (formData : FormData) : ProjectPatch :=
  { id := none
    title := some formData.title
    description := some formData.description
    status := some formData.status
    startDate := some formData.startDate
    endDate := some formData.endDate
    technologies := some formData.technologies
    projectUrl := some formData.projectUrl
    milestones := some formData.milestones
    feedback := some formData.feedback
    userId := none
    createdAt := none
    updatedAt := none }

/-- The `newProject` object of the create branch of `handleSubmit`:
`{ id: generateId('project'), ...formData, userId, createdAt, updatedAt }`.
`nowCreated` and `nowUpdated` are the two `new Date().toISOString()` readings,
in the order in which the object literal takes them. -/
def newProject (formData : FormData) (userId : String) (dateNow : Nat) (rnd : String)
    (nowCreated nowUpdated : String) : Project :=
  { id := generateId (some "project") dateNow rnd
    title := formData.title
    description := formData.description
    status := formData.status
    startDate := formData.startDate
    endDate := formData.endDate
    technologies := formData.technologies
    projectUrl := formData.projectUrl
    milestones := formData.milestones
    feedback := formData.feedback
    userId := userId
    createdAt := nowCreated
    updatedAt := nowUpdated }

/-- The `try` block of `handleSubmit`, which runs once `validateForm()` has
returned true: with a `project` prop the form data is sent to `updateProject`,
without one a new project is added. `now1` and `now2` are the clock readings
in the order in which they are taken (the update branch takes one). -/
def submitForm (ls : LocalStorage) (project : Option Project) (formData : FormData)
    (userId : String) (dateNow : Nat) (rnd : String) (now1 now2 : String) :
    LocalStorage :=
  match project with
  | some project => (updateProject ls project.id formData.toPatch now1).2
  | none =>
    (addProject ls (newProject formData userId dateNow rnd now1 now2)).2

/-- `loadProjects` of `Dashboard`:
`isAdmin ? getAllProjects() : getProjectsByUserId(user.id)`. Without a session
user `isAdmin` is false and `user.id` throws; `none` stands for that. -/
def loadProjects (st : AuthState) : Option (List Project) :=
  if isAdmin st then
    some (getAllProjects st.storage)
  else
    match st.user with
    | some user => some (getProjectsByUserId st.storage user.id)
    | none => none

/-! ## Runs of project calls -/

/-- A call of one of the three project mutators of `storage.js`. -/
inductive ProjectOp where
  | addProject (project : Project)
  | updateProject (projectId : String) (updatedData : ProjectPatch) (now : String)
  | deleteProject (projectId : String)
deriving DecidableEq, Repr

/-- The store after one project call. -/
def ProjectOp.apply (ls : LocalStorage) : ProjectOp → LocalStorage
  | .addProject project => (PortfolioTracker.addProject ls project).2
  | .updateProject projectId updatedData now =>
    (PortfolioTracker.updateProject ls projectId updatedData now).2
  | .deleteProject projectId => PortfolioTracker.deleteProject ls projectId

/-- The store after a sequence of project calls, in order. -/
def runProjectOps (ls : LocalStorage) (ops : List ProjectOp) : LocalStorage :=
  ops.foldl ProjectOp.apply ls

/-- The call keeps ids apart: an added project has an id that is not stored
yet, and a patch carries no `id` key or the id it is applied to. -/
def ProjectOp.keepsIds (ls : LocalStorage) : ProjectOp → Bool
  | .addProject project => (getAllProjects ls).all (fun q => decide (q.id ≠ project.id))
  | .updateProject projectId updatedData _ =>
    decide (updatedData.id = none ∨ updatedData.id = some projectId)
  | .deleteProject _ => true

/-- Every call of the run keeps ids apart in the store it is made on. -/
def keepsIdsRun : LocalStorage → List ProjectOp → Bool
  | _, [] => true
  | ls, op :: ops => op.keepsIds ls && keepsIdsRun (op.apply ls) ops

/-! ## The stored text

The functions above work on decoded values. The definitions of this section
keep the text that `localStorage` holds, for the projects key: the host
functions `JSON.stringify` and `JSON.parse` are parameters. -/

/-- The key `STORAGE_KEYS.USER`. -/
def STORAGE_KEYS.USER : String := "portfolioHub_user"

/-- The key `STORAGE_KEYS.PROJECTS`. -/
def STORAGE_KEYS.PROJECTS : String := "portfolioHub_projects"

/-- The key `STORAGE_KEYS.USERS`. -/
def STORAGE_KEYS.USERS : String := "portfolioHub_users"

/-- The host functions `JSON.stringify` and `JSON.parse`, on lists of
projects. `parse` returns `none` where `JSON.parse` throws. -/
structure JsonCodec where
  stringify : List Project → String
  parse : String → Option (List Project)

namespace Raw

/-- The browser `localStorage`: the text stored under each key, `none` for a
key that was never written. -/
def Storage : Type := String → Option String

/-- A `localStorage` without any key. -/
def empty : Storage := fun _ => none

/-- `localStorage.getItem(key)`; `none` is `null`. -/
def getItem (ls : Storage) (key : String) : Option String :=
  ls key

/-- `localStorage.setItem(key, value)`. -/
def setItem (ls : Storage) (key value : String) : Storage :=
  fun k => if k = key then some value else ls k

/-- `saveAllProjects`, on the stored text. -/
def saveAllProjects (json : JsonCodec) (ls : Storage) (projects : List Project) : Storage :=
  setItem ls STORAGE_KEYS.PROJECTS (json.stringify projects)

/-- `getAllProjects`, on the stored text: `projects ? JSON.parse(projects) : []`,
where a string is truthy when it is not empty. `none` is a thrown
`SyntaxError`. -/
def getAllProjects (json : JsonCodec) (ls : Storage) : Option (List Project) :=
  match getItem ls STORAGE_KEYS.PROJECTS with
  | some projects => if projects = "" then some [] else json.parse projects
  | none => some []

end Raw

/-! ## Host strings and `validation.js` -/

/-- The `length` of a JavaScript string: the number of UTF-16 code units, two
for a character outside the basic multilingual plane. -/
def utf16Length (s : String) : Nat :=
  (s.data.map (fun c => if c.toNat < 65536 then 1 else 2)).sum

/-- The characters that the regular-expression class `\s` and `trim` treat as
white space: the ECMAScript white space and line terminator code points. -/
def isWhiteSpace (c : Char) : Bool :=
  let n := c.toNat
  n = 9 || n = 10 || n = 11 || n = 12 || n = 13 || n = 32 || n = 160 || n = 5760 ||
  (8192 ≤ n && n ≤ 8202) || n = 8232 || n = 8233 || n = 8239 || n = 8287 ||
  n = 12288 || n = 65279

/-- Host `String.prototype.trim`: the string without leading and trailing
white space. -/
def trim (s : String) : String :=
  ⟨((s.data.dropWhile isWhiteSpace).reverse.dropWhile isWhiteSpace).reverse⟩

/-- Host `String.prototype.includes`, on character lists: `sub` occurs in `s`
at some position. -/
def includesChars (sub : List Char) : List Char → Bool
  | [] => sub.isEmpty
  | c :: cs => sub.isPrefixOf (c :: cs) || includesChars sub cs

/-- Host `String.prototype.includes`. -/
def includes (s sub : String) : Bool :=
  includesChars sub.data s.data

/-- A regular expression: the fragment of the host syntax that the validators
use, closed under what matching by derivatives needs. -/
inductive RegExp where
  | none
  | empty
  | cls (p : Char → Bool)
  | seq (a b : RegExp)
  | alt (a b : RegExp)
  | star (a : RegExp)

namespace RegExp

/-- The expression `a+`. -/
def plus (a : RegExp) : RegExp :=
  seq a (star a)

/-- The expression matches the empty string. -/
def nullable : RegExp → Bool
  | none => false
  | empty => true
  | cls _ => false
  | seq a b => nullable a && nullable b
  | alt a b => nullable a || nullable b
  | star _ => true

/-- The expression for what may follow the character `c`. -/
def deriv (c : Char) : RegExp → RegExp
  | none => none
  | empty => none
  | cls p => if p c then empty else none
  | seq a b => if nullable a then alt (seq (deriv c a) b) (deriv c b) else seq (deriv c a) b
  | alt a b => alt (deriv c a) (deriv c b)
  | star a => seq (deriv c a) (star a)

/-- The expression matches the whole character list. -/
def matchesChars : RegExp → List Char → Bool
  | r, [] => nullable r
  | r, c :: cs => matchesChars (deriv c r) cs

/-- Host `RegExp.prototype.test` for an expression anchored at both ends,
`/^...$/`: the expression matches the whole string. A class that excludes no
surrogate half matches a character outside the basic multilingual plane as it
matches its two code units. -/
def test (r : RegExp) (s : String) : Bool :=
  matchesChars r s.data

/-- Host `RegExp.prototype.test` for an expression that is one character
class, `/[...]/`: some character of the string is in the class. -/
def testClass (p : Char → Bool) (s : String) : Bool :=
  s.data.any p

end RegExp

/-- The class `[^\s@]`. -/
def notSpaceOrAt (c : Char) : Bool :=
  !(isWhiteSpace c || c = '@')

/-- The `emailRegex` of `validateEmail`: `/^[^\s@]+@[^\s@]+\.[^\s@]+$/`. -/
def emailRegex : RegExp :=
  .seq (.plus (.cls notSpaceOrAt))
    (.seq (.cls (fun c => c = '@'))
      (.seq (.plus (.cls notSpaceOrAt))
        (.seq (.cls (fun c => c = '.')) (.plus (.cls notSpaceOrAt)))))

/-- `validateEmail`. -/
def validateEmail (email : String) : String :=
  if email = "" then "Email is required"
  else if !emailRegex.test email then "Please enter a valid email address"
  else ""

/-- The class `[A-Z]`. -/
def isUpperAZ (c : Char) : Bool :=
  'A' ≤ c && c ≤ 'Z'

/-- The class `[a-z]`. -/
def isLowerAZ (c : Char) : Bool :=
  'a' ≤ c && c ≤ 'z'

/-- The class `[0-9]`. -/
def isDigit09 (c : Char) : Bool :=
  '0' ≤ c && c ≤ '9'

/-- The class `[!@#$%^&*]`. -/
def isSpecial (c : Char) : Bool :=
  c = '!' || c = '@' || c = '#' || c = '$' || c = '%' || c = '^' || c = '&' || c = '*'

/-- `validatePassword`. -/
def validatePassword (password : String) : String :=
  if password = "" then "Password is required"
  else if utf16Length password < 8 then "Password must be at least 8 characters long"
  else if !RegExp.testClass isUpperAZ password then
    "Password must contain at least one uppercase letter"
  else if !RegExp.testClass isLowerAZ password then
    "Password must contain at least one lowercase letter"
  else if !RegExp.testClass isDigit09 password then
    "Password must contain at least one number"
  else if !RegExp.testClass isSpecial password then
    "Password must contain at least one special character (!@#$%^&*)"
  else ""

/-- `validateName`. -/
def validateName (name : String) : String :=
  if name = "" then "Name is required"
  else if utf16Length name < 2 then "Name must be at least 2 characters long"
  else if utf16Length name > 50 then "Name must not exceed 50 characters"
  else ""

/-- `validateProjectTitle`. -/
def validateProjectTitle (title : String) : String :=
  if title = "" then "Project title is required"
  else if utf16Length title < 3 then "Title must be at least 3 characters long"
  else if utf16Length title > 100 then "Title must not exceed 100 characters"
  else ""

/-- `validateProjectDescription`. -/
def validateProjectDescription (description : String) : String :=
  if description = "" then "Project description is required"
  else if utf16Length description < 10 then
    "Description must be at least 10 characters long"
  else if utf16Length description > 2000 then
    "Description must not exceed 2000 characters"
  else ""

/-- The two host constructors that the validators call. `parseDate` is the
time value of `new Date(text)`, with `none` for `NaN` (an invalid date);
`isUrl` tells whether `new URL(text)` returns rather than throws. -/
structure Host where
  parseDate : String → Option Int
  isUrl : String → Bool

/-- `validateUrl`. -/
def validateUrl (host : Host) (url : String) : String :=
  if url = "" then ""
  else if host.isUrl url then ""
  else "Please enter a valid URL"

/-- `validateDate`. -/
def validateDate (host : Host) (date : String) : String :=
  if date = "" then "Date is required"
  else
    match host.parseDate date with
    | none => "Please enter a valid date"
    | some _ => ""

/-! ## `Dashboard.jsx`: filtering -/

/-- The state of `Dashboard` that `filterProjects` reads and writes. -/
structure DashboardState where
  projects : List Project
  filteredProjects : List Project
  searchQuery : String
  filterStatus : String
deriving DecidableEq, Repr

/-- `filterProjects`: copy `projects`, filter by the search query when it is
not empty, filter by status when the filter is not `'all'`, and store the
result with `setFilteredProjects`. -/
def filterProjects (str : StringHost) (st : DashboardState) : DashboardState :=
  let filtered := st.projects
  let filtered :=
    if st.searchQuery ≠ "" then
      filtered.filter (fun project =>
        includes (str.toLowerCase project.title) (str.toLowerCase st.searchQuery) ||
        includes (str.toLowerCase project.description) (str.toLowerCase st.searchQuery))
    else filtered
  let filtered :=
    if st.filterStatus ≠ "all" then
      filtered.filter (fun project => decide (project.status = st.filterStatus))
    else filtered
  { st with filteredProjects := filtered }

/-! ## `ProjectModal.jsx`: the form -/

/-- The `newErrors` object of `validateForm` in `ProjectModal`; `none` is a
key that was not set. -/
structure ProjectErrors where
  title : Option String
  description : Option String
  startDate : Option String
  endDate : Option String
  projectUrl : Option String
deriving DecidableEq, Repr

/-- The state of `ProjectModal` that the technology handlers read and write. -/
structure ModalState where
  formData : FormData
  techInput : String
deriving DecidableEq, Repr

namespace ProjectModal

/-- `handleAddTechnology`. -/
def handleAddTechnology (st : ModalState) : ModalState :=
  if trim st.techInput ≠ "" ∧ ¬ trim st.techInput ∈ st.formData.technologies then
    { formData :=
        { st.formData with
          technologies := st.formData.technologies ++ [trim st.techInput] }
      techInput := "" }
  else st

/-- `handleRemoveTechnology`. -/
def handleRemoveTechnology (st : ModalState) (tech : String) : ModalState :=
  { st with
    formData :=
      { st.formData with
        technologies := st.formData.technologies.filter (fun t => decide (t ≠ tech)) } }

/-- An error message as the value of a key of `newErrors`: the key is set
only when the message is not empty. -/
def errorKey (message : String) : Option String :=
  if message = "" then none else some message

/-- The comparison `end < start` of two `Date` objects: false when either
time value is `NaN`. -/
def dateBefore (host : Host) (endDate startDate : String) : Bool :=
  match host.parseDate endDate, host.parseDate startDate with
  | some e, some s => decide (e < s)
  | _, _ => false

/-- The `newErrors` that `validateForm` builds. -/
def validateForm (host : Host) (formData : FormData) : ProjectErrors :=
  { title := errorKey (validateProjectTitle formData.title)
    description := errorKey (validateProjectDescription formData.description)
    startDate :=
      if formData.startDate ≠ "" then errorKey (validateDate host formData.startDate)
      else none
    endDate :=
      if formData.endDate ≠ "" then
        if formData.startDate ≠ "" ∧ formData.endDate ≠ "" ∧
            dateBefore host formData.endDate formData.startDate = true then
          some "End date must be after start date"
        else errorKey (validateDate host formData.endDate)
      else none
    projectUrl :=
      if formData.projectUrl ≠ "" then errorKey (validateUrl host formData.projectUrl)
      else none }

/-- The result of `validateForm`: `Object.keys(newErrors).length === 0`. -/
def isValid (errors : ProjectErrors) : Bool :=
  errors.title.isNone && errors.description.isNone && errors.startDate.isNone &&
  errors.endDate.isNone && errors.projectUrl.isNone

/-- `handleSubmit`: nothing is saved unless `validateForm()` returns true. -/
def handleSubmit (host : Host) (ls : LocalStorage) (project : Option Project)
    (formData : FormData) (userId : String) (dateNow : Nat) (rnd : String)
    (now1 now2 : String) : LocalStorage :=
  if isValid (validateForm host formData) then
    submitForm ls project formData userId dateNow rnd now1 now2
  else ls

end ProjectModal

/-! ## `Auth.jsx`: the form -/

/-- The `formData` state of `Auth`. -/
structure AuthFormData where
  name : String
  email : String
  password : String
deriving DecidableEq, Repr

/-- The `newErrors` object of `validateForm` in `Auth`. -/
structure AuthErrors where
  name : Option String
  email : Option String
  password : Option String
deriving DecidableEq, Repr

/-- The argument of `setToast`. -/
structure Toast where
  message : String
  type : String
deriving DecidableEq, Repr

namespace Auth

/-- The `newErrors` that `validateForm` builds; the name is checked in
registration mode only. -/
def validateForm (isLogin : Bool) (formData : AuthFormData) : AuthErrors :=
  { name :=
      if !isLogin then ProjectModal.errorKey (validateName formData.name) else none
    email := ProjectModal.errorKey (validateEmail formData.email)
    password := ProjectModal.errorKey (validatePassword formData.password) }

/-- The result of `validateForm`: `Object.keys(newErrors).length === 0`. -/
def isValid (errors : AuthErrors) : Bool :=
  errors.name.isNone && errors.email.isNone && errors.password.isNone

/-- `handleSubmit`: the toast shown and the state afterwards. In registration
mode `register` is called without a role. -/
def handleSubmit (str : StringHost) (st : AuthState) (isLogin : Bool)
    (formData : AuthFormData) (dateNow : Nat) (rnd now : String) : Toast × AuthState :=
  if !isValid (validateForm isLogin formData) then
    ({ message := "Please fix the errors in the form", type := "error" }, st)
  else if isLogin then
    match login str st formData.email formData.password with
    | (.ok _, st') =>
      ({ message := "Login successful! Redirecting...", type := "success" }, st')
    | (.error e, st') => ({ message := e.message, type := "error" }, st')
  else
    match register str st formData.name formData.email formData.password Option.none
      dateNow rnd now with
    | (.ok _, st') =>
      ({ message := "Registration successful! Redirecting...", type := "success" }, st')
    | (.error e, st') => ({ message := e.message, type := "error" }, st')

end Auth

/-! ## Runs of the pages

`App.jsx` renders `Dashboard` inside `ProtectedRoute`, that is, when `loading`
is false and a session user is set. `Dashboard` opens `ProjectModal` with
`userId={user.id}` and with `project={editingProject}`, and deletes through
`handleDeleteProject`. -/

/-- The session user to whom `ProtectedRoute` shows `Dashboard`:
`loading ? spinner : isAuthenticated ? children : redirect`. -/
def dashboardUser (st : AuthState) : Option User :=
  if st.loading then none else st.user

/-- A step of the running application: a call of the session layer, the
submission of the project form (`project` is the `editingProject` of the
dashboard, `none` for a new project), or a confirmed deletion. -/
inductive AppOp where
  | auth (op : AuthOp)
  | submitProject (project : Option Project) (formData : FormData) (dateNow : Nat)
      (rnd now1 now2 : String)
  | deleteProject (projectId : String)
deriving DecidableEq, Repr

/-- The state after one step. The two dashboard steps need the dashboard to be
shown; the modal is given the id of the session user. -/
def AppOp.apply (str : StringHost) (host : Host) (st : AuthState) : AppOp → AuthState
  | .auth op => AuthOp.apply str st op
  | .submitProject project formData dateNow rnd now1 now2 =>
    match dashboardUser st with
    | some user =>
      let storage :=
        ProjectModal.handleSubmit host st.storage project formData user.id dateNow rnd
          now1 now2
      { st with storage := storage }
    | none => st
  | .deleteProject projectId =>
    match dashboardUser st with
    | some _ => { st with storage := PortfolioTracker.deleteProject st.storage projectId }
    | none => st

/-- The state after a sequence of steps, in order. -/
def runAppOps (str : StringHost) (host : Host) (st : AuthState) (ops : List AppOp) :
    AuthState :=
  ops.foldl (AppOp.apply str host) st

/-- The step is the creation of a project for `userId`: the form is submitted
without an edited project while the dashboard is shown to a session user with
that id. -/
def AppOp.createsFor (userId : String) (st : AuthState) : AppOp → Bool
  | .submitProject none _ _ _ _ _ =>
    match dashboardUser st with
    | some user => decide (user.id = userId)
    | none => false
  | _ => false

/-- No step of the run, made on the state the run has reached by then, is the
creation of a project for `userId`. -/
def noCreationFor (str : StringHost) (host : Host) (userId : String) :
    AuthState → List AppOp → Bool
  | _, [] => true
  | st, op :: ops =>
    !op.createsFor userId st && noCreationFor str host userId (op.apply str host st) ops

/-! ## Host numbers, `ProjectCard.jsx` and `Captcha.jsx`

A host number is a double. The values that occur here are rationals whose
magnitude lies in the normal range of doubles; `toDouble` is the rounding that
every arithmetic operation of the host ends with. -/

/-- The integer nearest to a rational, the even one of the two in a tie. -/
def roundHalfEven (q : ℚ) : Int :=
  let f := ⌊q⌋
  let r := q - f
  if r < 1 / 2 then f else if 1 / 2 < r then f + 1 else if f % 2 = 0 then f else f + 1

/-- The double nearest to a rational (round to nearest, ties to even): with
`e` the exponent for which `2 ^ e ≤ |q| < 2 ^ (e + 1)`, the nearest multiple of
`2 ^ (e - 52)`. -/
def toDouble (q : ℚ) : ℚ :=
  if q = 0 then 0
  else roundHalfEven (q / 2 ^ (Int.log 2 |q| - 52)) * 2 ^ (Int.log 2 |q| - 52)

/-- Host `Math.round`: the nearest integer, the greater one in a tie. -/
def mathRound (q : ℚ) : Int :=
  ⌊q + 1 / 2⌋

/-- Host `Math.floor`. -/
def mathFloor (q : ℚ) : Int :=
  ⌊q⌋

/-- `calculateProgress` of `ProjectCard`, as a function of `project.milestones`
(`none` when the project has no such key):
`Math.round((completed / project.milestones.length) * 100)`. -/
def calculateProgress (milestones : Option (List Milestone)) : Int :=
  match milestones with
  | none => 0
  | some milestones =>
    if milestones.length = 0 then 0
    else
      let completed := (milestones.filter (fun m => m.completed)).length
      mathRound (toDouble (toDouble ((completed : ℚ) / (milestones.length : ℚ)) * 100))

/-- The `captchaData` state of `Captcha`; `operator` is `none` when it is
`undefined`. -/
structure CaptchaData where
  num1 : Int
  num2 : Int
  operator : Option String
deriving DecidableEq, Repr

/-- The `operators` array of `Captcha`. -/
def operators : List String :=
  ["+", "-", "*"]

/-- `Math.floor(Math.random() * n)`, with `r` the value that `Math.random()`
returns. -/
def randomInt (r : ℚ) (n : Nat) : Int :=
  mathFloor (toDouble (r * n))

/-- `generateCaptcha`, as far as `setCaptchaData`: `r0`, `r1` and `r2` are the
values of the three `Math.random()` calls, in order. -/
def generateCaptcha (r0 r1 r2 : ℚ) : CaptchaData :=
  let operator := operators[(randomInt r0 operators.length).toNat]?
  match operator with
  | some "+" => { num1 := randomInt r1 50 + 1, num2 := randomInt r2 50 + 1, operator := operator }
  | some "-" => { num1 := randomInt r1 50 + 25, num2 := randomInt r2 25 + 1, operator := operator }
  | some "*" => { num1 := randomInt r1 10 + 1, num2 := randomInt r2 10 + 1, operator := operator }
  | _ => { num1 := randomInt r1 20 + 1, num2 := randomInt r2 20 + 1, operator := operator }

/-- `calculateCorrectAnswer`. -/
def calculateCorrectAnswer (captchaData : CaptchaData) : Int :=
  match captchaData.operator with
  | some "+" => captchaData.num1 + captchaData.num2
  | some "-" => captchaData.num1 - captchaData.num2
  | some "*" => captchaData.num1 * captchaData.num2
  | _ => 0

/-! ## Vocabulary of the specification -/

/-- The language of a regular expression: the character lists it matches. -/
inductive RegExp.Matches : RegExp → List Char → Prop
  | empty : Matches .empty []
  | cls (p : Char → Bool) (c : Char) : p c = true → Matches (.cls p) [c]
  | seq {a b : RegExp} {s t : List Char} :
      Matches a s → Matches b t → Matches (.seq a b) (s ++ t)
  | altLeft {a b : RegExp} {s : List Char} : Matches a s → Matches (.alt a b) s
  | altRight {a b : RegExp} {s : List Char} : Matches b s → Matches (.alt a b) s
  | starNil {a : RegExp} : Matches (.star a) []
  | starCons {a : RegExp} {s t : List Char} :
      Matches a s → Matches (.star a) t → Matches (.star a) (s ++ t)

/-- No two users of the list have emails that are equal after lower-casing. -/
def EmailsUnique (str : StringHost) (users : List User) : Prop :=
  users.Pairwise (fun a b => str.toLowerCase a.email ≠ str.toLowerCase b.email)

/-- A session value: it has no password and is some user of the directory
with the password removed. -/
def SessionValue (users : List User) (s : User) : Prop :=
  s.password = none ∧ ∃ u ∈ users, s = { u with password := none }

/-- The in-memory session and the persisted session are each absent or a
session value over the current directory. -/
def SessionOK (st : AuthState) : Prop :=
  (∀ s, st.user = some s → SessionValue (getAllUsers st.storage) s) ∧
  (∀ s, st.storage.user = some s → SessionValue (getAllUsers st.storage) s)

/-- Every stored project is owned by a user of the directory: its `userId` is
the id of a stored user. -/
def OwnersKnown (st : AuthState) : Prop :=
  ∀ p ∈ getAllProjects st.storage, ∃ u ∈ getAllUsers st.storage, u.id = p.userId

/-- Two characters that are equal, or of which one is the upper-case form of
the other. -/
def sameLetter (c d : Char) : Bool :=
  c == d || c == d.toUpper || d == c.toUpper

/-- Two character sequences of the same length that agree position by position
up to letter case. -/
def differOnlyInCaseAux : List Char → List Char → Bool
  | [], [] => true
  | c :: cs, d :: ds => sameLetter c d && differOnlyInCaseAux cs ds
  | _, _ => false

/-- Two strings that differ only in letter case. -/
def differOnlyInCase (a b : String) : Bool :=
  differOnlyInCaseAux a.data b.data

/-- The email `e` matches the user `u` under case-insensitive comparison. -/
def emailMatches (str : StringHost) (u : User) (e : String) : Prop :=
  str.toLowerCase u.email = str.toLowerCase e

instance (str : StringHost) (u : User) (e : String) : Decidable (emailMatches str u e) := by
  unfold emailMatches; infer_instance

/-- The user `u` is the first user of `users` whose email matches `e`. -/
def FirstMatch (str : StringHost) (users : List User) (e : String) (u : User) : Prop :=
  ∃ before after, users = before ++ u :: after ∧
    (∀ v ∈ before, ¬ emailMatches str v e) ∧ emailMatches str u e

/-! ## Sample data -/

/-- A sample of the host lower-casing: the ASCII fold on every string. It
stands for `toLowerCase` in examples whose strings are ASCII. -/
def asciiHost : StringHost :=
  { toLowerCase := asciiLowerCase, ascii := fun _ _ => rfl }

/-- A first account, registered with a lower-case email. -/
def firstAnn : User :=
  { id := "user-1700000000000-k3j9x2m1q", name := "Ann", email := "ann@x.com",
    password := some "First#123", role := "student",
    createdAt := "2024-01-01T00:00:00.000Z" }

/-- A start-up state over a directory holding the first account only. -/
def oneAnn : AuthState :=
  AuthProvider (addUser emptyStorage firstAnn)

/-- A project of the first account. -/
def sampleProject : Project :=
  { id := "project-1700000001000-a1b2c3d4e", title := "Tracker", description := "A tracker app",
    status := "planned", startDate := "", endDate := "", technologies := ["React"],
    projectUrl := "", milestones := [], feedback := "",
    userId := "user-1700000000000-k3j9x2m1q",
    createdAt := "2024-01-03T00:00:00.000Z", updatedAt := "2024-01-03T00:00:00.000Z" }

/-- A patch that sets the status only. -/
def statusPatch : ProjectPatch :=
  { id := none, title := none, description := none, status := some "completed",
    startDate := none, endDate := none, technologies := none, projectUrl := none,
    milestones := none, feedback := none, userId := none, createdAt := none,
    updatedAt := none }

/-- A patch that carries an `id` key next to the status. -/
def renamePatch : ProjectPatch :=
  { statusPatch with id := some "project-renamed" }

/-- A filled-in project form. -/
def sampleForm : FormData :=
  { title := "Tracker", description := "A tracker app", status := "planned",
    startDate := "2024-01-03", endDate := "", technologies := ["React"],
    projectUrl := "", milestones := [], feedback := "" }

/-- A store holding the sample project only. -/
def oneProject : LocalStorage :=
  (addProject emptyStorage sampleProject).2

/-- A second project, of another owner. -/
def otherProject : Project :=
  { sampleProject with
    id := "project-1700000003000-z9y8x7w6v", title := "Blog", userId := "student-001" }

/-- A run of project calls with fresh ids: two additions, an update and a
deletion. -/
def sampleProjectRun : List ProjectOp :=
  [.addProject sampleProject,
   .addProject otherProject,
   .updateProject "project-1700000001000-a1b2c3d4e" statusPatch "2024-01-06T00:00:00.000Z",
   .deleteProject "project-1700000003000-z9y8x7w6v"]

/-! ### A sample codec

A writer and a reader for the JSON text of a list of projects, with the keys
in the order in which the create branch of `handleSubmit` writes them. In
strings only the double quote and the backslash are escaped. It stands for the
host codec in examples. -/

namespace SampleJson

/-- The double quote. -/
def dq : Char := Char.ofNat 34

/-- The backslash. -/
def bs : Char := Char.ofNat 92

/-- The opening brace. -/
def lb : Char := Char.ofNat 123

/-- The closing brace. -/
def rb : Char := Char.ofNat 125

/-- The characters of a string with quotes and backslashes escaped. -/
def escape : List Char → List Char
  | [] => []
  | c :: cs => if c = dq ∨ c = bs then bs :: c :: escape cs else c :: escape cs

/-- A JSON string. -/
def quote (s : String) : List Char :=
  dq :: escape s.data ++ [dq]

/-- The items separated by commas. -/
def commas : List (List Char) → List Char
  | [] => []
  | [x] => x
  | x :: y :: rest => x ++ ',' :: commas (y :: rest)

/-- A JSON array. -/
def array (items : List (List Char)) : List Char :=
  '[' :: commas items ++ [']']

/-- A JSON object from its members. -/
def object (members : List (List Char)) : List Char :=
  lb :: commas members ++ [rb]

/-- A member `"key":value` of an object. -/
def member (key : String) (value : List Char) : List Char :=
  quote key ++ ':' :: value

/-- The JSON text of a milestone. -/
def writeMilestone (m : Milestone) : List Char :=
  object [member "id" (quote m.id), member "title" (quote m.title),
    member "completed" (if m.completed then "true".data else "false".data)]

/-- The JSON text of a project. -/
def writeProject (p : Project) : List Char :=
  object [member "id" (quote p.id), member "title" (quote p.title),
    member "description" (quote p.description), member "status" (quote p.status),
    member "startDate" (quote p.startDate), member "endDate" (quote p.endDate),
    member "technologies" (array (p.technologies.map quote)),
    member "projectUrl" (quote p.projectUrl),
    member "milestones" (array (p.milestones.map writeMilestone)),
    member "feedback" (quote p.feedback), member "userId" (quote p.userId),
    member "createdAt" (quote p.createdAt), member "updatedAt" (quote p.updatedAt)]

/-- The JSON text of a list of projects. -/
def stringify (projects : List Project) : String :=
  ⟨array (projects.map writeProject)⟩

/-- The input without the expected text in front, if it starts with it. -/
def expect : List Char → List Char → Option (List Char)
  | [], cs => some cs
  | _ :: _, [] => none
  | e :: es, c :: cs => if e = c then expect es cs else none

/-- The characters up to the closing quote, unescaped, and the rest. -/
def readChars : List Char → Option (List Char × List Char)
  | [] => none
  | c :: cs =>
    if c = dq then some ([], cs)
    else if c = bs then
      match cs with
      | [] => none
      | d :: ds =>
        match readChars ds with
        | some (s, r) => some (d :: s, r)
        | none => none
    else
      match readChars cs with
      | some (s, r) => some (c :: s, r)
      | none => none

/-- A JSON string and the rest. -/
def readString (cs : List Char) : Option (String × List Char) :=
  match expect [dq] cs with
  | some r =>
    match readChars r with
    | some (s, r) => some (⟨s⟩, r)
    | none => none
  | none => none

/-- The items of an array after the first bracket, and the rest; the first
argument bounds the number of items. -/
def readItems {α : Type} (item : List Char → Option (α × List Char)) :
    Nat → List Char → Option (List α × List Char)
  | 0, _ => none
  | n + 1, cs =>
    match item cs with
    | some (a, ',' :: r) =>
      match readItems item n r with
      | some (as, r) => some (a :: as, r)
      | none => none
    | some (a, ']' :: r) => some ([a], r)
    | _ => none

/-- A JSON array and the rest. -/
def readArray {α : Type} (item : List Char → Option (α × List Char)) :
    List Char → Option (List α × List Char)
  | '[' :: ']' :: r => some ([], r)
  | '[' :: r => readItems item r.length r
  | _ => none

/-- The value of the member `key`, read by `value`, and the rest. -/
def readMember {α : Type} (key : String) (value : List Char → Option (α × List Char))
    (cs : List Char) : Option (α × List Char) :=
  match expect (quote key ++ [':']) cs with
  | some r => value r
  | none => none

/-- A JSON boolean and the rest. -/
def readBool (cs : List Char) : Option (Bool × List Char) :=
  match expect "true".data cs with
  | some r => some (true, r)
  | none =>
    match expect "false".data cs with
    | some r => some (false, r)
    | none => none

/-- A milestone and the rest. -/
def readMilestone (cs : List Char) : Option (Milestone × List Char) := do
  let r ← expect [lb] cs
  let (id, r) ← readMember "id" readString r
  let r ← expect [','] r
  let (title, r) ← readMember "title" readString r
  let r ← expect [','] r
  let (completed, r) ← readMember "completed" readBool r
  let r ← expect [rb] r
  pure ({ id := id, title := title, completed := completed }, r)

/-- The values of the string members with the given keys, each followed by a
comma, and the rest. -/
def readStrings : List String → List Char → Option (List String × List Char)
  | [], cs => some ([], cs)
  | key :: keys, cs =>
    match readMember key readString cs with
    | some (v, ',' :: r) =>
      match readStrings keys r with
      | some (vs, r) => some (v :: vs, r)
      | none => none
    | _ => none

/-- The members of a project after `endDate`, and the rest. -/
def readProjectTail (cs : List Char) :
    Option ((List String × String × List Milestone × List String × String) × List Char) :=
  match readMember "technologies" (readArray readString) cs with
  | some (technologies, ',' :: r) =>
    match readMember "projectUrl" readString r with
    | some (projectUrl, ',' :: r) =>
      match readMember "milestones" (readArray readMilestone) r with
      | some (milestones, ',' :: r) =>
        match readStrings ["feedback", "userId", "createdAt"] r with
        | some (strings, r) =>
          match readMember "updatedAt" readString r with
          | some (updatedAt, r) =>
            some ((technologies, projectUrl, milestones, strings, updatedAt), r)
          | none => none
        | none => none
      | _ => none
    | _ => none
  | _ => none

/-- A project and the rest. -/
def readProject (cs : List Char) : Option (Project × List Char) :=
  match expect [lb] cs with
  | some r =>
    match readStrings ["id", "title", "description", "status", "startDate", "endDate"] r with
    | some ([id, title, description, status, startDate, endDate], r) =>
      match readProjectTail r with
      | some ((technologies, projectUrl, milestones, [feedback, userId, createdAt],
          updatedAt), r) =>
        match expect [rb] r with
        | some r =>
          some ({ id := id, title := title, description := description, status := status,
                  startDate := startDate, endDate := endDate,
                  technologies := technologies, projectUrl := projectUrl,
                  milestones := milestones, feedback := feedback, userId := userId,
                  createdAt := createdAt, updatedAt := updatedAt }, r)
        | none => none
      | _ => none
    | _ => none
  | none => none

/-- The list of projects that a JSON text denotes, if it is one. -/
def parse (s : String) : Option (List Project) :=
  match readArray readProject s.data with
  | some (projects, []) => some projects
  | _ => none

end SampleJson

/-- The sample codec. -/
def sampleJson : JsonCodec :=
  { stringify := SampleJson.stringify, parse := SampleJson.parse }

/-- A project with two milestones and with quotes in its description. -/
def quotedProject : Project :=
  { otherProject with
    description := "A blog, called " ++ String.mk [SampleJson.dq] ++ "Notes" ++
      String.mk [SampleJson.dq, SampleJson.bs]
    technologies := ["React", "Node.js"]
    milestones := [{ id := "milestone-1700000003100-m1m1m1m1m", title := "Design", completed := true },
                   { id := "milestone-1700000003200-m2m2m2m2m", title := "Launch", completed := false }] }

/-! ### A sample host

A reader of dates written `YYYY-MM-DD`, giving the milliseconds since the
epoch of that day at midnight UTC, and a test for an `http` or `https` prefix.
They stand for `new Date` and `new URL` in examples. -/

namespace SampleHost

/-- The number written by a list of decimal digits, most significant first,
after the digits already read as `acc`. -/
def number : Nat → List Char → Option Nat
  | acc, [] => some acc
  | acc, c :: cs =>
    if '0' ≤ c ∧ c ≤ '9' then number (acc * 10 + (c.toNat - 48)) cs else none

/-- The days from the epoch to the given day of the proleptic Gregorian
calendar. -/
def daysFromCivil (y m d : Int) : Int :=
  let y := if m ≤ 2 then y - 1 else y
  let era := y / 400
  let yoe := y - era * 400
  let mp := (m + 9) % 12
  let doy := (153 * mp + 2) / 5 + d - 1
  let doe := yoe * 365 + yoe / 4 - yoe / 100 + doy
  era * 146097 + doe - 719468

/-- The time value of a date written `YYYY-MM-DD`. -/
def parseDate (s : String) : Option Int :=
  match s.data with
  | [y1, y2, y3, y4, '-', m1, m2, '-', d1, d2] =>
    match number 0 [y1, y2, y3, y4], number 0 [m1, m2], number 0 [d1, d2] with
    | some y, some m, some d =>
      if 1 ≤ m ∧ m ≤ 12 ∧ 1 ≤ d ∧ d ≤ 31 then
        some (daysFromCivil y m d * 86400000)
      else none
    | _, _, _ => none
  | _ => none

/-- The text starts with `http://` or `https://`. -/
def isUrl (s : String) : Bool :=
  "http://".data.isPrefixOf s.data || "https://".data.isPrefixOf s.data

end SampleHost

/-- The sample host. -/
def sampleHost : Host :=
  { parseDate := SampleHost.parseDate, isUrl := SampleHost.isUrl }

/-- A form whose end date is before its start date. -/
def backwardsForm : FormData :=
  { sampleForm with startDate := "2024-03-10", endDate := "2024-03-09" }

/-- A form whose end date is after its start date. -/
def forwardsForm : FormData :=
  { sampleForm with startDate := "2024-03-10", endDate := "2024-04-01" }

/-- A completed milestone. -/
def doneMilestone : Milestone :=
  { id := "milestone-1700000003100-m1m1m1m1m", title := "Design", completed := true }

/-- A milestone that is not completed. -/
def openMilestone : Milestone :=
  { id := "milestone-1700000003200-m2m2m2m2m", title := "Launch", completed := false }

/-- Forty milestones, of which twenty-three are completed. -/
def fortyMilestones : List Milestone :=
  List.replicate 23 doneMilestone ++ List.replicate 17 openMilestone

/-- A modal state with two technologies and a padded input. -/
def sampleModal : ModalState :=
  { formData := { sampleForm with technologies := ["React", "Node.js"] }
    techInput := "  Lean " }

/-- A dashboard listing the sample project and the project with quotes. -/
def sampleDashboard : DashboardState :=
  { projects := [sampleProject, quotedProject], filteredProjects := [],
    searchQuery := "TRACK", filterStatus := "planned" }

/-- A run: start-up on the empty store, a registration, a logout and a login
with the seeded admin account. -/
def sampleRun : List AuthOp :=
  [.startup "2024-01-01T00:00:00.000Z" "2024-01-01T00:00:00.001Z",
   .register "Bob" "bob@x.com" "Bob#1234" none 1700000000700 "zzzzzzzzz"
     "2024-01-05T00:00:00.000Z",
   .logout,
   .login "Admin@PortfolioHub.com" "Admin@123"]

/-- The account that the registration of the sample run stores. -/
def bobAccount : User :=
  { id := "user-1700000000700-zzzzzzzzz", name := "Bob", email := "bob@x.com",
    password := some "Bob#1234", role := "student",
    createdAt := "2024-01-05T00:00:00.000Z" }

/-- A run of the application: start-up on the empty store, the registration of
the first account, the creation of a project on its dashboard and a logout. -/
def sampleAppRun : List AppOp :=
  [.auth (.startup "2024-01-01T00:00:00.000Z" "2024-01-01T00:00:00.001Z"),
   .auth (.register "Ann" "ann@x.com" "First#123" none 1700000000000 "k3j9x2m1q"
     "2024-01-01T00:00:00.000Z"),
   .submitProject none sampleForm 1700000001000 "a1b2c3d4e" "2024-01-03T00:00:00.000Z"
     "2024-01-03T00:00:00.000Z",
   .auth .logout]

/-- The project that the sample run of the application creates. -/
def annProject : Project :=
  { sampleProject with startDate := "2024-01-03" }

/-- Further steps, taken after the registration of Bob: the first account logs
in, creates a second project and edits the first; then Bob logs in and deletes
a project. -/
def laterAppRun : List AppOp :=
  [.auth .logout,
   .auth (.login "ANN@x.com" "First#123"),
   .submitProject none forwardsForm 1700000003000 "z9y8x7w6v" "2024-01-06T00:00:00.000Z"
     "2024-01-06T00:00:00.000Z",
   .submitProject (some annProject) backwardsForm 0 "" "2024-01-07T00:00:00.000Z" "",
   .submitProject (some annProject) forwardsForm 0 "" "2024-01-07T00:00:01.000Z" "",
   .auth .logout,
   .auth (.login "bob@x.com" "Bob#1234"),
   .deleteProject "project-1700000003000-z9y8x7w6v"]

/-- The session value of the seeded admin account. -/
def adminSession : User :=
  { id := "admin-001", name := "Admin User", email := "admin@portfoliohub.com",
    password := none, role := "admin", createdAt := "2024-01-01T00:00:00.000Z" }

/-! ## Lemmas on characters and lookup -/

theorem toNat_ofNat_of_lt (n : Nat) (h : n < 55296) : (Char.ofNat n).toNat = n := by
  have hv : n.isValidChar := Or.inl h
  simp only [Char.ofNat, hv, Char.toNat, Char.ofNatAux, dite_true]
  show (BitVec.ofNatLt n _).toNat = n
  simp

theorem toLower_toUpper (c : Char) : c.toUpper.toLower = c.toLower := by
  by_cases h : c.toNat ≥ 97 ∧ c.toNat ≤ 122
  · have hl : c.toLower = c := by
      unfold Char.toLower
      have : ¬ (c.toNat ≥ 65 ∧ c.toNat ≤ 90) := by omega
      simp only [this, if_false]
    have hu : c.toUpper = Char.ofNat (c.toNat - 32) := by
      unfold Char.toUpper
      simp only [h, and_self, if_true]
    have hn := toNat_ofNat_of_lt (c.toNat - 32) (by omega)
    rw [hu, hl]
    unfold Char.toLower
    rw [hn]
    have : (c.toNat - 32 ≥ 65 ∧ c.toNat - 32 ≤ 90) := by omega
    simp only [this, and_self, if_true]
    have : c.toNat - 32 + 32 = c.toNat := by omega
    rw [this]
    exact Char.ofNat_toNat c
  · have hu : c.toUpper = c := by
      unfold Char.toUpper
      simp only [h, if_false]
    rw [hu]

theorem sameLetter_toLower {c d : Char} (h : sameLetter c d = true) :
    c.toLower = d.toLower := by
  simp only [sameLetter, Bool.or_eq_true, beq_iff_eq] at h
  rcases h with (h | h) | h
  · rw [h]
  · rw [h, toLower_toUpper]
  · rw [h, toLower_toUpper]

theorem differOnlyInCaseAux_map :
    ∀ (a b : List Char), differOnlyInCaseAux a b = true →
      a.map Char.toLower = b.map Char.toLower
  | [], [], _ => rfl
  | [], _ :: _, h => by simp [differOnlyInCaseAux] at h
  | _ :: _, [], h => by simp [differOnlyInCaseAux] at h
  | c :: cs, d :: ds, h => by
    simp only [differOnlyInCaseAux, Bool.and_eq_true] at h
    simp only [List.map_cons, sameLetter_toLower h.1, differOnlyInCaseAux_map cs ds h.2]

theorem asciiLowerCase_eq_of_differOnlyInCase {a b : String}
    (h : differOnlyInCase a b = true) : asciiLowerCase a = asciiLowerCase b := by
  unfold asciiLowerCase
  rw [differOnlyInCaseAux_map a.data b.data h]

/-- Two ASCII strings that differ only in letter case have the same lower-cased
form under the host function. -/
theorem toLowerCase_eq_of_differOnlyInCase (str : StringHost) {a b : String}
    (ha : isAscii a = true) (hb : isAscii b = true)
    (h : differOnlyInCase a b = true) : str.toLowerCase a = str.toLowerCase b := by
  rw [str.ascii a ha, str.ascii b hb]
  exact asciiLowerCase_eq_of_differOnlyInCase h

/-- The host function keeps the emails of the two seeded accounts apart. -/
theorem toLowerCase_seeds_ne (str : StringHost) :
    str.toLowerCase "admin@portfoliohub.com" ≠ str.toLowerCase "student@example.com" := by
  rw [str.ascii "admin@portfoliohub.com" (by decide),
    str.ascii "student@example.com" (by decide)]
  decide

theorem findUserByEmail_eq_none_iff (str : StringHost) (ls : LocalStorage)
    (email : String) :
    findUserByEmail str ls email = none ↔
      ∀ u ∈ getAllUsers ls, ¬ emailMatches str u email := by
  simp [findUserByEmail, emailMatches]

theorem findUserByEmail_eq_some_iff (str : StringHost) (ls : LocalStorage)
    (email : String) (u : User) :
    findUserByEmail str ls email = some u ↔ FirstMatch str (getAllUsers ls) email u := by
  simp only [findUserByEmail, FirstMatch, emailMatches, List.find?_eq_some, decide_eq_true_eq,
    Bool.not_eq_true', decide_eq_false_iff_not]
  constructor
  · rintro ⟨hu, before, after, hl, hb⟩
    exact ⟨before, after, hl, hb, hu⟩
  · rintro ⟨before, after, hl, hb, hu⟩
    exact ⟨hu, before, after, hl, hb⟩

theorem findUserByEmail_of_mem (str : StringHost) (ls : LocalStorage) (email : String)
    (h : ∃ u ∈ getAllUsers ls, emailMatches str u email) :
    ∃ v, findUserByEmail str ls email = some v := by
  cases hf : findUserByEmail str ls email with
  | some v => exact ⟨v, rfl⟩
  | none =>
    obtain ⟨u, hu, hm⟩ := h
    exact absurd hm ((findUserByEmail_eq_none_iff str ls email).1 hf u hu)

/-- In a directory with unique emails, any matching user is the first match. -/
theorem firstMatch_of_unique (str : StringHost) {users : List User} {e : String} {u : User}
    (huniq : EmailsUnique str users) (hu : u ∈ users) (hm : emailMatches str u e) :
    FirstMatch str users e u := by
  obtain ⟨before, after, hl⟩ := List.append_of_mem hu
  refine ⟨before, after, hl, ?_, hm⟩
  intro v hv hvm
  unfold EmailsUnique at huniq
  rw [hl, List.pairwise_append] at huniq
  have hne := huniq.2.2 v hv u (List.mem_cons_self _ _)
  unfold emailMatches at hm hvm
  exact hne (hvm.trans hm.symm)

/-- The outcome of `login` once the lookup has found a user with the given
password. -/
theorem login_of_find (str : StringHost) (st : AuthState) (email password : String) (u : User)
    (hf : findUserByEmail str st.storage email = some u) (hpw : u.password = some password) :
    login str st email password =
      (.ok (withoutPassword u),
        { st with user := some (withoutPassword u)
                  storage := saveUser st.storage (withoutPassword u) }) := by
  unfold login
  simp only [hf, hpw, ne_eq, not_true_eq_false, if_false]

/-- On a directory with unique emails, `login` with the email and password of
any stored user returns that user without its password. -/
theorem login_of_unique (str : StringHost) (st : AuthState) (email password : String) (u : User)
    (huniq : EmailsUnique str (getAllUsers st.storage)) (hu : u ∈ getAllUsers st.storage)
    (hm : str.toLowerCase u.email = str.toLowerCase email) (hpw : u.password = some password) :
    (login str st email password).1 = .ok { u with password := none } := by
  have hf := (findUserByEmail_eq_some_iff str st.storage email u).2
    (firstMatch_of_unique str huniq hu hm)
  rw [login_of_find str st email password u hf hpw]
  rfl

/-- On the seeded directory the lookup of each seeded email finds the seeded
account of that email. -/
theorem findUserByEmail_seeded (str : StringHost) (ls : LocalStorage)
    (nowAdmin nowStudent : String)
    (h : getAllUsers ls = [defaultAdmin nowAdmin, defaultStudent nowStudent]) :
    findUserByEmail str ls "admin@portfoliohub.com" = some (defaultAdmin nowAdmin) ∧
    findUserByEmail str ls "student@example.com" = some (defaultStudent nowStudent) := by
  have hne := toLowerCase_seeds_ne str
  unfold findUserByEmail
  rw [h]
  constructor
  · simp [List.find?, defaultAdmin]
  · simp [List.find?, defaultAdmin, defaultStudent, hne]

/-- The directory after `register`: unchanged when a match exists, the new
user appended otherwise. -/
theorem getAllUsers_register (str : StringHost) (st : AuthState) (name email password : String)
    (role : Option String) (dateNow : Nat) (rnd now : String) :
    getAllUsers (register str st name email password role dateNow rnd now).2.storage =
      match findUserByEmail str st.storage email with
      | some _ => getAllUsers st.storage
      | none => getAllUsers st.storage ++
          [{ id := generateId (some "user") dateNow rnd, name := name, email := email,
             password := some password, role := role.getD "student", createdAt := now }] := by
  unfold register
  cases findUserByEmail str st.storage email <;> rfl

/-! ## Registration and login: failures -/

/-- C1. `register` fails with `DuplicateEmail` whenever some stored user's
email equals the given one after lower-casing both with the host function; in
particular a second registration fails whenever its email has the same
lower-cased form as the email of the first, which is the case for two ASCII
emails that differ only in the case of their letters. -/
theorem register_duplicate_email (str : StringHost) (st : AuthState)
    (name email password : String) (role : Option String) (dateNow : Nat) (rnd now : String)
    (name2 email2 password2 : String) (role2 : Option String) (dateNow2 : Nat)
    (rnd2 now2 : String) :
    ((∃ u ∈ getAllUsers st.storage, str.toLowerCase u.email = str.toLowerCase email) →
      (register str st name email password role dateNow rnd now).1 = .error .DuplicateEmail) ∧
    (str.toLowerCase email = str.toLowerCase email2 →
      (register str (register str st name email password role dateNow rnd now).2
        name2 email2 password2 role2 dateNow2 rnd2 now2).1 = .error .DuplicateEmail) ∧
    (isAscii email = true → isAscii email2 = true → differOnlyInCase email email2 = true →
      (register str (register str st name email password role dateNow rnd now).2
        name2 email2 password2 role2 dateNow2 rnd2 now2).1 = .error .DuplicateEmail) := by
  have key : ∀ (s : AuthState) (n e p : String) (r : Option String) (d : Nat) (x y : String),
      (∃ u ∈ getAllUsers s.storage, emailMatches str u e) →
      (register str s n e p r d x y).1 = .error .DuplicateEmail := by
    intro s n e p r d x y h
    obtain ⟨v, hv⟩ := findUserByEmail_of_mem str s.storage e h
    simp only [register, hv]
  have second : str.toLowerCase email = str.toLowerCase email2 →
      (register str (register str st name email password role dateNow rnd now).2
        name2 email2 password2 role2 dateNow2 rnd2 now2).1 = .error .DuplicateEmail := by
    intro hlow
    apply key
    rw [getAllUsers_register]
    cases hf : findUserByEmail str st.storage email with
    | some v =>
      have hm := (findUserByEmail_eq_some_iff str st.storage email v).1 hf
      obtain ⟨before, after, hl, _, hv⟩ := hm
      refine ⟨v, ?_, ?_⟩
      · show v ∈ getAllUsers st.storage
        rw [hl]; simp
      · unfold emailMatches at hv ⊢
        rw [hv, hlow]
    | none =>
      refine ⟨_, List.mem_append_right _ (List.mem_singleton_self _), ?_⟩
      unfold emailMatches
      exact hlow
  exact ⟨key st name email password role dateNow rnd now, second,
    fun ha hb hc => second (toLowerCase_eq_of_differOnlyInCase str ha hb hc)⟩

/-- C2. `login` fails with `UserNotFound` exactly when no stored user's email
matches case-insensitively, that is, has the lower-cased form of the given
email under the host function; when a match exists, it fails with
`InvalidCredentials` exactly when the stored password of the first matching
user is not the given password. -/
theorem login_failure_iff (str : StringHost) (st : AuthState) (email password : String) :
    ((login str st email password).1 = .error .UserNotFound ↔
      ∀ u ∈ getAllUsers st.storage, str.toLowerCase u.email ≠ str.toLowerCase email) ∧
    (∀ u, FirstMatch str (getAllUsers st.storage) email u →
      ((login str st email password).1 = .error .InvalidCredentials ↔
        u.password ≠ some password)) := by
  constructor
  · rw [show (∀ u ∈ getAllUsers st.storage, str.toLowerCase u.email ≠ str.toLowerCase email) ↔
      findUserByEmail str st.storage email = none from
      (findUserByEmail_eq_none_iff str st.storage email).symm]
    unfold login
    cases findUserByEmail str st.storage email with
    | none => simp
    | some v =>
      by_cases hp : v.password = some password <;> simp [hp]
  · intro u hu
    have hf := (findUserByEmail_eq_some_iff str st.storage email u).2 hu
    unfold login
    simp only [hf]
    by_cases hp : u.password = some password <;> simp [hp]

/-! ## Witnesses for the failure claims -/

theorem register_duplicate_email_witness :
    (register asciiHost oneAnn "Bob" "Ann@X.COM" "Bob#1234" none 1700000000700 "zzzzzzzzz"
        "2024-01-05T00:00:00.000Z").1 = .error .DuplicateEmail ∧
    (register asciiHost
        (register asciiHost oneAnn "Bob" "bob@x.com" "Bob#1234" none 1700000000700
          "zzzzzzzzz" "2024-01-05T00:00:00.000Z").2
        "Bob B" "BOB@X.COM" "Other#123" none 1700000000900 "qqqqqqqqq"
        "2024-01-06T00:00:00.000Z").1 = .error .DuplicateEmail ∧
    (register asciiHost
        (register asciiHost (AuthProvider emptyStorage) "Ann" "ann@x.com" "First#123" none
          1700000000000 "k3j9x2m1q" "2024-01-01T00:00:00.000Z").2
        "Ann B" "ANN@x.com" "Second#123" none 1700000000500 "p0o9i8u7y"
        "2024-01-02T00:00:00.000Z").1 = .error .DuplicateEmail :=
  ⟨(register_duplicate_email asciiHost oneAnn "Bob" "Ann@X.COM" "Bob#1234" none 1700000000700
      "zzzzzzzzz" "2024-01-05T00:00:00.000Z" "" "" "" none 0 "" "").1
      ⟨firstAnn, by decide, by decide⟩,
   (register_duplicate_email asciiHost oneAnn "Bob" "bob@x.com" "Bob#1234" none 1700000000700
      "zzzzzzzzz" "2024-01-05T00:00:00.000Z"
      "Bob B" "BOB@X.COM" "Other#123" none 1700000000900 "qqqqqqqqq"
      "2024-01-06T00:00:00.000Z").2.1 (by decide),
   (register_duplicate_email asciiHost (AuthProvider emptyStorage) "Ann" "ann@x.com"
      "First#123" none 1700000000000 "k3j9x2m1q" "2024-01-01T00:00:00.000Z"
      "Ann B" "ANN@x.com" "Second#123" none 1700000000500 "p0o9i8u7y"
      "2024-01-02T00:00:00.000Z").2.2 (by decide) (by decide) (by decide)⟩

theorem login_failure_iff_witness :
    (login asciiHost oneAnn "ANN@X.com" "Wrong#123").1 = .error .InvalidCredentials ∧
    (login asciiHost oneAnn "bob@x.com" "First#123").1 = .error .UserNotFound :=
  ⟨((login_failure_iff asciiHost oneAnn "ANN@X.com" "Wrong#123").2 firstAnn
      ⟨[], [], rfl, by simp, by decide⟩).2 (by decide),
   (login_failure_iff asciiHost oneAnn "bob@x.com" "First#123").1.2 (by decide)⟩

/-! ## Registration and login: success -/

/-- C4. When no stored user matches the email case-insensitively (no stored
email has the lower-cased form of the given one under the host function),
`register` succeeds: the directory afterwards is the directory before with the new user
(given name, email, password and role, generated id, `createdAt` stamp)
appended at the end; the returned value, the in-memory session and the
persisted session are the new user without its password; and the role is
`'student'` when the role argument is omitted. -/
theorem register_success (str : StringHost) (st : AuthState) (name email password : String)
    (role : Option String) (dateNow : Nat) (rnd now : String)
    (hnew : ∀ u ∈ getAllUsers st.storage, str.toLowerCase u.email ≠ str.toLowerCase email) :
    let result := register str st name email password role dateNow rnd now
    let newUser : User :=
      { id := generateId (some "user") dateNow rnd, name := name, email := email,
        password := some password,
        role := (match role with | some r => r | none => "student"),
        createdAt := now }
    let sessionUser : User :=
      { id := newUser.id, name := name, email := email, password := none,
        role := newUser.role, createdAt := now }
    getAllUsers result.2.storage = getAllUsers st.storage ++ [newUser] ∧
    result.1 = .ok sessionUser ∧
    result.2.user = some sessionUser ∧
    getUser result.2.storage = some sessionUser ∧
    (role = none → newUser.role = "student" ∧ sessionUser.role = "student") := by
  have hf : findUserByEmail str st.storage email = none :=
    (findUserByEmail_eq_none_iff str st.storage email).2 hnew
  intro result newUser sessionUser
  have hr : result = register str st name email password role dateNow rnd now := rfl
  unfold register at hr
  simp only [hf] at hr
  rw [hr]
  cases role <;>
    simp [newUser, sessionUser, withoutPassword, getUser, saveUser, addUser, saveAllUsers,
      getAllUsers]

theorem register_success_witness :
    getAllUsers (register asciiHost oneAnn "Bob" "bob@x.com" "Bob#1234" none 1700000000700
        "zzzzzzzzz" "2024-01-05T00:00:00.000Z").2.storage =
      [firstAnn,
       { id := "user-1700000000700-zzzzzzzzz", name := "Bob", email := "bob@x.com",
         password := some "Bob#1234", role := "student",
         createdAt := "2024-01-05T00:00:00.000Z" }] :=
  (register_success asciiHost oneAnn "Bob" "bob@x.com" "Bob#1234" none 1700000000700
    "zzzzzzzzz" "2024-01-05T00:00:00.000Z" (by decide)).1

/-! ## Atomicity of failures -/

/-- C5. A failing call changes nothing: when `register` fails (which is with
`DuplicateEmail`), when `login` fails (which is with `UserNotFound` or
`InvalidCredentials`) or when `updateProject` fails (which it does when no
project has the id), the state after the call, and so the persisted session, the
user directory and the project directory, is the state before it. -/
theorem failure_leaves_state (str : StringHost) (st : AuthState) (name email password : String)
    (role : Option String) (dateNow : Nat) (rnd now : String)
    (ls : LocalStorage) (projectId : String) (updatedData : ProjectPatch) (nowU : String) :
    (∀ e, (register str st name email password role dateNow rnd now).1 = .error e →
      e = .DuplicateEmail ∧
      (register str st name email password role dateNow rnd now).2 = st) ∧
    (∀ e, (login str st email password).1 = .error e →
      (e = .UserNotFound ∨ e = .InvalidCredentials) ∧
      (login str st email password).2 = st) ∧
    ((∀ p ∈ getAllProjects ls, p.id ≠ projectId) →
      (updateProject ls projectId updatedData nowU).1 = none) ∧
    ((updateProject ls projectId updatedData nowU).1 = none →
      (updateProject ls projectId updatedData nowU).2 = ls) := by
  refine ⟨?_, ?_, ?_, ?_⟩
  · intro e he
    unfold register at he ⊢
    cases hf : findUserByEmail str st.storage email with
    | some v =>
      simp only [hf] at he ⊢
      injection he with he
      exact ⟨he.symm, trivial⟩
    | none => simp [hf] at he
  · intro e he
    unfold login at he ⊢
    cases hf : findUserByEmail str st.storage email with
    | none =>
      simp only [hf] at he ⊢
      injection he with he
      exact ⟨Or.inl he.symm, trivial⟩
    | some v =>
      by_cases hp : v.password = some password
      · simp [hf, hp] at he
      · simp only [hf, ne_eq, hp, not_false_eq_true, if_true] at he ⊢
        injection he with he
        exact ⟨Or.inr he.symm, trivial⟩
  · intro hno
    have hlen : (getAllProjects ls).findIdx (fun p => decide (p.id = projectId)) =
        (getAllProjects ls).length :=
      List.findIdx_eq_length_of_false (fun p hp => by simpa using hno p hp)
    unfold updateProject
    simp [hlen]
  · intro hnone
    unfold updateProject at hnone ⊢
    by_cases h : (getAllProjects ls).findIdx (fun p => decide (p.id = projectId)) <
        (getAllProjects ls).length
    · simp [h] at hnone
    · simp [h]

theorem failure_leaves_state_witness :
    (register asciiHost oneAnn "Bob" "Ann@X.COM" "Bob#1234" none 1700000000700 "zzzzzzzzz"
        "2024-01-05T00:00:00.000Z").2 = oneAnn ∧
    (login asciiHost oneAnn "ann@x.com" "Wrong#123").2 = oneAnn ∧
    (updateProject (addProject oneAnn.storage sampleProject).2 "project-0-missing"
        statusPatch "2024-01-06T00:00:00.000Z").2 =
      (addProject oneAnn.storage sampleProject).2 :=
  ⟨((failure_leaves_state asciiHost oneAnn "Bob" "Ann@X.COM" "Bob#1234" none 1700000000700 "zzzzzzzzz"
      "2024-01-05T00:00:00.000Z" emptyStorage "" statusPatch "").1
      .DuplicateEmail (by rfl)).2,
   ((failure_leaves_state asciiHost oneAnn "" "ann@x.com" "Wrong#123" none 0 "" ""
      emptyStorage "" statusPatch "").2.1 .InvalidCredentials (by rfl)).2,
   (failure_leaves_state asciiHost oneAnn "" "" "" none 0 "" ""
      (addProject oneAnn.storage sampleProject).2 "project-0-missing" statusPatch
      "2024-01-06T00:00:00.000Z").2.2.2 (by rfl)⟩

/-! ## Lemmas on the start-up and on runs -/

theorem getAllUsers_initializeDefaultUsers (ls : LocalStorage) (nowAdmin nowStudent : String) :
    getAllUsers (initializeDefaultUsers ls nowAdmin nowStudent) =
      if getAllUsers ls = [] then [defaultAdmin nowAdmin, defaultStudent nowStudent]
      else getAllUsers ls := by
  by_cases h : getAllUsers ls = []
  · have hlen : (getAllUsers ls).length = 0 := by rw [h]; rfl
    simp only [initializeDefaultUsers, hlen, h, if_true]
    rfl
  · have hlen : ¬ (getAllUsers ls).length = 0 := fun hl => h (List.length_eq_zero.1 hl)
    simp only [initializeDefaultUsers, hlen, h, if_false]

theorem user_initializeDefaultUsers (ls : LocalStorage) (nowAdmin nowStudent : String) :
    (initializeDefaultUsers ls nowAdmin nowStudent).user = ls.user := by
  simp only [initializeDefaultUsers]
  split <;> rfl

theorem projects_initializeDefaultUsers (ls : LocalStorage) (nowAdmin nowStudent : String) :
    (initializeDefaultUsers ls nowAdmin nowStudent).projects = ls.projects := by
  simp only [initializeDefaultUsers]
  split <;> rfl

theorem mem_getAllUsers_initializeDefaultUsers (ls : LocalStorage)
    (nowAdmin nowStudent : String) (u : User) (hu : u ∈ getAllUsers ls) :
    u ∈ getAllUsers (initializeDefaultUsers ls nowAdmin nowStudent) := by
  rw [getAllUsers_initializeDefaultUsers]
  have hne : getAllUsers ls ≠ [] := List.ne_nil_of_mem hu
  simpa [hne] using hu

theorem storage_startup (ls : LocalStorage) (nowAdmin nowStudent : String) :
    (startup ls nowAdmin nowStudent).storage =
      initializeDefaultUsers ls nowAdmin nowStudent := by
  simp only [startup, mountEffect]
  cases getUser (initializeDefaultUsers (AuthProvider ls).storage nowAdmin nowStudent) <;> rfl

theorem user_startup (ls : LocalStorage) (nowAdmin nowStudent : String) :
    (startup ls nowAdmin nowStudent).user = ls.user := by
  unfold startup mountEffect
  simp only [getUser, user_initializeDefaultUsers, AuthProvider]
  cases h : ls.user <;> rfl

theorem getAllUsers_login (str : StringHost) (st : AuthState) (email password : String) :
    getAllUsers (login str st email password).2.storage = getAllUsers st.storage := by
  unfold login
  cases findUserByEmail str st.storage email with
  | none => rfl
  | some v =>
    by_cases hp : v.password = some password <;> simp [hp, saveUser, getAllUsers]

theorem runOps_induction (str : StringHost) (P : AuthState → Prop)
    (hstep : ∀ st op, P st → P (AuthOp.apply str st op)) :
    ∀ (ops : List AuthOp) (st : AuthState), P st → P (runOps str st ops) := by
  intro ops
  induction ops with
  | nil => intro st h; exact h
  | cons op ops ih =>
    intro st h
    exact ih (AuthOp.apply str st op) (hstep st op h)

theorem emailsUnique_defaults (str : StringHost) (nowAdmin nowStudent : String) :
    EmailsUnique str [defaultAdmin nowAdmin, defaultStudent nowStudent] := by
  unfold EmailsUnique
  simp only [List.pairwise_cons, List.mem_singleton, List.not_mem_nil, forall_eq,
    IsEmpty.forall_iff, implies_true, List.Pairwise.nil, and_true]
  exact toLowerCase_seeds_ne str

theorem emailsUnique_apply (str : StringHost) (st : AuthState) (op : AuthOp)
    (h : EmailsUnique str (getAllUsers st.storage)) :
    EmailsUnique str (getAllUsers (AuthOp.apply str st op).storage) := by
  cases op with
  | initializeDefaultUsers a b =>
    show EmailsUnique str (getAllUsers (initializeDefaultUsers st.storage a b))
    rw [getAllUsers_initializeDefaultUsers]
    split
    · exact emailsUnique_defaults str a b
    · exact h
  | startup a b =>
    show EmailsUnique str (getAllUsers (startup st.storage a b).storage)
    rw [storage_startup, getAllUsers_initializeDefaultUsers]
    split
    · exact emailsUnique_defaults str a b
    · exact h
  | register name email password role dateNow rnd now =>
    show EmailsUnique str
      (getAllUsers (register str st name email password role dateNow rnd now).2.storage)
    rw [getAllUsers_register str]
    cases hf : findUserByEmail str st.storage email with
    | some v => exact h
    | none =>
      have hnew := (findUserByEmail_eq_none_iff str st.storage email).1 hf
      unfold EmailsUnique at h ⊢
      rw [List.pairwise_append]
      refine ⟨h, List.pairwise_singleton _ _, ?_⟩
      intro a ha b hb
      rw [List.mem_singleton] at hb
      subst hb
      exact hnew a ha
  | login email password =>
    show EmailsUnique str (getAllUsers (login str st email password).2.storage)
    rw [getAllUsers_login str]
    exact h
  | logout => exact h

theorem sessionValue_mono {users users' : List User} {s : User}
    (hsub : ∀ u ∈ users, u ∈ users') (h : SessionValue users s) :
    SessionValue users' s := by
  obtain ⟨hp, u, hu, hs⟩ := h
  exact ⟨hp, u, hsub u hu, hs⟩

theorem sessionOK_apply (str : StringHost) (st : AuthState) (op : AuthOp) (h : SessionOK st) :
    SessionOK (AuthOp.apply str st op) := by
  obtain ⟨hmem, hper⟩ := h
  cases op with
  | initializeDefaultUsers a b =>
    have hsub := mem_getAllUsers_initializeDefaultUsers st.storage a b
    constructor
    · intro s hs
      exact sessionValue_mono hsub (hmem s hs)
    · intro s hs
      have hs' : st.storage.user = some s := by
        rw [← user_initializeDefaultUsers st.storage a b]; exact hs
      exact sessionValue_mono hsub (hper s hs')
  | startup a b =>
    have hsub := mem_getAllUsers_initializeDefaultUsers st.storage a b
    show SessionOK (startup st.storage a b)
    unfold SessionOK
    rw [storage_startup, user_startup, user_initializeDefaultUsers]
    exact ⟨fun s hs => sessionValue_mono hsub (hper s hs),
      fun s hs => sessionValue_mono hsub (hper s hs)⟩
  | register name email password role dateNow rnd now =>
    show SessionOK (register str st name email password role dateNow rnd now).2
    unfold register
    cases hf : findUserByEmail str st.storage email with
    | some v => exact ⟨hmem, hper⟩
    | none =>
      have hval : SessionValue
          (getAllUsers st.storage ++
            [{ id := generateId (some "user") dateNow rnd, name := name, email := email,
               password := some password, role := role.getD "student", createdAt := now }])
          (withoutPassword
            { id := generateId (some "user") dateNow rnd, name := name, email := email,
              password := some password, role := role.getD "student", createdAt := now }) :=
        ⟨rfl, _, List.mem_append_right _ (List.mem_singleton_self _), rfl⟩
      constructor
      · intro s hs
        have : withoutPassword
            { id := generateId (some "user") dateNow rnd, name := name, email := email,
              password := some password, role := role.getD "student", createdAt := now } = s :=
          Option.some.inj hs
        rw [← this]
        exact hval
      · intro s hs
        have : withoutPassword
            { id := generateId (some "user") dateNow rnd, name := name, email := email,
              password := some password, role := role.getD "student", createdAt := now } = s :=
          Option.some.inj hs
        rw [← this]
        exact hval
  | login email password =>
    show SessionOK (login str st email password).2
    unfold login
    cases hf : findUserByEmail str st.storage email with
    | none => exact ⟨hmem, hper⟩
    | some v =>
      by_cases hp : v.password = some password
      · have hv : v ∈ getAllUsers st.storage := List.mem_of_find?_eq_some hf
        have hval : SessionValue (getAllUsers st.storage) (withoutPassword v) :=
          ⟨rfl, v, hv, rfl⟩
        simp only [ne_eq, hp, not_true_eq_false, if_false]
        constructor
        · intro s hs
          have : withoutPassword v = s := Option.some.inj hs
          rw [← this]
          exact hval
        · intro s hs
          have : withoutPassword v = s := Option.some.inj hs
          rw [← this]
          exact hval
      · simp only [ne_eq, hp, not_false_eq_true, if_true]
        exact ⟨hmem, hper⟩
  | logout =>
    constructor
    · intro s hs
      exact absurd hs (by simp [AuthOp.apply, logout])
    · intro s hs
      exact absurd hs (by simp [AuthOp.apply, logout, removeUser])

/-! ## Invariants -/

/-- C6. Email uniqueness is an invariant: after any sequence of
`initializeDefaultUsers`, start-up, `register`, `login` and `logout` calls on
the application mounted on an empty store, no two users of the directory have
emails that are equal under case-insensitive comparison, that is, after
lower-casing with the host function. -/
theorem emails_unique_invariant (str : StringHost) (ops : List AuthOp) :
    (getAllUsers (runOps str initialState ops).storage).Pairwise
      (fun a b => str.toLowerCase a.email ≠ str.toLowerCase b.email) :=
  runOps_induction str (fun st => EmailsUnique str (getAllUsers st.storage))
    (emailsUnique_apply str) ops initialState List.Pairwise.nil

/-- C3. On every user directory that the application reaches (after any
sequence of `initializeDefaultUsers`, start-up, `register`, `login` and
`logout` calls on the application mounted on an empty store), for every email
and password such that some stored user matches the email case-insensitively
and has exactly that password, `login` succeeds and returns that user without
a password and with every other field unchanged, and the in-memory session and
the persisted session both become the returned value. -/
theorem login_success (str : StringHost) (ops : List AuthOp) (email password : String)
    (u : User)
    (hu : u ∈ getAllUsers (runOps str initialState ops).storage)
    (hmatch : str.toLowerCase u.email = str.toLowerCase email)
    (hpw : u.password = some password) :
    ∃ r : User, (login str (runOps str initialState ops) email password).1 = .ok r ∧
      r.password = none ∧ r.id = u.id ∧ r.name = u.name ∧ r.email = u.email ∧
      r.role = u.role ∧ r.createdAt = u.createdAt ∧
      (login str (runOps str initialState ops) email password).2.user = some r ∧
      getUser (login str (runOps str initialState ops) email password).2.storage =
        some r := by
  have huniq : EmailsUnique str (getAllUsers (runOps str initialState ops).storage) :=
    runOps_induction str (fun st => EmailsUnique str (getAllUsers st.storage))
      (emailsUnique_apply str) ops initialState List.Pairwise.nil
  have hf := (findUserByEmail_eq_some_iff str (runOps str initialState ops).storage email u).2
    (firstMatch_of_unique str huniq hu hmatch)
  refine ⟨withoutPassword u, ?_⟩
  rw [login_of_find str (runOps str initialState ops) email password u hf hpw]
  exact ⟨rfl, rfl, rfl, rfl, rfl, rfl, rfl, rfl, rfl⟩

theorem login_success_witness :
    bobAccount ∈ getAllUsers (runOps asciiHost initialState sampleRun).storage ∧
    ∃ r : User,
      (login asciiHost (runOps asciiHost initialState sampleRun) "BOB@X.com" "Bob#1234").1 =
        .ok r ∧
      r.password = none ∧ r.id = bobAccount.id ∧ r.name = bobAccount.name ∧
      r.email = bobAccount.email ∧ r.role = bobAccount.role ∧
      r.createdAt = bobAccount.createdAt ∧
      (login asciiHost (runOps asciiHost initialState sampleRun) "BOB@X.com" "Bob#1234").2.user =
        some r ∧
      getUser
        (login asciiHost (runOps asciiHost initialState sampleRun) "BOB@X.com"
          "Bob#1234").2.storage = some r :=
  ⟨by decide,
   login_success asciiHost sampleRun "BOB@X.com" "Bob#1234" bobAccount (by decide)
     (by decide) rfl⟩

/-- C7. Session invariant: after any sequence of start-up, `register`, `login`
and `logout` calls (and `initializeDefaultUsers` calls) on the application
mounted on an empty store, the in-memory session and the persisted session are
each absent or equal to some user of the directory with the password removed;
a session value never has a password. -/
theorem session_invariant (str : StringHost) (ops : List AuthOp) (s : User) :
    ((runOps str initialState ops).user = some s ∨
      (runOps str initialState ops).storage.user = some s) →
    s.password = none ∧
    ∃ u ∈ getAllUsers (runOps str initialState ops).storage,
      s = { u with password := none } := by
  have hinv : SessionOK (runOps str initialState ops) :=
    runOps_induction str SessionOK (sessionOK_apply str) ops initialState
      ⟨fun s hs => by simp [initialState, AuthProvider] at hs,
       fun s hs => by simp [initialState, AuthProvider, emptyStorage] at hs⟩
  rintro (hs | hs)
  · exact hinv.1 s hs
  · exact hinv.2 s hs

theorem session_invariant_witness :
    (runOps asciiHost initialState sampleRun).user = some adminSession ∧
    adminSession.password = none ∧
    ∃ u ∈ getAllUsers (runOps asciiHost initialState sampleRun).storage,
      adminSession = { u with password := none } :=
  ⟨by rfl, session_invariant asciiHost sampleRun adminSession (Or.inl (by rfl))⟩

/-! ## Logout, start-up and seeding -/

/-- C8. `logout` always succeeds (it is total and throws nothing), leaves the
in-memory session absent and the persisted session absent, so that a following
`getUser` returns `null`, and leaves the user directory and the project
directory unchanged. -/
theorem logout_clears_session (st : AuthState) :
    (logout st).user = none ∧
    (logout st).storage.user = none ∧
    getUser (logout st).storage = none ∧
    (logout st).storage.users = st.storage.users ∧
    (logout st).storage.projects = st.storage.projects ∧
    getAllUsers (logout st).storage = getAllUsers st.storage ∧
    getAllProjects (logout st).storage = getAllProjects st.storage :=
  ⟨rfl, rfl, rfl, rfl, rfl, rfl, rfl⟩

/-- C9. Session durability: a process start is authenticated with exactly the
persisted session user when one is stored and anonymous otherwise; hence a
restart right after a successful `login` or `register` yields the user that
call returned, and a restart right after `logout` yields no session. -/
theorem startup_restores_session (str : StringHost) (ls : LocalStorage) (st : AuthState)
    (nowAdmin nowStudent : String) (name email password : String) (role : Option String)
    (dateNow : Nat) (rnd now : String) :
    (∀ u, ls.user = some u →
      (startup ls nowAdmin nowStudent).user = some u ∧
      isAuthenticated (startup ls nowAdmin nowStudent) = true) ∧
    (ls.user = none →
      (startup ls nowAdmin nowStudent).user = none ∧
      isAuthenticated (startup ls nowAdmin nowStudent) = false) ∧
    (∀ u, (login str st email password).1 = .ok u →
      (startup (login str st email password).2.storage nowAdmin nowStudent).user = some u) ∧
    (∀ u, (register str st name email password role dateNow rnd now).1 = .ok u →
      (startup (register str st name email password role dateNow rnd now).2.storage
        nowAdmin nowStudent).user = some u) ∧
    (startup (logout st).storage nowAdmin nowStudent).user = none := by
  refine ⟨?_, ?_, ?_, ?_, ?_⟩
  · intro u hu
    have h := user_startup ls nowAdmin nowStudent
    rw [hu] at h
    exact ⟨h, by simp [isAuthenticated, h]⟩
  · intro hu
    have h := user_startup ls nowAdmin nowStudent
    rw [hu] at h
    exact ⟨h, by simp [isAuthenticated, h]⟩
  · intro u hu
    rw [user_startup]
    unfold login at hu ⊢
    cases hf : findUserByEmail str st.storage email with
    | none => simp [hf] at hu
    | some v =>
      by_cases hp : v.password = some password
      · simp only [hf, ne_eq, hp, not_true_eq_false, if_false] at hu ⊢
        injection hu with hu
        simp [saveUser, hu]
      · simp [hf, hp] at hu
  · intro u hu
    rw [user_startup]
    unfold register at hu ⊢
    cases hf : findUserByEmail str st.storage email with
    | some v => simp [hf] at hu
    | none =>
      simp only [hf] at hu ⊢
      injection hu with hu
      simp [saveUser, hu]
  · rw [user_startup]
    rfl

theorem startup_restores_session_witness :
    (startup (login asciiHost oneAnn "ANN@x.com" "First#123").2.storage
        "2024-02-01T00:00:00.000Z" "2024-02-01T00:00:00.001Z").user =
      some { firstAnn with password := none } ∧
    (startup (register asciiHost oneAnn "Bob" "bob@x.com" "Bob#1234" none 1700000000700 "zzzzzzzzz"
        "2024-01-05T00:00:00.000Z").2.storage
        "2024-02-01T00:00:00.000Z" "2024-02-01T00:00:00.001Z").user =
      some { id := "user-1700000000700-zzzzzzzzz", name := "Bob", email := "bob@x.com",
             password := none, role := "student",
             createdAt := "2024-01-05T00:00:00.000Z" } ∧
    (startup emptyStorage "2024-02-01T00:00:00.000Z" "2024-02-01T00:00:00.001Z").user =
      none :=
  ⟨(startup_restores_session asciiHost emptyStorage oneAnn "2024-02-01T00:00:00.000Z"
      "2024-02-01T00:00:00.001Z" "" "ANN@x.com" "First#123" none 0 "" "").2.2.1 _ (by rfl),
   (startup_restores_session asciiHost emptyStorage oneAnn "2024-02-01T00:00:00.000Z"
      "2024-02-01T00:00:00.001Z" "Bob" "bob@x.com" "Bob#1234" none 1700000000700
      "zzzzzzzzz" "2024-01-05T00:00:00.000Z").2.2.2.1 _ (by rfl),
   ((startup_restores_session asciiHost emptyStorage oneAnn "2024-02-01T00:00:00.000Z"
      "2024-02-01T00:00:00.001Z" "" "" "" none 0 "" "").2.1 (by rfl)).1⟩

/-- C10. `initializeDefaultUsers` seeds only an empty directory and is
idempotent: on an empty user directory it writes exactly two users, the admin
with id `'admin-001'` and the student with id `'student-001'`; on a non-empty
directory it leaves the store unchanged; so calling it twice in a row gives
the same store as calling it once. -/
theorem initializeDefaultUsers_idempotent (ls : LocalStorage)
    (nowAdmin nowStudent nowAdmin2 nowStudent2 : String) :
    (getAllUsers ls = [] →
      getAllUsers (initializeDefaultUsers ls nowAdmin nowStudent) =
        [{ id := "admin-001", email := "admin@portfoliohub.com",
           password := some "Admin@123", name := "Admin User", role := "admin",
           createdAt := nowAdmin },
         { id := "student-001", email := "student@example.com",
           password := some "Student@123", name := "Demo Student", role := "student",
           createdAt := nowStudent }]) ∧
    (getAllUsers ls ≠ [] → initializeDefaultUsers ls nowAdmin nowStudent = ls) ∧
    initializeDefaultUsers (initializeDefaultUsers ls nowAdmin nowStudent)
        nowAdmin2 nowStudent2 =
      initializeDefaultUsers ls nowAdmin nowStudent := by
  have hne : ∀ (l : LocalStorage) (a b : String), getAllUsers l ≠ [] →
      initializeDefaultUsers l a b = l := by
    intro l a b h
    have hlen : ¬ (getAllUsers l).length = 0 := fun hl => h (List.length_eq_zero.1 hl)
    simp only [initializeDefaultUsers, hlen, if_false]
  refine ⟨?_, hne ls nowAdmin nowStudent, ?_⟩
  · intro h
    rw [getAllUsers_initializeDefaultUsers, if_pos h]
    rfl
  · apply hne
    rw [getAllUsers_initializeDefaultUsers]
    split
    · exact List.cons_ne_nil _ _
    · assumption

theorem initializeDefaultUsers_idempotent_witness :
    (getAllUsers (initializeDefaultUsers emptyStorage "2024-01-01T00:00:00.000Z"
        "2024-01-01T00:00:00.001Z")).map (fun u => u.id) = ["admin-001", "student-001"] ∧
    initializeDefaultUsers oneAnn.storage "2024-01-01T00:00:00.000Z"
        "2024-01-01T00:00:00.001Z" = oneAnn.storage :=
  ⟨by
    rw [(initializeDefaultUsers_idempotent emptyStorage "2024-01-01T00:00:00.000Z"
      "2024-01-01T00:00:00.001Z" "" "").1 (by rfl)]
    rfl,
   (initializeDefaultUsers_idempotent oneAnn.storage "2024-01-01T00:00:00.000Z"
      "2024-01-01T00:00:00.001Z" "" "").2.1 (by decide)⟩

/-! ## Seed scenario and listing -/

/-- C11. Seed scenario: on an empty store, after `initializeDefaultUsers`,
`login('admin@portfoliohub.com','Admin@123')` succeeds and returns a user with
role `'admin'`, and `login('student@example.com','Student@123')` succeeds and
returns a user with role `'student'`, whether it is made instead of or after
the admin login. -/
theorem seed_scenario (str : StringHost) (nowAdmin nowStudent : String) :
    let st : AuthState := AuthProvider (initializeDefaultUsers emptyStorage nowAdmin nowStudent)
    (∃ u, (login str st "admin@portfoliohub.com" "Admin@123").1 = .ok u ∧ u.role = "admin") ∧
    (∃ u, (login str st "student@example.com" "Student@123").1 = .ok u ∧ u.role = "student") ∧
    (∃ u, (login str (login str st "admin@portfoliohub.com" "Admin@123").2
        "student@example.com" "Student@123").1 = .ok u ∧ u.role = "student") := by
  intro st
  have hs : getAllUsers st.storage = [defaultAdmin nowAdmin, defaultStudent nowStudent] := rfl
  obtain ⟨hA, hS⟩ := findUserByEmail_seeded str st.storage nowAdmin nowStudent hs
  have hlA := login_of_find str st "admin@portfoliohub.com" "Admin@123"
    (defaultAdmin nowAdmin) hA rfl
  have hlS := login_of_find str st "student@example.com" "Student@123"
    (defaultStudent nowStudent) hS rfl
  refine ⟨⟨_, by rw [hlA], rfl⟩, ⟨_, by rw [hlS], rfl⟩, ?_⟩
  rw [hlA]
  obtain ⟨_, hS2⟩ := findUserByEmail_seeded str
    (saveUser st.storage (withoutPassword (defaultAdmin nowAdmin))) nowAdmin nowStudent hs
  exact ⟨_, by rw [login_of_find str _ "student@example.com" "Student@123"
    (defaultStudent nowStudent) hS2 rfl], rfl⟩

/-- A sublist whose elements all satisfy `p` is a sublist of the filter. -/
theorem sublist_filter_of_forall {α : Type} (p : α → Bool) {l l' : List α}
    (hs : l'.Sublist l) (hp : ∀ a ∈ l', p a = true) : l'.Sublist (l.filter p) := by
  have h := hs.filter p
  rwa [List.filter_eq_self.2 hp] at h

/-- C12. `getProjectsByUserId(userId)` is exactly the subsequence of
`getAllProjects()` made of the projects whose `userId` is the given one, in
the same relative order: it is a subsequence, it holds the projects of that
owner and no other, and every subsequence of projects of that owner is a
subsequence of it. `getAllProjects()` returns every stored project, and
`loadProjects` lists all of them for an admin and the owned ones otherwise. -/
theorem getProjectsByUserId_spec (ls : LocalStorage) (userId : String) (st : AuthState) :
    (getProjectsByUserId ls userId).Sublist (getAllProjects ls) ∧
    (∀ p, p ∈ getProjectsByUserId ls userId ↔ p ∈ getAllProjects ls ∧ p.userId = userId) ∧
    (∀ l : List Project, l.Sublist (getAllProjects ls) → (∀ p ∈ l, p.userId = userId) →
      l.Sublist (getProjectsByUserId ls userId)) ∧
    (∀ ps, ls.projects = some ps → getAllProjects ls = ps) ∧
    (isAdmin st = true → loadProjects st = some (getAllProjects st.storage)) ∧
    (∀ u, st.user = some u → isAdmin st = false →
      loadProjects st = some (getProjectsByUserId st.storage u.id)) := by
  refine ⟨List.filter_sublist _, ?_, ?_, ?_, ?_, ?_⟩
  · intro p
    simp [getProjectsByUserId, List.mem_filter]
  · intro l hs hp
    exact sublist_filter_of_forall _ hs (fun a ha => by simpa using hp a ha)
  · intro ps hps
    simp [getAllProjects, hps]
  · intro h
    simp [loadProjects, h]
  · intro u hu h
    simp [loadProjects, h, hu]

/-! ## Deleting a project -/

/-- C18. `deleteProject(id)` never fails (it is total), leaves no stored
project with that id and keeps every other project in its original order (the
result is a subsequence, and every subsequence without that id is a
subsequence of it); when no project has that id the directory is unchanged;
and applied twice it gives the same store, and the same size, as applied
once. -/
theorem deleteProject_spec (ls : LocalStorage) (projectId : String) :
    (∀ p ∈ getAllProjects (deleteProject ls projectId), p.id ≠ projectId) ∧
    (∀ p ∈ getAllProjects ls, p.id ≠ projectId →
      p ∈ getAllProjects (deleteProject ls projectId)) ∧
    (getAllProjects (deleteProject ls projectId)).Sublist (getAllProjects ls) ∧
    (∀ l : List Project, l.Sublist (getAllProjects ls) → (∀ p ∈ l, p.id ≠ projectId) →
      l.Sublist (getAllProjects (deleteProject ls projectId))) ∧
    ((∀ p ∈ getAllProjects ls, p.id ≠ projectId) →
      getAllProjects (deleteProject ls projectId) = getAllProjects ls) ∧
    deleteProject (deleteProject ls projectId) projectId = deleteProject ls projectId ∧
    (getAllProjects (deleteProject (deleteProject ls projectId) projectId)).length =
      (getAllProjects (deleteProject ls projectId)).length := by
  have hget : getAllProjects (deleteProject ls projectId) =
      (getAllProjects ls).filter (fun p => decide (p.id ≠ projectId)) := rfl
  have hidem : deleteProject (deleteProject ls projectId) projectId =
      deleteProject ls projectId := by
    simp only [deleteProject, saveAllProjects]
    rw [show getAllProjects
        { user := ls.user
          projects := some ((getAllProjects ls).filter (fun p => decide (p.id ≠ projectId)))
          users := ls.users } =
        (getAllProjects ls).filter (fun p => decide (p.id ≠ projectId)) from rfl]
    rw [List.filter_filter]
    simp
  refine ⟨?_, ?_, ?_, ?_, ?_, hidem, by rw [hidem]⟩
  · intro p hp
    rw [hget, List.mem_filter] at hp
    simpa using hp.2
  · intro p hp hne
    rw [hget, List.mem_filter]
    exact ⟨hp, by simpa using hne⟩
  · rw [hget]
    exact List.filter_sublist _
  · intro l hs hp
    rw [hget]
    exact sublist_filter_of_forall _ hs (fun a ha => by simpa using hp a ha)
  · intro hno
    rw [hget]
    exact List.filter_eq_self.2 (fun a ha => by simpa using hno a ha)

/-! ## Lemmas on `updateProject` -/

theorem findIdx_of_first {before after : List Project} {p : Project} {projectId : String}
    (hb : ∀ q ∈ before, q.id ≠ projectId) (hp : p.id = projectId) :
    (before ++ p :: after).findIdx (fun q => decide (q.id = projectId)) = before.length := by
  have h0 : before.findIdx (fun q => decide (q.id = projectId)) = before.length :=
    List.findIdx_eq_length_of_false (fun q hq => by simpa using hb q hq)
  rw [List.findIdx_append, h0, List.findIdx_cons]
  simp [hp]

theorem exists_first_of_findIdx_lt (projectId : String) :
    ∀ l : List Project,
      l.findIdx (fun q => decide (q.id = projectId)) < l.length →
      ∃ before p after, l = before ++ p :: after ∧
        (∀ q ∈ before, q.id ≠ projectId) ∧ p.id = projectId
  | [], h => by simp at h
  | a :: l, h => by
    by_cases ha : a.id = projectId
    · exact ⟨[], a, l, rfl, by simp, ha⟩
    · have h2 : l.findIdx (fun q => decide (q.id = projectId)) < l.length := by
        rw [List.findIdx_cons] at h
        simpa [ha] using h
      obtain ⟨before, p, after, hl, hb, hp⟩ := exists_first_of_findIdx_lt projectId l h2
      refine ⟨a :: before, p, after, by rw [hl]; rfl, ?_, hp⟩
      intro q hq
      rcases List.mem_cons.1 hq with rfl | hq
      · exact ha
      · exact hb q hq

/-- The outcome of `updateProject` when the first project with the id is `p`. -/
theorem updateProject_of_first (ls : LocalStorage) (projectId : String)
    (updatedData : ProjectPatch) (now : String) (before after : List Project) (p : Project)
    (hl : getAllProjects ls = before ++ p :: after)
    (hb : ∀ q ∈ before, q.id ≠ projectId) (hp : p.id = projectId) :
    updateProject ls projectId updatedData now =
      (some (mergeProject p updatedData now),
        saveAllProjects ls (before ++ mergeProject p updatedData now :: after)) := by
  have hidx := @findIdx_of_first before after p projectId hb hp
  have hget : ∀ h : before.length < (before ++ p :: after).length,
      (before ++ p :: after)[before.length] = p := by
    intro h
    rw [List.getElem_append_right (Nat.le_refl _)]
    simp
  simp only [updateProject, hl, hidx]
  simp [hget]

/-- The outcome of `updateProject` when no project has the id. -/
theorem updateProject_of_none (ls : LocalStorage) (projectId : String)
    (updatedData : ProjectPatch) (now : String)
    (hno : ∀ q ∈ getAllProjects ls, q.id ≠ projectId) :
    updateProject ls projectId updatedData now = (none, ls) := by
  have hlen : (getAllProjects ls).findIdx (fun p => decide (p.id = projectId)) =
      (getAllProjects ls).length :=
    List.findIdx_eq_length_of_false (fun p hp => by simpa using hno p hp)
  simp [updateProject, hlen]

/-- A successful `updateProject` found a first project with the id. -/
theorem updateProject_some (ls : LocalStorage) (projectId : String)
    (updatedData : ProjectPatch) (now : String) (m : Project)
    (hok : (updateProject ls projectId updatedData now).1 = some m) :
    ∃ before p after, getAllProjects ls = before ++ p :: after ∧
      (∀ q ∈ before, q.id ≠ projectId) ∧ p.id = projectId ∧
      m = mergeProject p updatedData now := by
  by_cases h : (getAllProjects ls).findIdx (fun p => decide (p.id = projectId)) <
      (getAllProjects ls).length
  · obtain ⟨before, p, after, hl, hb, hp⟩ :=
      exists_first_of_findIdx_lt projectId (getAllProjects ls) h
    rw [updateProject_of_first ls projectId updatedData now before after p hl hb hp] at hok
    exact ⟨before, p, after, hl, hb, hp, (Option.some.inj hok).symm⟩
  · simp [updateProject, h] at hok

/-! ## Creating and updating a project -/

/-- C14, as stated, fails when the clock advances between the two
`new Date()` readings of the create branch: the record is appended with
`createdAt` and `updatedAt` one millisecond apart. -/
theorem create_same_instant_counterexample :
    getAllProjects (submitForm emptyStorage none sampleForm "user-1700000000000-k3j9x2m1q"
        1700000001000 "a1b2c3d4e" "2024-01-03T09:00:00.999Z" "2024-01-03T09:00:01.000Z") =
      [{ id := "project-1700000001000-a1b2c3d4e", title := "Tracker",
         description := "A tracker app", status := "planned", startDate := "2024-01-03",
         endDate := "", technologies := ["React"], projectUrl := "", milestones := [],
         feedback := "", userId := "user-1700000000000-k3j9x2m1q",
         createdAt := "2024-01-03T09:00:00.999Z",
         updatedAt := "2024-01-03T09:00:01.000Z" }] ∧
    "2024-01-03T09:00:00.999Z" ≠ "2024-01-03T09:00:01.000Z" :=
  ⟨by rfl, by decide⟩

/-- C14, amended. Project creation (the create branch of `handleSubmit`
followed by `addProject`) yields the old directory with exactly one record
appended at the end; the record has the generated id, `userId` equal to the
owner id, the form data fields unchanged, and `createdAt` and `updatedAt`
stamped with the two successive clock readings of the create branch, so that
`createdAt = updatedAt` when the two readings coincide. -/
theorem create_project_spec (ls : LocalStorage) (formData : FormData) (ownerId : String)
    (dateNow : Nat) (rnd now1 now2 : String) :
    ∃ r : Project,
      getAllProjects (submitForm ls none formData ownerId dateNow rnd now1 now2) =
        getAllProjects ls ++ [r] ∧
      r.id = generateId (some "project") dateNow rnd ∧
      r.userId = ownerId ∧
      r.title = formData.title ∧ r.description = formData.description ∧
      r.status = formData.status ∧ r.startDate = formData.startDate ∧
      r.endDate = formData.endDate ∧ r.technologies = formData.technologies ∧
      r.projectUrl = formData.projectUrl ∧ r.milestones = formData.milestones ∧
      r.feedback = formData.feedback ∧
      r.createdAt = now1 ∧ r.updatedAt = now2 ∧
      (now1 = now2 → r.createdAt = r.updatedAt) :=
  ⟨newProject formData ownerId dateNow rnd now1 now2, rfl, rfl, rfl, rfl, rfl, rfl, rfl, rfl,
    rfl, rfl, rfl, rfl, rfl, rfl, fun h => h⟩

theorem create_project_spec_witness :
    ∃ r : Project,
      getAllProjects (submitForm oneProject none sampleForm "admin-001" 1700000002000
        "q1w2e3r4t" "2024-01-04T10:00:00.000Z" "2024-01-04T10:00:00.000Z") =
        [sampleProject, r] ∧
      r.userId = "admin-001" ∧ r.createdAt = r.updatedAt := by
  obtain ⟨r, h1, _, h3, _, _, _, _, _, _, _, _, _, _, _, h15⟩ :=
    create_project_spec oneProject sampleForm "admin-001" 1700000002000 "q1w2e3r4t"
      "2024-01-04T10:00:00.000Z" "2024-01-04T10:00:00.000Z"
  exact ⟨r, h1, h3, h15 rfl⟩

/-- C15. `updateProject` returns `null` and writes nothing when no project has
the id; otherwise it replaces the first project with that id by the shallow
merge of the patch over it (each field present in the patch takes the patch
value, every other field keeps its value), with `updatedAt` set to the clock
reading even if the patch carries an `updatedAt`; the saved directory has the
same length and every other record unchanged in place; and the merged record
is returned. -/
theorem updateProject_spec (ls : LocalStorage) (projectId : String)
    (updatedData : ProjectPatch) (now : String) :
    ((∀ q ∈ getAllProjects ls, q.id ≠ projectId) →
      updateProject ls projectId updatedData now = (none, ls)) ∧
    (∀ before p after, getAllProjects ls = before ++ p :: after →
      (∀ q ∈ before, q.id ≠ projectId) → p.id = projectId →
      ∃ m : Project,
        (updateProject ls projectId updatedData now).1 = some m ∧
        getAllProjects (updateProject ls projectId updatedData now).2 =
          before ++ m :: after ∧
        (getAllProjects (updateProject ls projectId updatedData now).2).length =
          (getAllProjects ls).length ∧
        m.updatedAt = now ∧
        m.id = updatedData.id.getD p.id ∧
        m.title = updatedData.title.getD p.title ∧
        m.description = updatedData.description.getD p.description ∧
        m.status = updatedData.status.getD p.status ∧
        m.startDate = updatedData.startDate.getD p.startDate ∧
        m.endDate = updatedData.endDate.getD p.endDate ∧
        m.technologies = updatedData.technologies.getD p.technologies ∧
        m.projectUrl = updatedData.projectUrl.getD p.projectUrl ∧
        m.milestones = updatedData.milestones.getD p.milestones ∧
        m.feedback = updatedData.feedback.getD p.feedback ∧
        m.userId = updatedData.userId.getD p.userId ∧
        m.createdAt = updatedData.createdAt.getD p.createdAt) := by
  refine ⟨updateProject_of_none ls projectId updatedData now, ?_⟩
  intro before p after hl hb hp
  refine ⟨mergeProject p updatedData now, ?_⟩
  rw [updateProject_of_first ls projectId updatedData now before after p hl hb hp]
  refine ⟨rfl, rfl, ?_, rfl, rfl, rfl, rfl, rfl, rfl, rfl, rfl, rfl, rfl, rfl, rfl, rfl⟩
  show (before ++ mergeProject p updatedData now :: after).length = (getAllProjects ls).length
  rw [hl]
  simp

theorem updateProject_spec_witness :
    updateProject oneProject "project-0-missing" statusPatch "2024-01-06T00:00:00.000Z" =
      (none, oneProject) ∧
    ∃ m : Project,
      (updateProject oneProject "project-1700000001000-a1b2c3d4e" statusPatch
        "2024-01-06T00:00:00.000Z").1 = some m ∧
      m.status = "completed" ∧ m.title = "Tracker" ∧
      m.updatedAt = "2024-01-06T00:00:00.000Z" := by
  refine ⟨(updateProject_spec oneProject "project-0-missing" statusPatch
    "2024-01-06T00:00:00.000Z").1 (by decide), ?_⟩
  obtain ⟨m, h1, _, _, h4, _, h6, _, h8, _⟩ :=
    (updateProject_spec oneProject "project-1700000001000-a1b2c3d4e" statusPatch
      "2024-01-06T00:00:00.000Z").2 [] sampleProject [] rfl (by simp) rfl
  exact ⟨m, h1, h8, h6, h4⟩

/-- C16, as stated, fails for a patch that carries an `id` key: the update
succeeds and the returned and stored record has the id of the patch. -/
theorem updateProject_id_counterexample :
    ∃ m : Project,
      (updateProject oneProject "project-1700000001000-a1b2c3d4e" renamePatch
        "2024-01-06T00:00:00.000Z").1 = some m ∧
      getAllProjects (updateProject oneProject "project-1700000001000-a1b2c3d4e" renamePatch
        "2024-01-06T00:00:00.000Z").2 = [m] ∧
      m.id = "project-renamed" ∧
      m.id ≠ "project-1700000001000-a1b2c3d4e" :=
  ⟨_, rfl, rfl, rfl, by decide⟩

/-- C16, amended. For every project directory, id and patch that carries no
`id` key, or carries the id it is applied to, for which `updateProject`
succeeds, the returned record has that same id and is the record stored under
that id. -/
theorem updateProject_keeps_id (ls : LocalStorage) (projectId : String)
    (updatedData : ProjectPatch) (now : String) (m : Project)
    (hid : ∀ v, updatedData.id = some v → v = projectId)
    (hok : (updateProject ls projectId updatedData now).1 = some m) :
    m.id = projectId ∧
    getProjectById (updateProject ls projectId updatedData now).2 projectId = some m := by
  obtain ⟨before, p, after, hl, hb, hp, hm⟩ :=
    updateProject_some ls projectId updatedData now m hok
  have hmid : m.id = projectId := by
    rw [hm]
    show updatedData.id.getD p.id = projectId
    cases hv : updatedData.id with
    | none => exact hp
    | some v => exact hid v hv
  refine ⟨hmid, ?_⟩
  rw [updateProject_of_first ls projectId updatedData now before after p hl hb hp, ← hm]
  show (before ++ m :: after).find? (fun q => decide (q.id = projectId)) = some m
  rw [List.find?_append]
  have hnone : before.find? (fun q => decide (q.id = projectId)) = none :=
    List.find?_eq_none.2 (fun q hq => by simpa using hb q hq)
  rw [hnone]
  simp [hmid]

theorem updateProject_keeps_id_witness :
    (mergeProject sampleProject statusPatch "2024-01-06T00:00:00.000Z").id =
      "project-1700000001000-a1b2c3d4e" ∧
    getProjectById (updateProject oneProject "project-1700000001000-a1b2c3d4e" statusPatch
        "2024-01-06T00:00:00.000Z").2 "project-1700000001000-a1b2c3d4e" =
      some (mergeProject sampleProject statusPatch "2024-01-06T00:00:00.000Z") :=
  updateProject_keeps_id oneProject "project-1700000001000-a1b2c3d4e" statusPatch
    "2024-01-06T00:00:00.000Z" _ (by intro v hv; cases hv) rfl

/-- C19, as stated, fails when the update is stamped with the same clock
reading as the creation: the listing shows one record with status
`'completed'` whose `updatedAt` equals its `createdAt`, hence is not later. -/
theorem create_then_complete_counterexample :
    getAllProjects (updateProject
        (submitForm emptyStorage none sampleForm "user-1700000000000-k3j9x2m1q"
          1700000001000 "a1b2c3d4e" "2024-01-03T09:00:00.000Z" "2024-01-03T09:00:00.000Z")
        "project-1700000001000-a1b2c3d4e" statusPatch "2024-01-03T09:00:00.000Z").2 =
      [{ id := "project-1700000001000-a1b2c3d4e", title := "Tracker",
         description := "A tracker app", status := "completed", startDate := "2024-01-03",
         endDate := "", technologies := ["React"], projectUrl := "", milestones := [],
         feedback := "", userId := "user-1700000000000-k3j9x2m1q",
         createdAt := "2024-01-03T09:00:00.000Z",
         updatedAt := "2024-01-03T09:00:00.000Z" }] ∧
    ¬ ("2024-01-03T09:00:00.000Z" < "2024-01-03T09:00:00.000Z") :=
  ⟨by rfl, lt_irrefl _⟩

/-- C19, amended. Starting from an empty project directory, creating a
project, then calling `updateProject(id, {status:'completed'})` on its id,
then listing projects shows exactly one record, with status `'completed'`,
`createdAt` the clock reading of the creation and `updatedAt` the clock
reading of the update; so `updatedAt` is strictly later than `createdAt`
whenever the reading of the update is later than that of the creation. -/
theorem create_then_complete (ls : LocalStorage) (formData : FormData) (ownerId : String)
    (dateNow : Nat) (rnd now1 now2 nowU : String)
    (hempty : getAllProjects ls = []) :
    ∃ r : Project,
      getAllProjects (updateProject
          (submitForm ls none formData ownerId dateNow rnd now1 now2)
          (generateId (some "project") dateNow rnd) statusPatch nowU).2 = [r] ∧
      r.status = "completed" ∧ r.createdAt = now1 ∧ r.updatedAt = nowU ∧
      (now1 < nowU → r.createdAt < r.updatedAt) := by
  have hl : getAllProjects (submitForm ls none formData ownerId dateNow rnd now1 now2) =
      [] ++ newProject formData ownerId dateNow rnd now1 now2 :: [] := by
    show getAllProjects ls ++ [newProject formData ownerId dateNow rnd now1 now2] = _
    rw [hempty]
  refine ⟨mergeProject (newProject formData ownerId dateNow rnd now1 now2) statusPatch nowU,
    ?_, rfl, rfl, rfl, fun h => h⟩
  rw [updateProject_of_first (submitForm ls none formData ownerId dateNow rnd now1 now2)
    (generateId (some "project") dateNow rnd) statusPatch nowU [] []
    (newProject formData ownerId dateNow rnd now1 now2) hl (by simp) rfl]
  rfl

theorem create_then_complete_witness :
    ∃ r : Project,
      getAllProjects (updateProject
          (submitForm emptyStorage none sampleForm "admin-001" 1700000002000 "q1w2e3r4t"
            "2024-01-04T10:00:00.000Z" "2024-01-04T10:00:00.000Z")
          (generateId (some "project") 1700000002000 "q1w2e3r4t") statusPatch
          "2024-01-04T10:05:00.000Z").2 = [r] ∧
      r.status = "completed" ∧ r.createdAt = "2024-01-04T10:00:00.000Z" ∧
      r.updatedAt = "2024-01-04T10:05:00.000Z" ∧
      ("2024-01-04T10:00:00.000Z" < "2024-01-04T10:05:00.000Z" →
        r.createdAt < r.updatedAt) :=
  create_then_complete emptyStorage sampleForm "admin-001" 1700000002000 "q1w2e3r4t"
    "2024-01-04T10:00:00.000Z" "2024-01-04T10:00:00.000Z" "2024-01-04T10:05:00.000Z" rfl

theorem getProjectsByUserId_spec_witness :
    loadProjects (runOps asciiHost initialState sampleRun) =
      some (getAllProjects (runOps asciiHost initialState sampleRun).storage) ∧
    loadProjects { oneAnn with user := some (withoutPassword firstAnn)
                               storage := runProjectOps emptyStorage sampleProjectRun } =
      some [mergeProject sampleProject statusPatch "2024-01-06T00:00:00.000Z"] :=
  ⟨(getProjectsByUserId_spec emptyStorage "" (runOps asciiHost initialState sampleRun)).2.2.2.2.1
      (by rfl),
   (getProjectsByUserId_spec emptyStorage ""
      { oneAnn with user := some (withoutPassword firstAnn)
                    storage := runProjectOps emptyStorage sampleProjectRun }).2.2.2.2.2
      (withoutPassword firstAnn) rfl (by rfl)⟩

theorem deleteProject_spec_witness :
    getAllProjects (deleteProject oneProject "project-0-missing") = getAllProjects oneProject ∧
    [sampleProject].Sublist
      (getAllProjects (deleteProject
        (runProjectOps emptyStorage [.addProject sampleProject, .addProject otherProject])
        "project-1700000003000-z9y8x7w6v")) :=
  ⟨(deleteProject_spec oneProject "project-0-missing").2.2.2.2.1 (by decide),
   (deleteProject_spec
      (runProjectOps emptyStorage [.addProject sampleProject, .addProject otherProject])
      "project-1700000003000-z9y8x7w6v").2.2.2.1 [sampleProject]
      (List.Sublist.cons₂ _ (List.nil_sublist _)) (by decide)⟩

/-! ## Project ids -/

theorem getAllProjects_addProject (ls : LocalStorage) (project : Project) :
    getAllProjects (addProject ls project).2 = getAllProjects ls ++ [project] := rfl

theorem getAllProjects_deleteProject (ls : LocalStorage) (projectId : String) :
    getAllProjects (deleteProject ls projectId) =
      (getAllProjects ls).filter (fun p => decide (p.id ≠ projectId)) := rfl

/-- The directory after `updateProject`: unchanged, or with the first project
of the id replaced by the merge. -/
theorem getAllProjects_updateProject (ls : LocalStorage) (projectId : String)
    (updatedData : ProjectPatch) (now : String) :
    getAllProjects (updateProject ls projectId updatedData now).2 = getAllProjects ls ∨
    ∃ before p after, getAllProjects ls = before ++ p :: after ∧ p.id = projectId ∧
      getAllProjects (updateProject ls projectId updatedData now).2 =
        before ++ mergeProject p updatedData now :: after := by
  by_cases h : (getAllProjects ls).findIdx (fun p => decide (p.id = projectId)) <
      (getAllProjects ls).length
  · obtain ⟨before, p, after, hl, hb, hp⟩ :=
      exists_first_of_findIdx_lt projectId (getAllProjects ls) h
    refine Or.inr ⟨before, p, after, hl, hp, ?_⟩
    rw [updateProject_of_first ls projectId updatedData now before after p hl hb hp]
    rfl
  · refine Or.inl ?_
    simp [updateProject, h]

theorem idsUnique_apply (ls : LocalStorage) (op : ProjectOp)
    (hk : op.keepsIds ls = true)
    (h : (getAllProjects ls).Pairwise (fun a b => a.id ≠ b.id)) :
    (getAllProjects (op.apply ls)).Pairwise (fun a b => a.id ≠ b.id) := by
  cases op with
  | addProject project =>
    show (getAllProjects (addProject ls project).2).Pairwise _
    rw [getAllProjects_addProject, List.pairwise_append]
    refine ⟨h, List.pairwise_singleton _ _, ?_⟩
    intro a ha b hb
    rw [List.mem_singleton] at hb
    subst hb
    simp only [ProjectOp.keepsIds, List.all_eq_true, decide_eq_true_eq] at hk
    exact hk a ha
  | updateProject projectId updatedData now =>
    show (getAllProjects (updateProject ls projectId updatedData now).2).Pairwise _
    rcases getAllProjects_updateProject ls projectId updatedData now with heq | hrep
    · rw [heq]; exact h
    · obtain ⟨before, p, after, hl, hp, hnew⟩ := hrep
      have hmid : (mergeProject p updatedData now).id = p.id := by
        show updatedData.id.getD p.id = p.id
        simp only [ProjectOp.keepsIds, decide_eq_true_eq] at hk
        rcases hk with hk | hk
        · rw [hk]; rfl
        · rw [hk]; exact hp.symm
      have hmap : (before ++ mergeProject p updatedData now :: after).map (fun q => q.id) =
          (before ++ p :: after).map (fun q => q.id) := by
        simp [hmid]
      rw [hnew]
      rw [hl] at h
      have h1 := (List.pairwise_map (f := fun q : Project => q.id) (R := fun x y => x ≠ y)).2 h
      rw [← hmap] at h1
      exact (List.pairwise_map (f := fun q : Project => q.id) (R := fun x y => x ≠ y)).1 h1
  | deleteProject projectId =>
    show (getAllProjects (deleteProject ls projectId)).Pairwise _
    rw [getAllProjects_deleteProject]
    exact h.sublist (List.filter_sublist _)

/-- C17, as stated, fails: `addProject` stores whatever record it is given,
so adding a record twice leaves two stored projects with one id. -/
theorem project_ids_counterexample :
    getAllProjects (runProjectOps emptyStorage
        [.addProject sampleProject, .addProject sampleProject]) =
      [sampleProject, sampleProject] ∧
    ¬ (getAllProjects (runProjectOps emptyStorage
        [.addProject sampleProject, .addProject sampleProject])).Pairwise
      (fun a b => a.id ≠ b.id) := by
  have hl : getAllProjects (runProjectOps emptyStorage
      [.addProject sampleProject, .addProject sampleProject]) =
      [sampleProject, sampleProject] := rfl
  refine ⟨hl, ?_⟩
  rw [hl]
  simp

/-- C17, amended. Project id uniqueness is an invariant of the runs that keep
ids apart: in every state reached from an empty project directory by a
sequence of `addProject`, `updateProject` and `deleteProject` calls in which
every added project has an id that is not stored at that moment and no patch
carries an `id` other than the one it is applied to, no two stored projects
have the same id. -/
theorem project_ids_unique (ls : LocalStorage) (ops : List ProjectOp)
    (hempty : getAllProjects ls = [])
    (hrun : keepsIdsRun ls ops = true) :
    (getAllProjects (runProjectOps ls ops)).Pairwise (fun a b => a.id ≠ b.id) := by
  have hgen : ∀ (ops : List ProjectOp) (l : LocalStorage), keepsIdsRun l ops = true →
      (getAllProjects l).Pairwise (fun a b => a.id ≠ b.id) →
      (getAllProjects (runProjectOps l ops)).Pairwise (fun a b => a.id ≠ b.id) := by
    intro ops
    induction ops with
    | nil => intro l _ h; exact h
    | cons op ops ih =>
      intro l hk h
      simp only [keepsIdsRun, Bool.and_eq_true] at hk
      exact ih (op.apply l) hk.2 (idsUnique_apply l op hk.1 h)
  apply hgen ops ls hrun
  rw [hempty]
  exact List.Pairwise.nil

theorem project_ids_unique_witness :
    getAllProjects (runProjectOps emptyStorage sampleProjectRun) =
      [mergeProject sampleProject statusPatch "2024-01-06T00:00:00.000Z"] ∧
    (getAllProjects (runProjectOps emptyStorage sampleProjectRun)).Pairwise
      (fun a b => a.id ≠ b.id) :=
  ⟨by rfl, project_ids_unique emptyStorage sampleProjectRun rfl (by decide)⟩

/-! ## Projects of a new user -/

theorem projects_authOp_apply (str : StringHost) (st : AuthState) (op : AuthOp) :
    (AuthOp.apply str st op).storage.projects = st.storage.projects := by
  cases op with
  | initializeDefaultUsers a b => exact projects_initializeDefaultUsers st.storage a b
  | startup a b =>
    show (startup st.storage a b).storage.projects = _
    rw [storage_startup]
    exact projects_initializeDefaultUsers st.storage a b
  | register name email password role dateNow rnd now =>
    show (register str st name email password role dateNow rnd now).2.storage.projects = _
    unfold register
    cases findUserByEmail str st.storage email <;> rfl
  | login email password =>
    show (login str st email password).2.storage.projects = _
    unfold login
    cases findUserByEmail str st.storage email with
    | none => rfl
    | some v =>
      by_cases hp : v.password = some password <;> simp [hp, saveUser]
  | logout => rfl

theorem getAllProjects_congr {ls ls' : LocalStorage} (h : ls'.projects = ls.projects) :
    getAllProjects ls' = getAllProjects ls := by
  unfold getAllProjects
  rw [h]

theorem getAllUsers_congr {ls ls' : LocalStorage} (h : ls'.users = ls.users) :
    getAllUsers ls' = getAllUsers ls := by
  unfold getAllUsers
  rw [h]

/-- A session call keeps every user of the directory. -/
theorem mem_getAllUsers_authOp_apply (str : StringHost) (st : AuthState) (op : AuthOp)
    (u : User) (hu : u ∈ getAllUsers st.storage) :
    u ∈ getAllUsers (AuthOp.apply str st op).storage := by
  cases op with
  | initializeDefaultUsers a b =>
    exact mem_getAllUsers_initializeDefaultUsers st.storage a b u hu
  | startup a b =>
    show u ∈ getAllUsers (startup st.storage a b).storage
    rw [storage_startup]
    exact mem_getAllUsers_initializeDefaultUsers st.storage a b u hu
  | register name email password role dateNow rnd now =>
    show u ∈ getAllUsers (register str st name email password role dateNow rnd now).2.storage
    rw [getAllUsers_register str]
    cases findUserByEmail str st.storage email with
    | some v => exact hu
    | none => exact List.mem_append_left _ hu
  | login email password =>
    show u ∈ getAllUsers (login str st email password).2.storage
    rw [getAllUsers_login str]
    exact hu
  | logout => exact hu

/-- `updateProject` writes the projects key only. -/
theorem updateProject_frame (ls : LocalStorage) (projectId : String)
    (updatedData : ProjectPatch) (now : String) :
    (updateProject ls projectId updatedData now).2.users = ls.users ∧
    (updateProject ls projectId updatedData now).2.user = ls.user := by
  unfold updateProject
  by_cases h : (getAllProjects ls).findIdx (fun p => decide (p.id = projectId)) <
      (getAllProjects ls).length
  · simp only [h, dite_true]
    exact ⟨rfl, rfl⟩
  · simp only [h, dite_false]
    exact ⟨trivial, trivial⟩

/-- The submission of the project form writes the projects key only. -/
theorem handleSubmit_frame (host : Host) (ls : LocalStorage) (project : Option Project)
    (formData : FormData) (userId : String) (dateNow : Nat) (rnd now1 now2 : String) :
    (ProjectModal.handleSubmit host ls project formData userId dateNow rnd now1 now2).users =
      ls.users ∧
    (ProjectModal.handleSubmit host ls project formData userId dateNow rnd now1 now2).user =
      ls.user := by
  unfold ProjectModal.handleSubmit
  by_cases hv : ProjectModal.isValid (ProjectModal.validateForm host formData) = true
  · rw [if_pos hv]
    cases project with
    | none => exact ⟨rfl, rfl⟩
    | some q => exact updateProject_frame ls q.id formData.toPatch now1
  · rw [if_neg hv]
    exact ⟨rfl, rfl⟩

/-- The project directory after the submission of the project form: unchanged,
or with the new project of the given owner appended, or with one project
replaced by its merge with the form data. -/
theorem getAllProjects_handleSubmit (host : Host) (ls : LocalStorage)
    (project : Option Project) (formData : FormData) (userId : String) (dateNow : Nat)
    (rnd now1 now2 : String) :
    getAllProjects
        (ProjectModal.handleSubmit host ls project formData userId dateNow rnd now1 now2) =
      getAllProjects ls ∨
    (project = none ∧
      getAllProjects
          (ProjectModal.handleSubmit host ls project formData userId dateNow rnd now1 now2) =
        getAllProjects ls ++ [newProject formData userId dateNow rnd now1 now2]) ∨
    ∃ before q after, getAllProjects ls = before ++ q :: after ∧
      getAllProjects
          (ProjectModal.handleSubmit host ls project formData userId dateNow rnd now1 now2) =
        before ++ mergeProject q formData.toPatch now1 :: after := by
  unfold ProjectModal.handleSubmit
  by_cases hv : ProjectModal.isValid (ProjectModal.validateForm host formData) = true
  · rw [if_pos hv]
    cases project with
    | none => exact Or.inr (Or.inl ⟨rfl, rfl⟩)
    | some q =>
      rcases getAllProjects_updateProject ls q.id formData.toPatch now1 with
        heq | ⟨before, r, after, hl, _, hnew⟩
      · exact Or.inl heq
      · exact Or.inr (Or.inr ⟨before, r, after, hl, hnew⟩)
  · rw [if_neg hv]
    exact Or.inl rfl

/-- The user to whom the dashboard is shown is the session user. -/
theorem user_of_dashboardUser {st : AuthState} {user : User}
    (h : dashboardUser st = some user) : st.user = some user := by
  unfold dashboardUser at h
  by_cases hl : st.loading = true
  · rw [if_pos hl] at h
    exact absurd h (by simp)
  · rw [if_neg hl] at h
    exact h

/-- A step of the application keeps the session invariant and keeps every
stored project owned by a user of the directory. -/
theorem ownersKnown_apply (str : StringHost) (host : Host) (st : AuthState) (op : AppOp)
    (hs : SessionOK st) (h : OwnersKnown st) :
    SessionOK (op.apply str host st) ∧ OwnersKnown (op.apply str host st) := by
  cases op with
  | auth op =>
    refine ⟨sessionOK_apply str st op hs, ?_⟩
    show ∀ p ∈ getAllProjects (AuthOp.apply str st op).storage,
      ∃ u ∈ getAllUsers (AuthOp.apply str st op).storage, u.id = p.userId
    rw [getAllProjects_congr (projects_authOp_apply str st op)]
    intro p hp
    obtain ⟨u, hu, hid⟩ := h p hp
    exact ⟨u, mem_getAllUsers_authOp_apply str st op u hu, hid⟩
  | submitProject project formData dateNow rnd now1 now2 =>
    cases hd : dashboardUser st with
    | none =>
      simp only [AppOp.apply, hd]
      exact ⟨hs, h⟩
    | some user =>
      simp only [AppOp.apply, hd]
      obtain ⟨hfu, hfs⟩ :=
        handleSubmit_frame host st.storage project formData user.id dateNow rnd now1 now2
      have hus := getAllUsers_congr hfu
      constructor
      · unfold SessionOK
        show (∀ s, st.user = some s → SessionValue (getAllUsers _) s) ∧
          (∀ s, (ProjectModal.handleSubmit host st.storage project formData user.id dateNow
            rnd now1 now2).user = some s → SessionValue (getAllUsers _) s)
        rw [hus, hfs]
        exact hs
      · show ∀ p ∈ getAllProjects _, ∃ u ∈ getAllUsers _, u.id = p.userId
        rw [hus]
        rcases getAllProjects_handleSubmit host st.storage project formData user.id dateNow
          rnd now1 now2 with heq | ⟨_, hnew⟩ | ⟨before, q, after, hl, hnew⟩
        · rw [heq]; exact h
        · rw [hnew]
          intro p hp
          rcases List.mem_append.1 hp with hp | hp
          · exact h p hp
          · rw [List.mem_singleton] at hp
            subst hp
            obtain ⟨_, u, hu, hsu⟩ := hs.1 user (user_of_dashboardUser hd)
            refine ⟨u, hu, ?_⟩
            show u.id = user.id
            rw [hsu]
        · rw [hnew]
          intro p hp
          rcases List.mem_append.1 hp with hp | hp
          · exact h p (by rw [hl]; exact List.mem_append_left _ hp)
          · rcases List.mem_cons.1 hp with hp | hp
            · rw [hp]
              exact h q (by rw [hl]; simp)
            · exact h p (by rw [hl]; simp [hp])
  | deleteProject projectId =>
    cases hd : dashboardUser st with
    | none =>
      simp only [AppOp.apply, hd]
      exact ⟨hs, h⟩
    | some user =>
      simp only [AppOp.apply, hd]
      refine ⟨hs, ?_⟩
      show ∀ p ∈ getAllProjects (deleteProject st.storage projectId),
        ∃ u ∈ getAllUsers st.storage, u.id = p.userId
      rw [getAllProjects_deleteProject]
      intro p hp
      exact h p (List.mem_of_mem_filter hp)

/-- In every state that a run of the application reaches from the empty store,
every stored project is owned by a user of the directory. -/
theorem ownersKnown_run (str : StringHost) (host : Host) (ops : List AppOp) :
    OwnersKnown (runAppOps str host initialState ops) := by
  have hgen : ∀ (ops : List AppOp) (st : AuthState), SessionOK st → OwnersKnown st →
      OwnersKnown (runAppOps str host st ops) := by
    intro ops
    induction ops with
    | nil => intro st _ h; exact h
    | cons op ops ih =>
      intro st hs h
      have hstep := ownersKnown_apply str host st op hs h
      exact ih (op.apply str host st) hstep.1 hstep.2
  apply hgen ops initialState
  · exact ⟨fun s hs => by simp [initialState, AuthProvider] at hs,
      fun s hs => by simp [initialState, AuthProvider, emptyStorage] at hs⟩
  · intro p hp
    simp [initialState, AuthProvider, emptyStorage, getAllProjects] at hp

/-- A step that is not the creation of a project for `userId` gives that id no
project. -/
theorem noOwner_apply (str : StringHost) (host : Host) (userId : String) (st : AuthState)
    (op : AppOp) (hop : op.createsFor userId st = false)
    (h : ∀ p ∈ getAllProjects st.storage, p.userId ≠ userId) :
    ∀ p ∈ getAllProjects (op.apply str host st).storage, p.userId ≠ userId := by
  cases op with
  | auth op =>
    show ∀ p ∈ getAllProjects (AuthOp.apply str st op).storage, p.userId ≠ userId
    rw [getAllProjects_congr (projects_authOp_apply str st op)]
    exact h
  | submitProject project formData dateNow rnd now1 now2 =>
    cases hd : dashboardUser st with
    | none =>
      simp only [AppOp.apply, hd]
      exact h
    | some user =>
      simp only [AppOp.apply, hd]
      show ∀ p ∈ getAllProjects (ProjectModal.handleSubmit host st.storage project formData
        user.id dateNow rnd now1 now2), p.userId ≠ userId
      rcases getAllProjects_handleSubmit host st.storage project formData user.id dateNow
        rnd now1 now2 with heq | ⟨hnone, hnew⟩ | ⟨before, q, after, hl, hnew⟩
      · rw [heq]; exact h
      · rw [hnew]
        intro p hp
        rcases List.mem_append.1 hp with hp | hp
        · exact h p hp
        · rw [List.mem_singleton] at hp
          subst hp
          subst hnone
          simp only [AppOp.createsFor, hd, decide_eq_false_iff_not] at hop
          exact hop
      · rw [hnew]
        intro p hp
        rcases List.mem_append.1 hp with hp | hp
        · exact h p (by rw [hl]; exact List.mem_append_left _ hp)
        · rcases List.mem_cons.1 hp with hp | hp
          · rw [hp]
            exact h q (by rw [hl]; simp)
          · exact h p (by rw [hl]; simp [hp])
  | deleteProject projectId =>
    cases hd : dashboardUser st with
    | none =>
      simp only [AppOp.apply, hd]
      exact h
    | some user =>
      simp only [AppOp.apply, hd]
      show ∀ p ∈ getAllProjects (deleteProject st.storage projectId), p.userId ≠ userId
      rw [getAllProjects_deleteProject]
      intro p hp
      exact h p (List.mem_of_mem_filter hp)

/-- C13. For every state that the application reaches from the empty store (by
session calls, submissions of the project form and deletions on the dashboard)
and every successful registration in it whose generated id is fresh, that is,
is the id of no user stored so far, the projects owned by the new user's id
form an empty list right after the registration, and they still do after any
further steps of the application none of which is the creation of a project
for that id. -/
theorem new_user_has_no_projects (str : StringHost) (host : Host) (ops later : List AppOp)
    (name email password : String) (role : Option String) (dateNow : Nat)
    (rnd now : String) (newUser : User)
    (hok : (register str (runAppOps str host initialState ops) name email password role
      dateNow rnd now).1 = .ok newUser)
    (hfresh : ∀ u ∈ getAllUsers (runAppOps str host initialState ops).storage,
      u.id ≠ generateId (some "user") dateNow rnd)
    (hlater : noCreationFor str host newUser.id
      (register str (runAppOps str host initialState ops) name email password role
        dateNow rnd now).2 later = true) :
    getProjectsByUserId
      (register str (runAppOps str host initialState ops) name email password role
        dateNow rnd now).2.storage newUser.id = [] ∧
    getProjectsByUserId
      (runAppOps str host
        (register str (runAppOps str host initialState ops) name email password role
          dateNow rnd now).2 later).storage newUser.id = [] := by
  have hid : newUser.id = generateId (some "user") dateNow rnd := by
    unfold register at hok
    cases hf : findUserByEmail str (runAppOps str host initialState ops).storage email with
    | some v => simp [hf] at hok
    | none =>
      simp only [hf] at hok
      injection hok with hok
      rw [← hok]
      rfl
  have hown := ownersKnown_run str host ops
  have hreg : ∀ p ∈ getAllProjects
      (register str (runAppOps str host initialState ops) name email password role
        dateNow rnd now).2.storage, p.userId ≠ newUser.id := by
    have hp : (register str (runAppOps str host initialState ops) name email password role
        dateNow rnd now).2.storage.projects =
        (runAppOps str host initialState ops).storage.projects :=
      projects_authOp_apply str (runAppOps str host initialState ops)
        (.register name email password role dateNow rnd now)
    rw [getAllProjects_congr hp]
    intro p hp
    obtain ⟨u, hu, hpu⟩ := hown p hp
    rw [← hpu, hid]
    exact hfresh u hu
  have hgen : ∀ (later : List AppOp) (s : AuthState),
      noCreationFor str host newUser.id s later = true →
      (∀ p ∈ getAllProjects s.storage, p.userId ≠ newUser.id) →
      ∀ p ∈ getAllProjects (runAppOps str host s later).storage, p.userId ≠ newUser.id := by
    intro later
    induction later with
    | nil => intro s _ h; exact h
    | cons op later ih =>
      intro s hall h
      simp only [noCreationFor, Bool.and_eq_true, Bool.not_eq_true'] at hall
      exact ih (op.apply str host s) hall.2 (noOwner_apply str host newUser.id s op hall.1 h)
  have hnil : ∀ l : LocalStorage, (∀ p ∈ getAllProjects l, p.userId ≠ newUser.id) →
      getProjectsByUserId l newUser.id = [] := by
    intro l hl
    unfold getProjectsByUserId
    exact List.filter_eq_nil_iff.2 (fun p hp => by simpa using hl p hp)
  exact ⟨hnil _ hreg, hnil _ (hgen later _ hlater hreg)⟩

theorem new_user_has_no_projects_witness :
    getAllProjects (runAppOps asciiHost sampleHost initialState sampleAppRun).storage =
      [annProject] ∧
    getProjectsByUserId
      (register asciiHost (runAppOps asciiHost sampleHost initialState sampleAppRun)
        "Bob" "bob@x.com" "Bob#1234" none 1700000000700 "zzzzzzzzz"
        "2024-01-05T00:00:00.000Z").2.storage
      "user-1700000000700-zzzzzzzzz" = [] ∧
    getProjectsByUserId
      (runAppOps asciiHost sampleHost
        (register asciiHost (runAppOps asciiHost sampleHost initialState sampleAppRun)
          "Bob" "bob@x.com" "Bob#1234" none 1700000000700 "zzzzzzzzz"
          "2024-01-05T00:00:00.000Z").2 laterAppRun).storage
      "user-1700000000700-zzzzzzzzz" = [] :=
  ⟨by rfl,
   new_user_has_no_projects asciiHost sampleHost sampleAppRun laterAppRun
    "Bob" "bob@x.com" "Bob#1234" none 1700000000700 "zzzzzzzzz" "2024-01-05T00:00:00.000Z"
    { id := "user-1700000000700-zzzzzzzzz", name := "Bob", email := "bob@x.com",
      password := none, role := "student", createdAt := "2024-01-05T00:00:00.000Z" }
    (by rfl) (by decide) (by rfl)⟩

/-! ## Round trip through the stored text -/

/-- C20. Round trip: for every list `P` of project records that the JSON codec
represents (`JSON.parse` gives `P` back from the text `JSON.stringify(P)`,
which is not the empty string), `saveAllProjects(P)` followed by
`getAllProjects()` returns `P`; and `getAllProjects()` on a key that was never
written returns the empty list. The same holds on decoded values. -/
theorem projects_round_trip (json : JsonCodec) (ls : Raw.Storage) (P : List Project)
    (store : LocalStorage)
    (hcodec : json.parse (json.stringify P) = some P)
    (htext : json.stringify P ≠ "") :
    Raw.getAllProjects json (Raw.saveAllProjects json ls P) = some P ∧
    (Raw.getItem ls STORAGE_KEYS.PROJECTS = none → Raw.getAllProjects json ls = some []) ∧
    getAllProjects (saveAllProjects store P) = P ∧
    (store.projects = none → getAllProjects store = []) := by
  refine ⟨?_, ?_, rfl, ?_⟩
  · simp only [Raw.getAllProjects, Raw.saveAllProjects, Raw.getItem, Raw.setItem, if_true,
      htext, if_false]
    exact hcodec
  · intro h
    simp only [Raw.getAllProjects, h]
  · intro h
    simp only [getAllProjects, h]

set_option maxRecDepth 100000 in
theorem projects_round_trip_witness :
    Raw.getAllProjects sampleJson
        (Raw.saveAllProjects sampleJson Raw.empty [sampleProject, quotedProject]) =
      some [sampleProject, quotedProject] ∧
    Raw.getAllProjects sampleJson Raw.empty = some [] :=
  ⟨(projects_round_trip sampleJson Raw.empty [sampleProject, quotedProject] emptyStorage
      (by rfl) (by decide)).1,
   (projects_round_trip sampleJson Raw.empty [sampleProject, quotedProject] emptyStorage
      (by rfl) (by decide)).2.1 rfl⟩

/-! ## Validators -/

theorem utf16Length_empty : utf16Length "" = 0 := rfl

theorem any_iff_exists (p : Char → Bool) (s : String) :
    RegExp.testClass p s = true ↔ ∃ c ∈ s.data, p c = true := by
  simp [RegExp.testClass, List.any_eq_true]

/-- C23. The length validators accept exactly the strings inside their bounds,
the length being the `length` of the host string (UTF-16 code units):
`validateName(s)` returns the empty string iff `2 ≤ length ≤ 50`,
`validateProjectTitle(s)` iff `3 ≤ length ≤ 100` and
`validateProjectDescription(s)` iff `10 ≤ length ≤ 2000`; otherwise each
returns an error message that is not empty. -/
theorem length_validators (s : String) :
    (validateName s = "" ↔ 2 ≤ utf16Length s ∧ utf16Length s ≤ 50) ∧
    (validateProjectTitle s = "" ↔ 3 ≤ utf16Length s ∧ utf16Length s ≤ 100) ∧
    (validateProjectDescription s = "" ↔ 10 ≤ utf16Length s ∧ utf16Length s ≤ 2000) := by
  refine ⟨?_, ?_, ?_⟩
  · unfold validateName
    by_cases h0 : s = ""
    · subst h0
      simp [utf16Length_empty]
    · simp only [h0, if_false]
      split_ifs with h1 h2
      · constructor
        · intro h; exact absurd h (by decide)
        · intro h; omega
      · constructor
        · intro h; exact absurd h (by decide)
        · intro h; omega
      · constructor
        · intro _; omega
        · intro _; trivial
  · unfold validateProjectTitle
    by_cases h0 : s = ""
    · subst h0
      simp [utf16Length_empty]
    · simp only [h0, if_false]
      split_ifs with h1 h2
      · constructor
        · intro h; exact absurd h (by decide)
        · intro h; omega
      · constructor
        · intro h; exact absurd h (by decide)
        · intro h; omega
      · constructor
        · intro _; omega
        · intro _; trivial
  · unfold validateProjectDescription
    by_cases h0 : s = ""
    · subst h0
      simp [utf16Length_empty]
    · simp only [h0, if_false]
      split_ifs with h1 h2
      · constructor
        · intro h; exact absurd h (by decide)
        · intro h; omega
      · constructor
        · intro h; exact absurd h (by decide)
        · intro h; omega
      · constructor
        · intro _; omega
        · intro _; trivial

theorem length_validators_witness :
    validateName "Al" = "" ∧ validateProjectTitle "Tracker" = "" ∧
    validateProjectDescription "A tracker app" = "" :=
  ⟨(length_validators "Al").1.2 (by decide),
   (length_validators "Tracker").2.1.2 (by decide),
   (length_validators "A tracker app").2.2.2 (by decide)⟩

/-- C22. `validatePassword(p)` returns the empty string if and only if `p` has
a `length` of at least 8 (UTF-16 code units) and contains at least one
uppercase letter `A`-`Z`, one lowercase letter `a`-`z`, one digit `0`-`9` and
one of the characters `!@#$%^&*`; otherwise it returns an error message that
is not empty. -/
theorem validatePassword_spec (p : String) :
    validatePassword p = "" ↔
      8 ≤ utf16Length p ∧
      (∃ c ∈ p.data, 'A' ≤ c ∧ c ≤ 'Z') ∧
      (∃ c ∈ p.data, 'a' ≤ c ∧ c ≤ 'z') ∧
      (∃ c ∈ p.data, '0' ≤ c ∧ c ≤ '9') ∧
      (∃ c ∈ p.data, c ∈ ['!', '@', '#', '$', '%', '^', '&', '*']) := by
  have hU : RegExp.testClass isUpperAZ p = true ↔ ∃ c ∈ p.data, 'A' ≤ c ∧ c ≤ 'Z' := by
    rw [any_iff_exists]; simp [isUpperAZ]
  have hL : RegExp.testClass isLowerAZ p = true ↔ ∃ c ∈ p.data, 'a' ≤ c ∧ c ≤ 'z' := by
    rw [any_iff_exists]; simp [isLowerAZ]
  have hD : RegExp.testClass isDigit09 p = true ↔ ∃ c ∈ p.data, '0' ≤ c ∧ c ≤ '9' := by
    rw [any_iff_exists]; simp [isDigit09]
  have hS : RegExp.testClass isSpecial p = true ↔
      ∃ c ∈ p.data, c ∈ ['!', '@', '#', '$', '%', '^', '&', '*'] := by
    rw [any_iff_exists]; simp [isSpecial, or_assoc]
  rw [← hU, ← hL, ← hD, ← hS]
  unfold validatePassword
  by_cases h0 : p = ""
  · subst h0
    simp [utf16Length_empty]
  · simp only [h0, if_false]
    split_ifs with h1 h2 h3 h4 h5
    · constructor
      · intro h; exact absurd h (by decide)
      · intro h; omega
    · constructor
      · intro h; exact absurd h (by decide)
      · intro h; simp [h.2.1] at h2
    · constructor
      · intro h; exact absurd h (by decide)
      · intro h; simp [h.2.2.1] at h3
    · constructor
      · intro h; exact absurd h (by decide)
      · intro h; simp [h.2.2.2.1] at h4
    · constructor
      · intro h; exact absurd h (by decide)
      · intro h; simp [h.2.2.2.2] at h5
    · constructor
      · intro _
        refine ⟨by omega, ?_, ?_, ?_, ?_⟩
        · simpa using h2
        · simpa using h3
        · simpa using h4
        · simpa using h5
      · intro _; trivial

theorem validatePassword_spec_witness :
    validatePassword "Bob#1234" = "" ∧ validatePassword "bob#1234" ≠ "" :=
  ⟨(validatePassword_spec "Bob#1234").2
      ⟨by decide, ⟨'B', by decide, by decide, by decide⟩, ⟨'o', by decide, by decide, by decide⟩,
        ⟨'1', by decide, by decide, by decide⟩, ⟨'#', by decide, by decide⟩⟩,
   fun h => absurd ((validatePassword_spec "bob#1234").1 h).2.1 (by decide)⟩

/-! ## The technologies list -/

theorem trim_ne_empty_iff (s : String) :
    trim s ≠ "" ↔ ∃ c ∈ s.data, isWhiteSpace c = false := by
  have hmk : ∀ l : List Char, (String.mk l = "") ↔ l = [] := by
    intro l
    constructor
    · intro h; exact congrArg String.data h
    · intro h; rw [h]
  unfold trim
  rw [Ne, hmk, List.reverse_eq_nil_iff, List.dropWhile_eq_nil_iff]
  constructor
  · intro h
    by_contra hall
    apply h
    have hnil : s.data.dropWhile isWhiteSpace = [] := by
      rw [List.dropWhile_eq_nil_iff]
      intro c hc
      by_contra hw
      exact hall ⟨c, hc, by simpa using hw⟩
    rw [hnil]
    intro c hc
    simp at hc
  · rintro ⟨c, hc, hw⟩ hall
    have hne : s.data.dropWhile isWhiteSpace ≠ [] := by
      rw [Ne, List.dropWhile_eq_nil_iff]
      intro h
      rw [h c hc] at hw
      cases hw
    have hhead := List.head_dropWhile_not isWhiteSpace s.data hne
    have hmem : (s.data.dropWhile isWhiteSpace).head hne ∈
        (s.data.dropWhile isWhiteSpace).reverse :=
      List.mem_reverse.2 (List.head_mem hne)
    rw [hall _ hmem] at hhead
    cases hhead

/-- C26. The technologies list has no duplicates and keeps insertion order:
on a duplicate-free list, `handleAddTechnology` yields the old list with the
trimmed input appended at the end when the input is not blank and its trimmed
form is not in the list, and the old list otherwise, and the result is
duplicate-free; `handleRemoveTechnology` yields a duplicate-free list without
the removed entry that keeps the other entries in their original order. -/
theorem technologies_nodup (st : ModalState) (tech : String)
    (hnodup : st.formData.technologies.Nodup) :
    ((∃ c ∈ st.techInput.data, isWhiteSpace c = false) →
      trim st.techInput ∉ st.formData.technologies →
      (ProjectModal.handleAddTechnology st).formData.technologies =
        st.formData.technologies ++ [trim st.techInput]) ∧
    (¬ ((∃ c ∈ st.techInput.data, isWhiteSpace c = false) ∧
        trim st.techInput ∉ st.formData.technologies) →
      (ProjectModal.handleAddTechnology st).formData.technologies =
        st.formData.technologies) ∧
    (ProjectModal.handleAddTechnology st).formData.technologies.Nodup ∧
    (ProjectModal.handleRemoveTechnology st tech).formData.technologies.Nodup ∧
    tech ∉ (ProjectModal.handleRemoveTechnology st tech).formData.technologies ∧
    (ProjectModal.handleRemoveTechnology st tech).formData.technologies.Sublist
      st.formData.technologies ∧
    (∀ l : List String, l.Sublist st.formData.technologies → tech ∉ l →
      l.Sublist (ProjectModal.handleRemoveTechnology st tech).formData.technologies) := by
  have hblank := trim_ne_empty_iff st.techInput
  have hrem : (ProjectModal.handleRemoveTechnology st tech).formData.technologies =
      st.formData.technologies.filter (fun t => decide (t ≠ tech)) := rfl
  refine ⟨?_, ?_, ?_, ?_, ?_, ?_, ?_⟩
  · intro hb hnot
    have hcond : trim st.techInput ≠ "" ∧ ¬ trim st.techInput ∈ st.formData.technologies :=
      ⟨hblank.2 hb, hnot⟩
    rw [ProjectModal.handleAddTechnology, if_pos hcond]
  · intro hneg
    have hcond : ¬ (trim st.techInput ≠ "" ∧
        ¬ trim st.techInput ∈ st.formData.technologies) :=
      fun h => hneg ⟨hblank.1 h.1, h.2⟩
    rw [ProjectModal.handleAddTechnology, if_neg hcond]
  · by_cases hcond : trim st.techInput ≠ "" ∧ ¬ trim st.techInput ∈ st.formData.technologies
    · rw [ProjectModal.handleAddTechnology, if_pos hcond]
      show (st.formData.technologies ++ [trim st.techInput]).Nodup
      rw [List.nodup_append]
      refine ⟨hnodup, List.nodup_singleton _, ?_⟩
      intro a ha hb
      rw [List.mem_singleton] at hb
      subst hb
      exact hcond.2 ha
    · rw [ProjectModal.handleAddTechnology, if_neg hcond]
      exact hnodup
  · rw [hrem]
    exact hnodup.filter _
  · rw [hrem, List.mem_filter]
    simp
  · rw [hrem]
    exact List.filter_sublist _
  · intro l hs hnot
    rw [hrem]
    refine sublist_filter_of_forall _ hs (fun a ha => ?_)
    have : a ≠ tech := fun h => hnot (h ▸ ha)
    simpa using this

theorem technologies_nodup_witness :
    (ProjectModal.handleAddTechnology sampleModal).formData.technologies =
      ["React", "Node.js", "Lean"] ∧
    (ProjectModal.handleRemoveTechnology sampleModal "React").formData.technologies.Nodup :=
  ⟨(technologies_nodup sampleModal "React" (by decide)).1
      ⟨'L', by decide, by decide⟩ (by decide),
   (technologies_nodup sampleModal "React" (by decide)).2.2.2.1⟩

/-! ## Filtering the listing -/

theorem includesChars_iff (sub : List Char) :
    ∀ s : List Char, includesChars sub s = true ↔ sub <:+: s
  | [] => by
    simp [includesChars, List.isEmpty_iff]
  | c :: cs => by
    rw [includesChars, Bool.or_eq_true, includesChars_iff sub cs, List.infix_cons_iff,
      List.isPrefixOf_iff_prefix]

theorem includesChars_eq_decide (sub s : List Char) :
    includesChars sub s = decide (sub <:+: s) := by
  rw [Bool.eq_iff_iff, includesChars_iff, decide_eq_true_iff]

/-- C21. `filterProjects` yields exactly the projects, in their original
order, that (when the query is not empty) contain the lower-cased query as a
substring of the lower-cased title or of the lower-cased description and (when
the status filter is not `'all'`) have status equal to the filter; with an
empty query and filter `'all'` it yields the whole list; and it changes
nothing but `filteredProjects`: it is a map on the component state that
neither reads nor writes the store. -/
theorem filterProjects_spec (str : StringHost) (st : DashboardState) :
    (filterProjects str st).filteredProjects =
      st.projects.filter (fun p =>
        decide ((st.searchQuery ≠ "" →
            (str.toLowerCase st.searchQuery).data <:+: (str.toLowerCase p.title).data ∨
            (str.toLowerCase st.searchQuery).data <:+: (str.toLowerCase p.description).data) ∧
          (st.filterStatus ≠ "all" → p.status = st.filterStatus))) ∧
    (st.searchQuery = "" → st.filterStatus = "all" →
      (filterProjects str st).filteredProjects = st.projects) ∧
    (filterProjects str st).projects = st.projects ∧
    (filterProjects str st).searchQuery = st.searchQuery ∧
    (filterProjects str st).filterStatus = st.filterStatus := by
  refine ⟨?_, ?_, rfl, rfl, rfl⟩
  · simp only [filterProjects]
    by_cases hq : st.searchQuery = "" <;> by_cases hf : st.filterStatus = "all"
    · simp [hq, hf]
    · simp [hq, hf]
    · simp only [hq, hf, ne_eq, not_false_eq_true, not_true_eq_false, if_true, if_false]
      apply List.filter_congr
      intro p _
      simp [includes, includesChars_eq_decide]
    · simp only [hq, hf, ne_eq, not_false_eq_true, if_true, List.filter_filter]
      apply List.filter_congr
      intro p _
      simp [includes, includesChars_eq_decide, and_comm]
  · intro hq hf
    simp [filterProjects, hq, hf]

theorem filterProjects_spec_witness :
    (filterProjects asciiHost sampleDashboard).filteredProjects = [sampleProject] ∧
    (filterProjects asciiHost { sampleDashboard with searchQuery := "", filterStatus := "all" }
      ).filteredProjects = [sampleProject, quotedProject] :=
  ⟨by decide,
   (filterProjects_spec asciiHost { sampleDashboard with searchQuery := "", filterStatus := "all" }
      ).2.1 rfl rfl⟩

/-! ## Updates issued by the edit form -/

/-- C29. An update issued by the project edit form carries exactly the nine
form fields, and `updateProject` then leaves the id, the `userId` and the
`createdAt` of the project unchanged: the record stored in its place has the
same three values, whether or not the form passes validation. -/
theorem edit_form_keeps_identity (host : Host) (ls : LocalStorage) (project : Project)
    (formData : FormData) (userId : String) (dateNow : Nat) (rnd now1 now2 : String)
    (before after : List Project) (p : Project)
    (hl : getAllProjects ls = before ++ p :: after)
    (hb : ∀ q ∈ before, q.id ≠ project.id) (hp : p.id = project.id) :
    (formData.toPatch.id = none ∧ formData.toPatch.userId = none ∧
      formData.toPatch.createdAt = none) ∧
    (∃ m : Project,
      (updateProject ls project.id formData.toPatch now1).1 = some m ∧
      getAllProjects (updateProject ls project.id formData.toPatch now1).2 =
        before ++ m :: after ∧
      m.id = p.id ∧ m.userId = p.userId ∧ m.createdAt = p.createdAt) ∧
    (∃ m : Project,
      getAllProjects (ProjectModal.handleSubmit host ls (some project) formData userId
        dateNow rnd now1 now2) = before ++ m :: after ∧
      m.id = p.id ∧ m.userId = p.userId ∧ m.createdAt = p.createdAt) := by
  have hup := updateProject_of_first ls project.id formData.toPatch now1 before after p hl hb hp
  refine ⟨⟨rfl, rfl, rfl⟩, ⟨mergeProject p formData.toPatch now1, ?_, ?_, rfl, rfl, rfl⟩, ?_⟩
  · rw [hup]
  · rw [hup]; rfl
  · by_cases hv : ProjectModal.isValid (ProjectModal.validateForm host formData) = true
    · refine ⟨mergeProject p formData.toPatch now1, ?_, rfl, rfl, rfl⟩
      simp only [ProjectModal.handleSubmit, hv, if_true, submitForm]
      rw [hup]; rfl
    · refine ⟨p, ?_, rfl, rfl, rfl⟩
      simp only [ProjectModal.handleSubmit, hv, if_false]
      exact hl

theorem edit_form_keeps_identity_witness :
    ∃ m : Project,
      (updateProject oneProject sampleProject.id sampleForm.toPatch
        "2024-01-06T00:00:00.000Z").1 = some m ∧
      getAllProjects (updateProject oneProject sampleProject.id sampleForm.toPatch
        "2024-01-06T00:00:00.000Z").2 = [] ++ m :: [] ∧
      m.id = sampleProject.id ∧ m.userId = sampleProject.userId ∧
      m.createdAt = sampleProject.createdAt :=
  (edit_form_keeps_identity { parseDate := fun _ => none, isUrl := fun _ => false }
    oneProject sampleProject sampleForm "admin-001" 0 "" "2024-01-06T00:00:00.000Z" ""
    [] [] sampleProject rfl (by simp) rfl).2.1

/-! ## Matching by derivatives -/

namespace RegExp

theorem matches_seq_iff {a b : RegExp} {u : List Char} :
    Matches (.seq a b) u ↔ ∃ s t, u = s ++ t ∧ Matches a s ∧ Matches b t := by
  constructor
  · intro h
    cases h with
    | seq ha hb => exact ⟨_, _, rfl, ha, hb⟩
  · rintro ⟨s, t, rfl, ha, hb⟩
    exact Matches.seq ha hb

theorem matches_alt_iff {a b : RegExp} {u : List Char} :
    Matches (.alt a b) u ↔ Matches a u ∨ Matches b u := by
  constructor
  · intro h
    cases h with
    | altLeft h => exact Or.inl h
    | altRight h => exact Or.inr h
  · rintro (h | h)
    · exact Matches.altLeft h
    · exact Matches.altRight h

theorem matches_cls_iff {p : Char → Bool} {u : List Char} :
    Matches (.cls p) u ↔ ∃ c, u = [c] ∧ p c = true := by
  constructor
  · intro h
    cases h with
    | cls _ c hc => exact ⟨c, rfl, hc⟩
  · rintro ⟨c, rfl, hc⟩
    exact Matches.cls p c hc

theorem matches_empty_iff {u : List Char} : Matches .empty u ↔ u = [] := by
  constructor
  · intro h
    cases h
    rfl
  · rintro rfl
    exact Matches.empty

theorem not_matches_none {u : List Char} : ¬ Matches .none u := by
  intro h
  cases h

/-- A match of `a*` on a list that starts with `c` starts with a match of `a`
on a list that starts with `c`. -/
theorem matches_star_cons {a : RegExp} {c : Char} {u : List Char}
    (h : Matches (.star a) (c :: u)) :
    ∃ s t, u = s ++ t ∧ Matches a (c :: s) ∧ Matches (.star a) t := by
  generalize hr : RegExp.star a = r at h
  generalize hv : c :: u = v at h
  induction h with
  | empty => cases hr
  | cls _ _ _ => cases hr
  | seq _ _ _ _ => cases hr
  | altLeft _ _ => cases hr
  | altRight _ _ => cases hr
  | starNil => cases hv
  | @starCons a' s t hs ht _ iht =>
    injection hr with hr
    subst hr
    cases s with
    | nil =>
      exact iht rfl (by simpa using hv)
    | cons d s' =>
      simp only [List.cons_append, List.cons.injEq] at hv
      obtain ⟨hd, hu⟩ := hv
      subst hd
      exact ⟨s', t, hu, hs, ht⟩

theorem nullable_iff : ∀ r : RegExp, nullable r = true ↔ Matches r []
  | .none => by simp [nullable, not_matches_none]
  | .empty => by simp [nullable, matches_empty_iff]
  | .cls p => by simp [nullable, matches_cls_iff]
  | .seq a b => by
    rw [nullable, Bool.and_eq_true, nullable_iff a, nullable_iff b, matches_seq_iff]
    constructor
    · rintro ⟨ha, hb⟩
      exact ⟨[], [], rfl, ha, hb⟩
    · rintro ⟨s, t, hst, ha, hb⟩
      have hs : s = [] := (List.append_eq_nil.1 hst.symm).1
      have ht : t = [] := (List.append_eq_nil.1 hst.symm).2
      subst hs ht
      exact ⟨ha, hb⟩
  | .alt a b => by
    rw [nullable, Bool.or_eq_true, nullable_iff a, nullable_iff b, matches_alt_iff]
  | .star a => by
    simp only [nullable, true_iff]
    exact Matches.starNil

theorem deriv_iff (c : Char) : ∀ (r : RegExp) (u : List Char),
    Matches (deriv c r) u ↔ Matches r (c :: u)
  | .none, u => by simp [deriv, not_matches_none]
  | .empty, u => by simp [deriv, not_matches_none, matches_empty_iff]
  | .cls p, u => by
    rw [deriv, matches_cls_iff]
    by_cases hp : p c = true
    · simp only [hp, if_true, matches_empty_iff]
      constructor
      · rintro rfl
        exact ⟨c, rfl, hp⟩
      · rintro ⟨d, hd, _⟩
        simp only [List.cons.injEq] at hd
        exact hd.2
    · simp only [hp, if_false]
      constructor
      · intro h
        exact absurd h not_matches_none
      · rintro ⟨d, hd, hpd⟩
        simp only [List.cons.injEq] at hd
        rw [← hd.1] at hpd
        exact absurd hpd hp
  | .seq a b, u => by
    have key : Matches (.seq a b) (c :: u) ↔
        (∃ s t, u = s ++ t ∧ Matches a (c :: s) ∧ Matches b t) ∨
        (Matches a [] ∧ Matches b (c :: u)) := by
      rw [matches_seq_iff]
      constructor
      · rintro ⟨s, t, hst, ha, hb⟩
        cases s with
        | nil =>
          right
          simp only [List.nil_append] at hst
          rw [hst]
          exact ⟨ha, hb⟩
        | cons d s' =>
          left
          simp only [List.cons_append, List.cons.injEq] at hst
          obtain ⟨hd, hu⟩ := hst
          subst hd
          exact ⟨s', t, hu, ha, hb⟩
      · rintro (⟨s, t, hu, ha, hb⟩ | ⟨ha, hb⟩)
        · exact ⟨c :: s, t, by rw [hu]; rfl, ha, hb⟩
        · exact ⟨[], c :: u, rfl, ha, hb⟩
    have hleft : Matches (.seq (deriv c a) b) u ↔
        ∃ s t, u = s ++ t ∧ Matches a (c :: s) ∧ Matches b t := by
      rw [matches_seq_iff]
      constructor
      · rintro ⟨s, t, hu, ha, hb⟩
        exact ⟨s, t, hu, (deriv_iff c a s).1 ha, hb⟩
      · rintro ⟨s, t, hu, ha, hb⟩
        exact ⟨s, t, hu, (deriv_iff c a s).2 ha, hb⟩
    rw [deriv, key]
    by_cases hn : nullable a = true
    · rw [if_pos hn, matches_alt_iff, hleft, deriv_iff c b u]
      have hnil := (nullable_iff a).1 hn
      constructor
      · rintro (h | h)
        · exact Or.inl h
        · exact Or.inr ⟨hnil, h⟩
      · rintro (h | h)
        · exact Or.inl h
        · exact Or.inr h.2
    · rw [if_neg hn, hleft]
      constructor
      · intro h
        exact Or.inl h
      · rintro (h | h)
        · exact h
        · exact absurd ((nullable_iff a).2 h.1) hn
  | .alt a b, u => by
    rw [deriv, matches_alt_iff, matches_alt_iff, deriv_iff c a u, deriv_iff c b u]
  | .star a, u => by
    rw [deriv, matches_seq_iff]
    constructor
    · rintro ⟨s, t, hu, ha, ht⟩
      rw [hu]
      exact Matches.starCons (s := c :: s) ((deriv_iff c a s).1 ha) ht
    · intro h
      obtain ⟨s, t, hu, ha, ht⟩ := matches_star_cons h
      exact ⟨s, t, hu, (deriv_iff c a s).2 ha, ht⟩

/-- Matching by derivatives decides the language of the expression. -/
theorem matchesChars_iff : ∀ (u : List Char) (r : RegExp),
    matchesChars r u = true ↔ Matches r u
  | [], r => by rw [matchesChars, nullable_iff]
  | c :: u, r => by rw [matchesChars, matchesChars_iff u (deriv c r), deriv_iff]

theorem matches_star_cls_iff (p : Char → Bool) :
    ∀ u : List Char, Matches (.star (.cls p)) u ↔ ∀ c ∈ u, p c = true
  | [] => by
    simp only [List.not_mem_nil, false_implies, implies_true, iff_true]
    exact Matches.starNil
  | c :: u => by
    constructor
    · intro h
      obtain ⟨s, t, hu, hc, ht⟩ := matches_star_cons h
      obtain ⟨d, hd, hpd⟩ := matches_cls_iff.1 hc
      simp only [List.cons.injEq] at hd
      obtain ⟨hcd, hs⟩ := hd
      subst hcd hs
      simp only [List.nil_append] at hu
      subst hu
      intro x hx
      rcases List.mem_cons.1 hx with rfl | hx
      · exact hpd
      · exact (matches_star_cls_iff p u).1 ht x hx
    · intro h
      have h1 : Matches (.cls p) [c] := Matches.cls p c (h c (List.mem_cons_self _ _))
      have h2 : Matches (.star (.cls p)) u :=
        (matches_star_cls_iff p u).2 (fun x hx => h x (List.mem_cons_of_mem _ hx))
      exact Matches.starCons h1 h2

/-- The expression `[...]+` matches the lists that are not empty and whose
characters are all in the class. -/
theorem matches_plus_cls_iff (p : Char → Bool) (u : List Char) :
    Matches (plus (.cls p)) u ↔ u ≠ [] ∧ ∀ c ∈ u, p c = true := by
  rw [plus, matches_seq_iff]
  constructor
  · rintro ⟨s, t, hu, hs, ht⟩
    obtain ⟨d, hd, hpd⟩ := matches_cls_iff.1 hs
    subst hd hu
    refine ⟨by simp, ?_⟩
    intro x hx
    rcases List.mem_cons.1 hx with rfl | hx
    · exact hpd
    · exact (matches_star_cls_iff p t).1 ht x hx
  · rintro ⟨hne, hall⟩
    cases u with
    | nil => exact absurd rfl hne
    | cons c u =>
      exact ⟨[c], u, rfl, matches_cls_iff.2 ⟨c, rfl, hall c (List.mem_cons_self _ _)⟩,
        (matches_star_cls_iff p u).2 (fun x hx => hall x (List.mem_cons_of_mem _ hx))⟩

end RegExp

/-! ## The email validator -/

theorem notSpaceOrAt_iff (c : Char) :
    notSpaceOrAt c = true ↔ isWhiteSpace c = false ∧ c ≠ '@' := by
  simp [notSpaceOrAt]

/-- The language of `emailRegex`: a local part, `@`, and a domain made of two
parts around a dot, each part not empty and free of white space and `@`. -/
theorem matches_emailRegex_iff (u : List Char) :
    RegExp.Matches emailRegex u ↔
      ∃ l d1 d2 : List Char, u = l ++ '@' :: (d1 ++ '.' :: d2) ∧
        (l ≠ [] ∧ ∀ c ∈ l, notSpaceOrAt c = true) ∧
        (d1 ≠ [] ∧ ∀ c ∈ d1, notSpaceOrAt c = true) ∧
        (d2 ≠ [] ∧ ∀ c ∈ d2, notSpaceOrAt c = true) := by
  unfold emailRegex
  simp only [RegExp.matches_seq_iff, RegExp.matches_cls_iff, RegExp.matches_plus_cls_iff]
  constructor
  · rintro ⟨l, r1, hu, hl, s1, r2, hr1, ⟨c1, hs1, hc1⟩, d1, r3, hr2, hd1, s2, d2, hr3,
      ⟨c2, hs2, hc2⟩, hd2⟩
    have e1 : c1 = '@' := by simpa using hc1
    have e2 : c2 = '.' := by simpa using hc2
    subst hs1 hs2 e1 e2 hr3 hr2 hr1 hu
    exact ⟨l, d1, d2, by simp, hl, hd1, hd2⟩
  · rintro ⟨l, d1, d2, hu, hl, hd1, hd2⟩
    exact ⟨l, '@' :: (d1 ++ '.' :: d2), hu, hl, ['@'], d1 ++ '.' :: d2, rfl,
      ⟨'@', rfl, by simp⟩, d1, '.' :: d2, rfl, hd1, ['.'], d2, rfl, ⟨'.', rfl, by simp⟩, hd2⟩

/-- C24. `validateEmail(e)` returns the empty string if and only if `e`
contains no white space, contains exactly one `@` with at least one character
before it, and the part after the `@` contains a `.` that is neither its
first nor its last character; otherwise it returns an error message that is
not empty. -/
theorem validateEmail_spec (e : String) :
    validateEmail e = "" ↔
      (∀ c ∈ e.data, isWhiteSpace c = false) ∧
      ∃ localPart domain : List Char,
        e.data = localPart ++ '@' :: domain ∧
        localPart ≠ [] ∧ '@' ∉ localPart ∧ '@' ∉ domain ∧
        ∃ a b : List Char, domain = a ++ '.' :: b ∧ a ≠ [] ∧ b ≠ [] := by
  have hval : validateEmail e = "" ↔ RegExp.Matches emailRegex e.data := by
    rw [← RegExp.matchesChars_iff]
    unfold validateEmail
    by_cases h0 : e = ""
    · subst h0
      simp only [if_true]
      constructor
      · intro h; exact absurd h (by decide)
      · intro h; exact absurd h (by decide)
    · simp only [h0, if_false, RegExp.test]
      by_cases ht : RegExp.matchesChars emailRegex e.data = true
      · simp [ht]
      · simp only [ht, Bool.not_false, if_true, iff_false, Bool.false_eq_true]
        decide
  rw [hval, matches_emailRegex_iff]
  constructor
  · rintro ⟨l, d1, d2, hu, ⟨hl, hal⟩, ⟨hd1, had1⟩, ⟨hd2, had2⟩⟩
    refine ⟨?_, l, d1 ++ '.' :: d2, hu, hl, ?_, ?_, d1, d2, rfl, hd1, hd2⟩
    · intro c hc
      rw [hu] at hc
      simp only [List.mem_append, List.mem_cons] at hc
      rcases hc with hc | rfl | hc | rfl | hc
      · exact ((notSpaceOrAt_iff c).1 (hal c hc)).1
      · decide
      · exact ((notSpaceOrAt_iff c).1 (had1 c hc)).1
      · decide
      · exact ((notSpaceOrAt_iff c).1 (had2 c hc)).1
    · intro hc
      exact ((notSpaceOrAt_iff _).1 (hal _ hc)).2 rfl
    · intro hc
      simp only [List.mem_append, List.mem_cons] at hc
      rcases hc with hc | hc | hc
      · exact ((notSpaceOrAt_iff _).1 (had1 _ hc)).2 rfl
      · exact absurd hc (by decide)
      · exact ((notSpaceOrAt_iff _).1 (had2 _ hc)).2 rfl
  · rintro ⟨hws, l, domain, hu, hl, hnl, hnd, a, b, hd, ha, hb⟩
    subst hd
    refine ⟨l, a, b, hu, ⟨hl, ?_⟩, ⟨ha, ?_⟩, ⟨hb, ?_⟩⟩
    · intro c hc
      refine (notSpaceOrAt_iff c).2 ⟨hws c (by rw [hu]; simp [hc]), ?_⟩
      rintro rfl
      exact hnl hc
    · intro c hc
      refine (notSpaceOrAt_iff c).2 ⟨hws c (by rw [hu]; simp [hc]), ?_⟩
      rintro rfl
      exact hnd (by simp [hc])
    · intro c hc
      refine (notSpaceOrAt_iff c).2 ⟨hws c (by rw [hu]; simp [hc]), ?_⟩
      rintro rfl
      exact hnd (by simp [hc])

theorem validateEmail_spec_witness :
    validateEmail "ann@x.com" = "" ∧ validateEmail "ann@x." ≠ "" :=
  ⟨(validateEmail_spec "ann@x.com").2
      ⟨by decide, "ann".data, "x.com".data, rfl, by decide, by decide, by decide,
        "x".data, "com".data, rfl, by decide, by decide⟩,
   by decide⟩

/-! ## The seeded accounts and the login form -/

/-- In login mode, a valid form whose `login` call succeeds shows the success
toast and leaves the state that `login` left. -/
theorem handleSubmit_of_login (str : StringHost) (st : AuthState) (formData : AuthFormData)
    (dateNow : Nat) (rnd now : String) (u : User) (st' : AuthState)
    (hv : Auth.isValid (Auth.validateForm true formData) = true)
    (hl : login str st formData.email formData.password = (.ok u, st')) :
    Auth.handleSubmit str st true formData dateNow rnd now =
      ({ message := "Login successful! Redirecting...", type := "success" }, st') := by
  unfold Auth.handleSubmit
  simp only [hv, hl, Bool.not_true, Bool.false_eq_true, if_false, if_true]

/-- C28. The seeded default accounts can pass the login form: both seeded
emails are accepted by `validateEmail` and both seeded passwords by
`validatePassword`, so `validateForm` of the login form reports no error, and
`handleSubmit` then calls `login`, which succeeds on the seeded directory. -/
theorem seeded_accounts_pass_form (str : StringHost) (nowAdmin nowStudent : String)
    (dateNow : Nat) (rnd now : String) :
    validateEmail (defaultAdmin nowAdmin).email = "" ∧
    validateEmail (defaultStudent nowStudent).email = "" ∧
    (defaultAdmin nowAdmin).password = some "Admin@123" ∧
    (defaultStudent nowStudent).password = some "Student@123" ∧
    validatePassword "Admin@123" = "" ∧
    validatePassword "Student@123" = "" ∧
    Auth.isValid (Auth.validateForm true
      { name := "", email := "admin@portfoliohub.com", password := "Admin@123" }) = true ∧
    Auth.isValid (Auth.validateForm true
      { name := "", email := "student@example.com", password := "Student@123" }) = true ∧
    (Auth.handleSubmit str (startup emptyStorage nowAdmin nowStudent) true
      { name := "", email := "admin@portfoliohub.com", password := "Admin@123" }
      dateNow rnd now).1 =
      { message := "Login successful! Redirecting...", type := "success" } ∧
    isAdmin (Auth.handleSubmit str (startup emptyStorage nowAdmin nowStudent) true
      { name := "", email := "admin@portfoliohub.com", password := "Admin@123" }
      dateNow rnd now).2 = true ∧
    (Auth.handleSubmit str (startup emptyStorage nowAdmin nowStudent) true
      { name := "", email := "student@example.com", password := "Student@123" }
      dateNow rnd now).1 =
      { message := "Login successful! Redirecting...", type := "success" } ∧
    isStudent (Auth.handleSubmit str (startup emptyStorage nowAdmin nowStudent) true
      { name := "", email := "student@example.com", password := "Student@123" }
      dateNow rnd now).2 = true := by
  have hs : getAllUsers (startup emptyStorage nowAdmin nowStudent).storage =
      [defaultAdmin nowAdmin, defaultStudent nowStudent] := rfl
  obtain ⟨hA, hS⟩ := findUserByEmail_seeded str
    (startup emptyStorage nowAdmin nowStudent).storage nowAdmin nowStudent hs
  have hlA := login_of_find str (startup emptyStorage nowAdmin nowStudent)
    "admin@portfoliohub.com" "Admin@123" (defaultAdmin nowAdmin) hA rfl
  have hlS := login_of_find str (startup emptyStorage nowAdmin nowStudent)
    "student@example.com" "Student@123" (defaultStudent nowStudent) hS rfl
  have hfA := handleSubmit_of_login str (startup emptyStorage nowAdmin nowStudent)
    { name := "", email := "admin@portfoliohub.com", password := "Admin@123" }
    dateNow rnd now _ _ (by decide) hlA
  have hfS := handleSubmit_of_login str (startup emptyStorage nowAdmin nowStudent)
    { name := "", email := "student@example.com", password := "Student@123" }
    dateNow rnd now _ _ (by decide) hlS
  refine ⟨by show validateEmail "admin@portfoliohub.com" = ""; decide,
    by show validateEmail "student@example.com" = ""; decide,
    rfl, rfl, by decide, by decide, by decide, by decide, ?_, ?_, ?_, ?_⟩
  · rw [hfA]
  · rw [hfA]; rfl
  · rw [hfS]
  · rw [hfS]; rfl

/-! ## The date order in the project form -/

/-- C25. For every project form in which both `startDate` and `endDate` are
present and well-formed dates, `validateForm` accepts the form only if the end
date is not before the start date; a form whose end date is earlier than its
start date is rejected with an `endDate` error, and `handleSubmit` then leaves
the store as it was: nothing is created or saved. -/
theorem end_before_start_rejected (host : Host) (formData : FormData) (s e : Int)
    (hs : formData.startDate ≠ "") (he : formData.endDate ≠ "")
    (hps : host.parseDate formData.startDate = some s)
    (hpe : host.parseDate formData.endDate = some e) :
    (ProjectModal.isValid (ProjectModal.validateForm host formData) = true → s ≤ e) ∧
    (e < s →
      (ProjectModal.validateForm host formData).endDate =
        some "End date must be after start date" ∧
      ProjectModal.isValid (ProjectModal.validateForm host formData) = false ∧
      ∀ (ls : LocalStorage) (project : Option Project) (userId : String) (dateNow : Nat)
        (rnd now1 now2 : String),
        ProjectModal.handleSubmit host ls project formData userId dateNow rnd now1 now2 =
          ls) := by
  have hbefore : ProjectModal.dateBefore host formData.endDate formData.startDate =
      decide (e < s) := by
    simp only [ProjectModal.dateBefore, hps, hpe]
  have hend : e < s → (ProjectModal.validateForm host formData).endDate =
      some "End date must be after start date" := by
    intro hlt
    simp only [ProjectModal.validateForm, hbefore, hs, he, ne_eq, not_false_eq_true,
      decide_eq_true_eq, hlt, and_self, if_true]
  have hinvalid : e < s →
      ProjectModal.isValid (ProjectModal.validateForm host formData) = false := by
    intro hlt
    simp [ProjectModal.isValid, hend hlt]
  refine ⟨?_, ?_⟩
  · intro hv
    by_contra hlt
    rw [hinvalid (lt_of_not_ge hlt)] at hv
    cases hv
  · intro hlt
    refine ⟨hend hlt, hinvalid hlt, ?_⟩
    intro ls project userId dateNow rnd now1 now2
    simp only [ProjectModal.handleSubmit, hinvalid hlt, Bool.false_eq_true, if_false]

theorem end_before_start_rejected_witness :
    (ProjectModal.validateForm sampleHost backwardsForm).endDate =
      some "End date must be after start date" ∧
    ProjectModal.handleSubmit sampleHost oneProject none backwardsForm "admin-001"
      1700000002000 "q1w2e3r4t" "2024-01-04T10:00:00.000Z" "2024-01-04T10:00:00.000Z" =
      oneProject ∧
    ProjectModal.isValid (ProjectModal.validateForm sampleHost forwardsForm) = true ∧
    (19792 * 86400000 : Int) ≤ 19814 * 86400000 :=
  ⟨((end_before_start_rejected sampleHost backwardsForm (19792 * 86400000)
      (19791 * 86400000) (by decide) (by decide) (by decide) (by decide)).2 (by decide)).1,
   ((end_before_start_rejected sampleHost backwardsForm (19792 * 86400000)
      (19791 * 86400000) (by decide) (by decide) (by decide) (by decide)).2
      (by decide)).2.2 oneProject none "admin-001" 1700000002000 "q1w2e3r4t"
      "2024-01-04T10:00:00.000Z" "2024-01-04T10:00:00.000Z",
   by decide,
   (end_before_start_rejected sampleHost forwardsForm (19792 * 86400000)
      (19814 * 86400000) (by decide) (by decide) (by decide) (by decide)).1 (by decide)⟩

/-! ## Rounding to a double -/

theorem abs_roundHalfEven_sub (z : ℚ) : |(roundHalfEven z : ℚ) - z| ≤ 1 / 2 := by
  have h1 : ((⌊z⌋ : Int) : ℚ) ≤ z := Int.floor_le z
  have h2 : z < (⌊z⌋ : Int) + 1 := Int.lt_floor_add_one z
  unfold roundHalfEven
  simp only []
  rw [abs_le]
  split_ifs with ha hb hc
  · constructor <;> linarith
  · constructor <;> push_cast <;> linarith
  · constructor <;> linarith
  · constructor <;> push_cast <;> linarith

theorem roundHalfEven_nonneg {z : ℚ} (hz : 0 ≤ z) : 0 ≤ roundHalfEven z := by
  have h0 : 0 ≤ ⌊z⌋ := Int.floor_nonneg.2 hz
  unfold roundHalfEven
  simp only []
  split_ifs <;> omega

theorem toDouble_nonneg {q : ℚ} (hq : 0 ≤ q) : 0 ≤ toDouble q := by
  unfold toDouble
  split_ifs with h0
  · exact le_refl _
  · have hu : (0 : ℚ) < 2 ^ (Int.log 2 |q| - 52) := by positivity
    have hz : 0 ≤ q / 2 ^ (Int.log 2 |q| - 52) := div_nonneg hq hu.le
    have := roundHalfEven_nonneg hz
    have hc : (0 : ℚ) ≤ (roundHalfEven (q / 2 ^ (Int.log 2 |q| - 52)) : ℚ) := by exact_mod_cast this
    exact mul_nonneg hc hu.le

theorem abs_toDouble_sub {q : ℚ} (hq : 0 ≤ q) :
    |toDouble q - q| ≤ q / 2 ^ 53 := by
  unfold toDouble
  split_ifs with h0
  · subst h0; simp
  · have hpos : 0 < q := lt_of_le_of_ne hq (Ne.symm h0)
    rw [abs_of_pos hpos]
    set e := Int.log 2 q with he
    have hu : (0 : ℚ) < 2 ^ (e - 52) := by positivity
    have hlog : (2 : ℚ) ^ e ≤ q := by
      have := Int.zpow_log_le_self (b := 2) (by norm_num) hpos
      simpa using this
    have herr := abs_roundHalfEven_sub (q / 2 ^ (e - 52))
    have hrew : (roundHalfEven (q / 2 ^ (e - 52)) : ℚ) * 2 ^ (e - 52) - q =
        ((roundHalfEven (q / 2 ^ (e - 52)) : ℚ) - q / 2 ^ (e - 52)) * 2 ^ (e - 52) := by
      field_simp
    rw [hrew, abs_mul, abs_of_pos hu]
    have hulp : (2 : ℚ) ^ (e - 52) = 2 ^ e / 2 ^ 52 := by
      rw [zpow_sub₀ (by norm_num : (2 : ℚ) ≠ 0)]
      norm_cast
    calc |(roundHalfEven (q / 2 ^ (e - 52)) : ℚ) - q / 2 ^ (e - 52)| * 2 ^ (e - 52)
        ≤ 1 / 2 * 2 ^ (e - 52) := by
          exact mul_le_mul_of_nonneg_right herr hu.le
      _ = 2 ^ e / 2 ^ 53 := by rw [hulp]; ring
      _ ≤ q / 2 ^ 53 := by
          apply div_le_div_of_nonneg_right hlog (by positivity)

theorem roundHalfEven_eq_of_near {z : ℚ} {k : Int} (h1 : (k : ℚ) - 1 / 2 < z)
    (h2 : z < k + 1 / 2) : roundHalfEven z = k := by
  have hf1 : ((⌊z⌋ : Int) : ℚ) ≤ z := Int.floor_le z
  have hf2 : z < (⌊z⌋ : Int) + 1 := Int.lt_floor_add_one z
  have hlo : k - 1 ≤ ⌊z⌋ := by
    rw [Int.le_floor]
    push_cast
    linarith
  have hhi : ⌊z⌋ ≤ k := by
    have : ((⌊z⌋ : Int) : ℚ) < k + 1 := by linarith
    have : ⌊z⌋ < k + 1 := by exact_mod_cast this
    omega
  unfold roundHalfEven
  simp only []
  rcases (by omega : ⌊z⌋ = k ∨ ⌊z⌋ = k - 1) with hk | hk
  · rw [hk]
    rw [if_pos (by linarith)]
  · rw [hk]
    have hcast : ((k - 1 : Int) : ℚ) = (k : ℚ) - 1 := by push_cast; ring
    rw [if_neg (by rw [hcast]; linarith), if_pos (by rw [hcast]; linarith)]
    omega

theorem toDouble_eval {q : ℚ} (e k : Int) (hq : 0 < q) (he1 : (2 : ℚ) ^ e ≤ q)
    (he2 : q < 2 ^ (e + 1)) (hk1 : (k : ℚ) - 1 / 2 < q / 2 ^ (e - 52))
    (hk2 : q / 2 ^ (e - 52) < k + 1 / 2) : toDouble q = k * 2 ^ (e - 52) := by
  have hlog : Int.log 2 q = e := by
    have h1 : e ≤ Int.log 2 q :=
      (Int.zpow_le_iff_le_log (b := 2) (by norm_num) hq).1 (by simpa using he1)
    have h2 : Int.log 2 q < e + 1 :=
      (Int.lt_zpow_iff_log_lt (b := 2) (by norm_num) hq).1 (by simpa using he2)
    omega
  unfold toDouble
  rw [if_neg (ne_of_gt hq), abs_of_pos hq, hlog, roundHalfEven_eq_of_near hk1 hk2]

theorem toDouble_one : toDouble 1 = 1 := by
  rw [toDouble_eval 0 (2 ^ 52) (by norm_num) (by norm_num) (by norm_num) (by norm_num)
    (by norm_num)]
  norm_num

theorem toDouble_hundred : toDouble 100 = 100 := by
  rw [toDouble_eval 6 (100 * 2 ^ 46) (by norm_num) (by norm_num) (by norm_num) (by norm_num)
    (by norm_num)]
  norm_num

theorem toDouble_23_40 : toDouble (23 / 40) = 5179139571476070 / 2 ^ 53 := by
  rw [toDouble_eval (-1) 5179139571476070 (by norm_num) (by norm_num) (by norm_num)
    (by norm_num) (by norm_num)]
  norm_num

theorem mathRound_23_40 : mathRound (toDouble (toDouble (23 / 40) * 100)) = 57 := by
  rw [toDouble_23_40]
  rw [toDouble_eval 5 8092405580431359 (by norm_num) (by norm_num) (by norm_num)
    (by norm_num) (by norm_num)]
  unfold mathRound
  rw [Int.floor_eq_iff]
  norm_num

theorem progress_near (c n : Nat) (hn : 0 < n) (hc : c ≤ n) :
    0 ≤ toDouble (toDouble ((c : ℚ) / n) * 100) ∧
    |toDouble (toDouble ((c : ℚ) / n) * 100) - 100 * c / n| ≤ 300 / 2 ^ 53 := by
  have hnq : (0 : ℚ) < n := by exact_mod_cast hn
  have hx0 : (0 : ℚ) ≤ (c : ℚ) / n := by positivity
  have hx1 : (c : ℚ) / n ≤ 1 := by
    rw [div_le_one hnq]
    exact_mod_cast hc
  have h1 := abs_toDouble_sub hx0
  have hy0 := toDouble_nonneg hx0
  have hz0 : 0 ≤ toDouble ((c : ℚ) / n) * 100 := by positivity
  have h2 := abs_toDouble_sub hz0
  refine ⟨toDouble_nonneg hz0, ?_⟩
  rw [abs_le] at h1 h2 ⊢
  have hr : (100 : ℚ) * c / n = 100 * ((c : ℚ) / n) := by ring
  rw [hr]
  have hp : (0 : ℚ) < 2 ^ 53 := by positivity
  have hd1 : (c : ℚ) / n / 2 ^ 53 ≤ 1 / 2 ^ 53 := div_le_div_of_nonneg_right hx1 hp.le
  have hy1 : toDouble ((c : ℚ) / n) ≤ 2 := by
    have : (1 : ℚ) / 2 ^ 53 ≤ 1 := by norm_num
    linarith [h1.2]
  have hd2 : toDouble ((c : ℚ) / n) * 100 / 2 ^ 53 ≤ 200 / 2 ^ 53 :=
    div_le_div_of_nonneg_right (by linarith) hp.le
  have e1 : (1 : ℚ) / 2 ^ 53 * 100 + 200 / 2 ^ 53 = 300 / 2 ^ 53 := by ring
  constructor <;> linarith [h1.1, h1.2, h2.1, h2.2]

/-- Rounding a value that is close to a ratio with small denominator. -/
theorem mathRound_of_near (y r : ℚ) (n : Nat) (K : Int) (hn : 0 < n) (hn32 : n < 2 ^ 32)
    (hK : (r + 1 / 2) * (2 * n) = K) (hnear : |y - r| ≤ 300 / 2 ^ 53) :
    ((∀ k : Int, r ≠ k + 1 / 2) → mathRound y = ⌊r + 1 / 2⌋) ∧
    (∀ k : Int, r = k + 1 / 2 → mathRound y = k ∨ mathRound y = k + 1) := by
  have hnq : (0 : ℚ) < n := by exact_mod_cast hn
  have h2n : (0 : ℚ) < 2 * n := by positivity
  have hn32q : (n : ℚ) < 2 ^ 32 := by exact_mod_cast hn32
  have heps : (300 : ℚ) / 2 ^ 53 * (2 * n) < 1 := by
    have : (300 : ℚ) / 2 ^ 53 * (2 * n) < 300 / 2 ^ 53 * (2 * 2 ^ 32) := by
      apply mul_lt_mul_of_pos_left _ (by positivity)
      linarith
    have h3 : (300 : ℚ) / 2 ^ 53 * (2 * 2 ^ 32) < 1 := by norm_num
    linarith
  rw [abs_le] at hnear
  constructor
  · intro hnot
    unfold mathRound
    rw [Int.floor_eq_iff]
    have hf1 : ((⌊r + 1 / 2⌋ : Int) : ℚ) ≤ r + 1 / 2 := Int.floor_le _
    have hf2 : r + 1 / 2 < (⌊r + 1 / 2⌋ : Int) + 1 := Int.lt_floor_add_one _
    -- the distance of `r + 1/2` to its floor, in units of `1 / (2 n)`
    have hJ : ((K - 2 * n * ⌊r + 1 / 2⌋ : Int) : ℚ) =
        (r + 1 / 2 - (⌊r + 1 / 2⌋ : Int)) * (2 * n) := by
      push_cast
      rw [← hK]
      ring
    have hne : r + 1 / 2 - (⌊r + 1 / 2⌋ : Int) ≠ 0 := by
      intro h0
      apply hnot (⌊r + 1 / 2⌋ - 1)
      push_cast
      linarith
    have hpos : 0 < r + 1 / 2 - (⌊r + 1 / 2⌋ : Int) :=
      lt_of_le_of_ne (by linarith) (Ne.symm hne)
    have hJpos : (0 : ℚ) < ((K - 2 * n * ⌊r + 1 / 2⌋ : Int) : ℚ) := by
      rw [hJ]; positivity
    have hJ1 : (1 : ℚ) ≤ ((K - 2 * n * ⌊r + 1 / 2⌋ : Int) : ℚ) := by
      have : 0 < K - 2 * n * ⌊r + 1 / 2⌋ := by exact_mod_cast hJpos
      have : 1 ≤ K - 2 * n * ⌊r + 1 / 2⌋ := by omega
      exact_mod_cast this
    have hJlt : ((K - 2 * n * ⌊r + 1 / 2⌋ : Int) : ℚ) < 2 * n := by
      rw [hJ]
      have : r + 1 / 2 - (⌊r + 1 / 2⌋ : Int) < 1 := by linarith
      calc (r + 1 / 2 - (⌊r + 1 / 2⌋ : Int)) * (2 * n) < 1 * (2 * n) :=
            mul_lt_mul_of_pos_right this h2n
        _ = 2 * n := one_mul _
    have hJ2 : ((K - 2 * n * ⌊r + 1 / 2⌋ : Int) : ℚ) ≤ 2 * n - 1 := by
      have h : K - 2 * n * ⌊r + 1 / 2⌋ < 2 * n := by exact_mod_cast hJlt
      have h' : K - 2 * n * ⌊r + 1 / 2⌋ ≤ 2 * n - 1 := by omega
      exact_mod_cast h'
    rw [hJ] at hJ1 hJ2
    constructor
    · -- floor ≤ y + 1/2
      by_contra hlt
      push_neg at hlt
      have : (r + 1 / 2 - (⌊r + 1 / 2⌋ : Int)) < 300 / 2 ^ 53 := by linarith [hnear.1]
      have : (r + 1 / 2 - (⌊r + 1 / 2⌋ : Int)) * (2 * n) < 300 / 2 ^ 53 * (2 * n) :=
        mul_lt_mul_of_pos_right this h2n
      linarith
    · by_contra hge
      push_neg at hge
      have : 1 - (r + 1 / 2 - (⌊r + 1 / 2⌋ : Int)) ≤ 300 / 2 ^ 53 := by linarith [hnear.2]
      have : (1 - (r + 1 / 2 - (⌊r + 1 / 2⌋ : Int))) * (2 * n) ≤ 300 / 2 ^ 53 * (2 * n) :=
        mul_le_mul_of_nonneg_right this h2n.le
      linarith
  · intro k hk
    unfold mathRound
    have hsmall : (300 : ℚ) / 2 ^ 53 < 1 := by norm_num
    by_cases hge : (k : ℚ) + 1 ≤ y + 1 / 2
    · right
      rw [Int.floor_eq_iff]
      push_cast
      constructor
      · exact hge
      · linarith [hnear.2]
    · left
      push_neg at hge
      rw [Int.floor_eq_iff]
      constructor
      · linarith [hnear.1]
      · exact hge

/-! ## Progress of a project -/

theorem calculateProgress_some (ms : List Milestone) (hne : ms ≠ []) :
    calculateProgress (some ms) =
      mathRound (toDouble (toDouble
        (((ms.filter (fun m => m.completed)).length : ℚ) / (ms.length : ℚ)) * 100)) := by
  have hlen : ¬ ms.length = 0 := fun h => hne (List.length_eq_zero.1 h)
  simp only [calculateProgress, hlen, if_false]

/-- C30, as stated, fails on a project with forty milestones of which
twenty-three are completed: `100 × 23 / 40` is `57.5`, halfway between `57`
and `58`, which rounds to `58`; the double product `(23 / 40) * 100` is just
below `57.5` and `calculateProgress` returns `57`. -/
theorem calculateProgress_counterexample :
    fortyMilestones.length = 40 ∧
    (fortyMilestones.filter (fun m => m.completed)).length = 23 ∧
    calculateProgress (some fortyMilestones) = 57 ∧
    (100 * 23 / 40 : ℚ) = 57 + 1 / 2 ∧
    ⌊(100 * 23 / 40 : ℚ) + 1 / 2⌋ = 58 ∧
    round (100 * 23 / 40 : ℚ) = 58 := by
  have h1 : fortyMilestones.length = 40 := by decide
  have h2 : (fortyMilestones.filter (fun m => m.completed)).length = 23 := by decide
  refine ⟨h1, h2, ?_, by norm_num, ?_, ?_⟩
  · rw [calculateProgress_some fortyMilestones (by decide), h1, h2]
    have hc : ((23 : Nat) : ℚ) / ((40 : Nat) : ℚ) = 23 / 40 := by norm_num
    rw [hc]
    exact mathRound_23_40
  · rw [Int.floor_eq_iff]
    norm_num
  · rw [round_eq, Int.floor_eq_iff]
    norm_num

/-- C30, amended. `calculateProgress` returns an integer between 0 and 100
inclusive: 0 when the milestone list is missing or empty, 100 when the list is
not empty and every milestone is completed, and otherwise `Math.round` of the
double product `(completed / count) * 100`. For a list of fewer than `2 ^ 32`
milestones (every host array) that is the integer nearest to
`100 × completed / count` when this value is not halfway between two integers,
and one of the two neighbouring integers when it is. -/
theorem calculateProgress_spec (milestones : Option (List Milestone)) :
    (0 ≤ calculateProgress milestones ∧ calculateProgress milestones ≤ 100) ∧
    (milestones = none → calculateProgress milestones = 0) ∧
    (milestones = some [] → calculateProgress milestones = 0) ∧
    (∀ ms, milestones = some ms → ms ≠ [] → (∀ m ∈ ms, m.completed = true) →
      calculateProgress milestones = 100) ∧
    (∀ ms, milestones = some ms → ms ≠ [] → ms.length < 2 ^ 32 →
      ((∀ k : Int, (100 * ((ms.filter (fun m => m.completed)).length : ℚ) / ms.length) ≠
          k + 1 / 2) →
        calculateProgress milestones =
          ⌊(100 * ((ms.filter (fun m => m.completed)).length : ℚ) / ms.length) + 1 / 2⌋) ∧
      (∀ k : Int, (100 * ((ms.filter (fun m => m.completed)).length : ℚ) / ms.length) =
          k + 1 / 2 →
        calculateProgress milestones = k ∨ calculateProgress milestones = k + 1)) := by
  refine ⟨?_, ?_, ?_, ?_, ?_⟩
  · cases milestones with
    | none => exact ⟨le_refl _, by decide⟩
    | some ms =>
      by_cases hne : ms = []
      · subst hne
        exact ⟨le_refl _, by decide⟩
      · have hpos : 0 < ms.length := List.length_pos.2 hne
        have hle : (ms.filter (fun m => m.completed)).length ≤ ms.length :=
          List.length_filter_le _ _
        obtain ⟨hy0, hnear⟩ := progress_near _ _ hpos hle
        rw [calculateProgress_some ms hne]
        rw [abs_le] at hnear
        have hnq : (0 : ℚ) < ms.length := by exact_mod_cast hpos
        have hr : (100 : ℚ) * ((ms.filter (fun m => m.completed)).length : ℚ) / ms.length ≤
            100 := by
          rw [div_le_iff₀ hnq]
          have : ((ms.filter (fun m => m.completed)).length : ℚ) ≤ ms.length := by
            exact_mod_cast hle
          linarith
        have hsmall : (300 : ℚ) / 2 ^ 53 < 1 / 2 := by norm_num
        unfold mathRound
        constructor
        · rw [Int.floor_nonneg]
          linarith
        · have hlt : ⌊toDouble (toDouble
              (((ms.filter (fun m => m.completed)).length : ℚ) / (ms.length : ℚ)) * 100) +
              1 / 2⌋ < 101 := by
            rw [Int.floor_lt]
            push_cast
            linarith [hnear.2]
          omega
  · rintro rfl
    rfl
  · rintro rfl
    rfl
  · intro ms hms hne hall
    subst hms
    rw [calculateProgress_some ms hne]
    have hfil : ms.filter (fun m => m.completed) = ms :=
      List.filter_eq_self.2 (fun m hm => hall m hm)
    have hnq : ((ms.length : Nat) : ℚ) ≠ 0 := by
      have : 0 < ms.length := List.length_pos.2 hne
      exact_mod_cast (Nat.pos_iff_ne_zero.1 this)
    rw [hfil, div_self hnq, toDouble_one, one_mul, toDouble_hundred]
    unfold mathRound
    rw [Int.floor_eq_iff]
    norm_num
  · intro ms hms hne h32
    subst hms
    have hpos : 0 < ms.length := List.length_pos.2 hne
    have hle : (ms.filter (fun m => m.completed)).length ≤ ms.length :=
      List.length_filter_le _ _
    obtain ⟨_, hnear⟩ := progress_near _ _ hpos hle
    have hnq : (ms.length : ℚ) ≠ 0 := by exact_mod_cast (Nat.pos_iff_ne_zero.1 hpos)
    have hK : ((100 : ℚ) * ((ms.filter (fun m => m.completed)).length : ℚ) / ms.length +
        1 / 2) * (2 * (ms.length : ℚ)) =
        ((200 * (ms.filter (fun m => m.completed)).length + ms.length : Int) : ℚ) := by
      push_cast
      field_simp
      ring
    rw [calculateProgress_some ms hne]
    exact mathRound_of_near _ _ ms.length _ hpos h32 hK hnear

theorem calculateProgress_spec_witness :
    calculateProgress (some [doneMilestone, doneMilestone]) = 100 ∧
    (calculateProgress (some fortyMilestones) = 57 ∨
      calculateProgress (some fortyMilestones) = 57 + 1) :=
  ⟨(calculateProgress_spec (some [doneMilestone, doneMilestone])).2.2.2.1
      [doneMilestone, doneMilestone] rfl (by decide) (by decide),
   ((calculateProgress_spec (some fortyMilestones)).2.2.2.2 fortyMilestones rfl
      (by decide) (by decide)).2 57
      (by
        have h1 : fortyMilestones.length = 40 := by decide
        have h2 : (fortyMilestones.filter (fun m => m.completed)).length = 23 := by decide
        rw [h1, h2]
        norm_num)⟩

/-! ## The subtraction captcha -/

theorem toDouble_three_halves : toDouble (1 / 2 * (3 : Nat)) = 3 / 2 := by
  have h : (1 / 2 * ((3 : Nat) : ℚ)) = 3 / 2 := by norm_num
  rw [h, toDouble_eval 0 (3 * 2 ^ 51) (by norm_num) (by norm_num) (by norm_num) (by norm_num)
    (by norm_num)]
  norm_num

theorem toDouble_775_32 : toDouble (31 / 32 * (25 : Nat)) = 775 / 32 := by
  have h : (31 / 32 * ((25 : Nat) : ℚ)) = 775 / 32 := by norm_num
  rw [h, toDouble_eval 4 (775 * 2 ^ 43) (by norm_num) (by norm_num) (by norm_num)
    (by norm_num) (by norm_num)]
  norm_num

/-- C27. The subtraction branch of `generateCaptcha` does not ensure a positive
result: when the three `Math.random()` calls return `0.5`, `0` and `0.96875`,
the captcha is `25 − 25` and its answer is `0`. -/
theorem captcha_subtraction_zero :
    generateCaptcha (1 / 2) 0 (31 / 32) =
      { num1 := 25, num2 := 25, operator := some "-" } ∧
    calculateCorrectAnswer (generateCaptcha (1 / 2) 0 (31 / 32)) = 0 ∧
    ¬ (0 < calculateCorrectAnswer (generateCaptcha (1 / 2) 0 (31 / 32))) := by
  have h0 : randomInt (1 / 2) operators.length = 1 := by
    show mathFloor (toDouble (1 / 2 * (3 : Nat))) = 1
    rw [toDouble_three_halves, mathFloor, Int.floor_eq_iff]
    norm_num
  have h1 : ∀ n : Nat, randomInt 0 n = 0 := by
    intro n
    simp [randomInt, toDouble, mathFloor]
  have h2 : randomInt (31 / 32) 25 = 24 := by
    show mathFloor (toDouble (31 / 32 * (25 : Nat))) = 24
    rw [toDouble_775_32, mathFloor, Int.floor_eq_iff]
    norm_num
  have hg : generateCaptcha (1 / 2) 0 (31 / 32) =
      { num1 := 25, num2 := 25, operator := some "-" } := by
    simp only [generateCaptcha, h0, h1, h2]
    rfl
  refine ⟨hg, ?_, ?_⟩
  · rw [hg]; rfl
  · rw [hg]; decide

end PortfolioTracker
